import Mathlib

/-!
Verification development for `jqdurham/reddit`.

A shallow embedding of the packages `internal/reddit` (client.go, paging.go,
rateStatus.go, errors.go, listing.go, requestHeaders.go), `internal/orchestrator`,
`internal/service/post` and `internal/config`, and theorems about it.

Modelling conventions
* Go `int` is `Int`.  The only arithmetic on it is `page.Count += len(children)`
  and the counting of entries, bounded by the number of entries held in memory, so
  no wrap-around is modelled there; the narrowing conversion `uint8(x)` is
  modelled exactly (`x mod 256`).
* Go `error` values are the inductive `Err`; `fmt.Errorf("p: %w", e)` is
  `Err.Wrapped "p: " e`.
* A Go map (`http.Header`, `url.Values`, `map[string]int`) is an association list
  read with `List.lookup`; the order in which `range` enumerates a map is a
  parameter.
* The rate gate and the HTTP transport are collaborators: they are function
  fields of `Client`, indexed by the number of earlier calls, and every call made
  to them is appended to an explicit trace of `Event`s.
* The goroutines of the orchestrator run one loop iteration at a time in the
  order given by a schedule; a statement for every schedule covers every
  interleaving.
* Standard-library and third-party routines whose text is not part of the
  repository (`strconv.ParseFloat`, `encoding/json`, `time.ParseDuration`,
  `godotenv.Parse`, `strings.ToLower`, `strconv.Quote`) are fields of `Lib`, `Fmt`
  and `Configuration.Deps`.
* Go strings are Lean strings; where bytes matter (`net/url` escaping, base64)
  the UTF-8 bytes of the string are used.
* Logging (`logr.Debug`, `logr.Error`) has no effect on results and is left out.
-/

namespace Reddit

/-! ## Errors (errors.go) -/

/-- Go `error` values produced or propagated by the package. `RateLimitExceeded`
carries a `time.Duration`, i.e. a number of nanoseconds. -/
inductive Err where
  | MissingInput (input : String)
  | NotInitialized
  | NotAuthenticated
  | RateLimitExceeded (ResetsIn : Int)
  | UnexpectedStatus (Method URL : String) (Status : Int)
  | Wrapped (context : String) (inner : Err)
  | NumError (Func Num : String) (outOfRange : Bool)
  | Foreign (msg : String)
  deriving DecidableEq, Repr

/-- Go `(*MissingInputError).Error`. -/
def MissingInputError.Error (input : String) : String :=
  "missing required input: " ++ input

/-- Go `(*NotInitializedError).Error`. -/
def NotInitializedError.Error : String :=
  "client uninitialized, use constructor"

/-- Go `(*NotAuthenticatedError).Error`. -/
def NotAuthenticatedError.Error : String :=
  "not authenticated"

/-- Go `(*UnexpectedStatusError).Error`:
`fmt.Sprintf("unexpected status code %d (%s %s)", u.Status, u.Method, u.URL)`. -/
def UnexpectedStatusError.Error (Method URL : String) (Status : Int) : String :=
  "unexpected status code " ++ toString Status ++ " (" ++ Method ++ " " ++ URL ++ ")"

/-- Go `time.Second` as a `time.Duration` (nanoseconds). -/
def Second : Int := 1000000000

/-! ## Listings (listing.go) -/

structure Post where
  Name : String
  Title : String
  Ups : Int
  Author : String
  deriving DecidableEq, Repr

/-- Type `Listing` embeds `Segment`; `Children` is a slice of structs with the single
field `Post`. -/
structure Listing where
  After : String
  Children : List Post
  deriving DecidableEq, Repr

/-- The anonymous struct `accessTokenResponse` of `Login`. -/
structure AccessTokenResponse where
  AccessToken : String
  ExpiresIn : Int
  Scope : String
  Type_ : String
  deriving DecidableEq, Repr

/-! ## Standard-library collaborators -/

/-- A value of Go type `float32`/`float64` as far as this package looks at it:
it is only stored. -/
inductive GoFloat where
  | finite (q : Rat)
  | inf (negative : Bool)
  | nan
  deriving DecidableEq

/-- Go zero value of a float. -/
def GoFloat.zero : GoFloat := GoFloat.finite 0

/-- Library routines taken as parameters: `strconv.ParseFloat(s, 32)` and
`json.NewDecoder(body).Decode` into a fresh `Listing` / `accessTokenResponse`. -/
structure Lib where
  ParseFloat32 : String → Except Err GoFloat
  decodeListing : String → Except Err Listing
  decodeToken : String → Except Err AccessTokenResponse

/-- The digit loop of `strconv.ParseUint` for base 10 and 64 bits, from the value
`acc` on: `.error false` (a syntax error) at the first byte that is not a decimal
digit, `.error true` (a range error) as soon as the value no longer fits `uint64`,
whichever comes first. -/
def digitsValue : List Char → Nat → Except Bool Nat
  | [], acc => .ok acc
  | c :: cs, acc =>
    if 48 ≤ c.toNat ∧ c.toNat ≤ 57 then
      (if acc * 10 + (c.toNat - 48) < 2 ^ 64 then digitsValue cs (acc * 10 + (c.toNat - 48))
       else .error true)
    else .error false

/-- Go `strconv.Atoi` on a 64-bit platform: an optional sign, then one or more decimal
digits read by the loop above; the value must fit `int64`. The fast path for short
inputs returns what `ParseInt` returns on them. -/
def Atoi (s : String) : Except Err Int :=
  let syntaxError : Except Err Int := .error (Err.NumError "Atoi" s false)
  let rangeError : Except Err Int := .error (Err.NumError "Atoi" s true)
  match s.data with
  | [] => syntaxError
  | c :: cs =>
    let neg := c = '-'
    let ds := if c = '-' ∨ c = '+' then cs else c :: cs
    match ds with
    | [] => syntaxError
    | _ :: _ =>
      match digitsValue ds 0 with
      | .error false => syntaxError
      | .error true => rangeError
      | .ok n =>
        if neg then
          (if n ≤ 2 ^ 63 then .ok (-(n : Int)) else rangeError)
        else
          (if n < 2 ^ 63 then .ok (n : Int) else rangeError)

/-- Go `strconv.Itoa`. -/
def Itoa (n : Int) : String := toString n

/-- The conversion `uint8(x)` of a Go `int`. -/
def uint8 (x : Int) : Nat := (x % 256).toNat

/-! ## Rate status (rateStatus.go) -/

/-- Go `http.Header`: canonical key to list of values. -/
abbrev Header := List (String × List String)

structure RateStatus where
  Remaining : GoFloat
  Reset : Nat
  Used : Nat
  deriving DecidableEq

/-- The guard `v, ok := header[key]; ok && len(v) == 1` of rateStatus.go: the value
`v[0]` when the header is present with exactly one value. -/
def singleValue (header : Header) (key : String) : Option String :=
  match header.lookup key with
  | some [v] => some v
  | _ => none

/-- Function `rateStatus` of rateStatus.go. Each header is parsed only when it passes the
guard above; otherwise its variable keeps the zero value. -/
def rateStatus (lib : Lib) (header : Header) : Except Err RateStatus :=
  let remainR : Except Err GoFloat :=
    match singleValue header "X-Ratelimit-Remaining" with
    | some v => lib.ParseFloat32 v
    | none => .ok GoFloat.zero
  match remainR with
  | .error err => .error (Err.Wrapped "parse ratelimit remaining: " err)
  | .ok remain =>
    let resetR : Except Err Int :=
      match singleValue header "X-Ratelimit-Reset" with
      | some v => Atoi v
      | none => .ok 0
    match resetR with
    | .error err => .error (Err.Wrapped "parse ratelimit reset: " err)
    | .ok reset =>
      let usedR : Except Err Int :=
        match singleValue header "X-Ratelimit-Used" with
        | some v => Atoi v
        | none => .ok 0
      match usedR with
      | .error err => .error (Err.Wrapped "parse ratelimit used: " err)
      | .ok used => .ok { Remaining := remain, Reset := uint8 reset, Used := uint8 used }

/-! ## URL encoding (net/url), as far as the client uses it -/

/-- The escaping modes of `net/url` that the client reaches. -/
inductive Encoding where
  | encodePath
  | encodeQueryComponent
  deriving DecidableEq

/-- Go `shouldEscape` of `net/url` on one byte, for the two modes above. -/
def shouldEscape (c : Nat) (mode : Encoding) : Bool :=
  if (97 ≤ c ∧ c ≤ 122) ∨ (65 ≤ c ∧ c ≤ 90) ∨ (48 ≤ c ∧ c ≤ 57) then false
  else if c = 45 ∨ c = 95 ∨ c = 46 ∨ c = 126 then false
  else if c = 36 ∨ c = 38 ∨ c = 43 ∨ c = 44 ∨ c = 47 ∨ c = 58 ∨ c = 59 ∨ c = 61
      ∨ c = 63 ∨ c = 64 then
    (match mode with
     | .encodePath => decide (c = 63)
     | .encodeQueryComponent => true)
  else true

/-- Upper-case hexadecimal digit (`upperhex`). -/
def upperhex (n : Nat) : Char :=
  "0123456789ABCDEF".data.getD n '0'

/-- One byte as `escape` of `net/url` writes it. -/
def escapeByte (mode : Encoding) (c : Nat) : List Char :=
  if shouldEscape c mode then
    (if c = 32 ∧ mode = Encoding.encodeQueryComponent then ['+']
     else ['%', upperhex (c / 16), upperhex (c % 16)])
  else [Char.ofNat c]

/-- The UTF-8 bytes of a string. -/
def bytes (s : String) : List Nat :=
  s.data.flatMap fun ch => (String.utf8EncodeChar ch).map UInt8.toNat

/-- Go `escape` of `net/url`. -/
def escape (s : String) (mode : Encoding) : String :=
  String.mk ((bytes s).flatMap (escapeByte mode))

/-- Go `url.QueryEscape`. -/
def QueryEscape (s : String) : String := escape s Encoding.encodeQueryComponent

/-- Go `url.Values`: key to list of values. -/
abbrev Values := List (String × List String)

/-- Go `Values.Set` (also `http.Header.Set` on an already canonical key):
the key maps to the single value afterwards. -/
def Values.Set (v : Values) (key value : String) : Values :=
  (key, [value]) :: v.filter (fun kv => kv.1 ≠ key)

/-- Go `Values.Add`: `v[key] = append(v[key], value)`. -/
def Values.Add (v : Values) (key value : String) : Values :=
  (key, (v.lookup key).getD [] ++ [value]) :: v.filter (fun kv => kv.1 ≠ key)

/-- Insertion of a key into a sorted key list (`slices.Sort(keys)`). -/
def insertKey (k : String) : List String → List String
  | [] => [k]
  | x :: xs => if k.data < x.data then k :: x :: xs else x :: insertKey k xs

/-- The keys of a map in increasing order. -/
def sortedKeys (v : Values) : List String :=
  (v.map Prod.fst).foldr insertKey []

/-- Go `Values.Encode`: `key=value` pairs, keys sorted, joined by `&`, keys and values
query-escaped. -/
def Values.Encode (v : Values) : String :=
  "&".intercalate
    ((sortedKeys v).flatMap fun k =>
      ((v.lookup k).getD []).map fun x => QueryEscape k ++ "=" ++ QueryEscape x)

/-- Go `url.URL` with the fields the client sets. -/
structure URL where
  Scheme : String
  Host : String
  Path : String
  RawQuery : String := ""
  deriving DecidableEq, Repr

/-- Go `(*URL).EscapedPath` when `RawPath` is unset. -/
def URL.EscapedPath (u : URL) : String :=
  if u.Path = "*" then "*" else escape u.Path Encoding.encodePath

/-- Go `(*URL).String` for a URL with non-empty scheme and host and no user,
non-hierarchical part or fragment (the two shapes the client builds; its hosts are constants
that host escaping leaves unchanged). -/
def URL.String (u : URL) : String :=
  let path := u.EscapedPath
  u.Scheme ++ ":" ++ "//" ++ u.Host
    ++ (if path ≠ "" ∧ path.front ≠ '/' ∧ u.Host ≠ "" then "/" else "")
    ++ path
    ++ (if u.RawQuery ≠ "" then "?" ++ u.RawQuery else "")

/-- Go `url.Parse` applied to `u.String()`, which is how `http.NewRequestWithContext`
obtains the URL of a request, for a URL with a scheme, a host and no user, opaque
part or fragment: printing puts a slash between the host and a path that does not
start with one, and the path is read back with it; escaping is undone. -/
def URL.reparsed (u : URL) : URL :=
  { u with Path := if u.Path ≠ "" ∧ u.Path.front ≠ '/' then "/" ++ u.Path else u.Path }

/-! ## Paging (paging.go) -/

structure Page where
  After : String := ""
  Before : String := ""
  Count : Int := 0
  Limit : Int := 0
  deriving DecidableEq, Repr

/-- Go `(*Page).Values` of paging.go. -/
def Page.Values (p : Page) : Values :=
  let vals : Reddit.Values := []
  let vals := if p.After ≠ "" then Values.Set vals "after" p.After else vals
  let vals := if p.Before ≠ "" then Values.Set vals "before" p.Before else vals
  let vals := if p.Count > 0 then Values.Set vals "count" (Itoa p.Count) else vals
  let vals := if p.Limit > 0 then Values.Set vals "limit" (Itoa p.Limit) else vals
  vals

/-! ## Requests, responses and the two collaborators -/

/-- An `*http.Request` as the client builds it. -/
structure Request where
  Method : String
  URL : URL
  Header : Header
  Body : String
  deriving DecidableEq, Repr

/-- An `*http.Response` as the client reads it. -/
structure Response where
  StatusCode : Int
  Header : Header
  Body : String
  deriving DecidableEq, Repr

/-- What the client does to its collaborators: a call of `limiter.Wait` or a call
of `httpClient.Do` with the request sent. -/
inductive Event where
  | Wait
  | Do (r : Request)
  deriving DecidableEq, Repr

/-- Is the event a call of `limiter.Wait`. -/
def Event.isWait : Event → Bool
  | .Wait => true
  | .Do _ => false

/-- Is the event a call of `httpClient.Do`. -/
def Event.isDo : Event → Bool
  | .Wait => false
  | .Do _ => true

/-- Number of admissions requested so far. -/
def waits (tr : List Event) : Nat := tr.countP Event.isWait

/-- Number of requests sent so far. -/
def sends (tr : List Event) : Nat := tr.countP Event.isDo

/-- The requests sent so far, oldest first. -/
def sent : List Event → List Request
  | [] => []
  | .Wait :: tr => sent tr
  | .Do r :: tr => r :: sent tr

/-- Type `Client` of client.go. `httpClient k r` is the outcome of the call of `Do`
made after `k` earlier ones, `limiter` is `none` for a nil `Waiter` and otherwise
gives the outcome of the call of `Wait` made after `k` earlier ones (`none` for
a nil error). -/
structure Client where
  clientID : String
  secret : String
  token : String := ""
  httpClient : Nat → Request → Except Err Response
  limiter : Option (Nat → Option Err)

def unauthenticatedHost : String := "www.reddit.com"

def authenticatedHost : String := "oauth.reddit.com"

/-- Go `NewClient`. -/
def NewClient (clientID secret : String)
    (httpClient : Nat → Request → Except Err Response)
    (limiter : Option (Nat → Option Err)) : Client :=
  { clientID := clientID, secret := secret, httpClient := httpClient, limiter := limiter }

/-! ## Request headers (requestHeaders.go) -/

/-- Go `withBearer`. -/
def withBearer (token : String) : Header → Header :=
  fun h => Values.Set h "Authorization" ("Bearer " ++ token)

/-- Go `stdHeaders`. -/
def stdHeaders (opts : List (Header → Header)) : Header :=
  opts.foldl (fun headers opt => opt headers)
    [("Content-Type", ["application/json"]),
     ("User-Agent", ["reddit-client/v0.0.1 (by /u/jqdurham)"])]

/-- Digit of the standard base64 alphabet. -/
def base64Digit (n : Nat) : Char :=
  "ABCDEFGHIJKLMNOPQRSTUVWXYZabcdefghijklmnopqrstuvwxyz0123456789+/".data.getD n 'A'

/-- Go `base64.StdEncoding.EncodeToString` on a byte list. -/
def base64Encode : List Nat → List Char
  | a :: b :: c :: rest =>
    let n := a * 65536 + b * 256 + c
    base64Digit (n / 262144) :: base64Digit (n / 4096 % 64) :: base64Digit (n / 64 % 64)
      :: base64Digit (n % 64) :: base64Encode rest
  | [a, b] =>
    let n := a * 65536 + b * 256
    [base64Digit (n / 262144), base64Digit (n / 4096 % 64), base64Digit (n / 64 % 64), '=']
  | [a] =>
    let n := a * 65536
    [base64Digit (n / 262144), base64Digit (n / 4096 % 64), '=', '=']
  | [] => []

/-- Go `(*Request).SetBasicAuth`. -/
def SetBasicAuth (h : Header) (username password : String) : Header :=
  Values.Set h "Authorization"
    ("Basic " ++ String.mk (base64Encode (bytes (username ++ ":" ++ password))))

/-! ## The client (client.go) -/

/-- Go `(*Client).uninitialized`. -/
def Client.uninitialized (c : Client) : Bool :=
  c.clientID = "" || c.secret = ""

/-- Go `(*Client).validateLoginInputs`; `none` is the nil error. -/
def Client.validateLoginInputs (c : Client) (username password : String) : Option Err :=
  if c.uninitialized then some Err.NotInitialized
  else if username = "" then some (Err.MissingInput "username")
  else if password = "" then some (Err.MissingInput "password")
  else none

/-- The request built by `(*Client).prepareLoginRequest` once the inputs are
validated. `http.NewRequestWithContext` cannot fail on the method `POST` and the
constant token URL. -/
def Client.loginRequest (c : Client) (uri : URL) (username password : String) : Request :=
  let v : Values := []
  let v := Values.Add v "username" username
  let v := Values.Add v "password" password
  let v := Values.Add v "grant_type" "password"
  let header := stdHeaders []
  let header := Values.Set header "Content-Type" "application/x-www-form-urlencoded"
  let header := SetBasicAuth header (QueryEscape c.clientID) (QueryEscape c.secret)
  { Method := "POST", URL := uri, Header := header, Body := Values.Encode v }

/-- Go `(*Client).prepareLoginRequest`. -/
def Client.prepareLoginRequest (c : Client) (uri : URL) (username password : String) :
    Except Err Request :=
  match c.validateLoginInputs username password with
  | some err => .error err
  | none => .ok (c.loginRequest uri username password)

/-- Go `(*Client).authenticated`; `none` is the nil error. -/
def Client.authenticated (c : Client) : Option Err :=
  if c.token = "" then some Err.NotAuthenticated else none

/-- The request built by `(*Client).prepareAuthenticatedRequest` once the token
is known to be set; `page = none` is the nil `*Page`.
`http.NewRequestWithContext` parses the printed URL again; it cannot fail on the
method `GET` and a URL string printed from a `url.URL` with this scheme and host. -/
def Client.listingRequest (c : Client) (path : String) (page : Option Page) : Request :=
  let qs : Values := match page with
    | some p => p.Values
    | none => []
  let uri : URL :=
    { Scheme := "https", Host := authenticatedHost, Path := path, RawQuery := Values.Encode qs }
  { Method := "GET", URL := uri.reparsed, Header := stdHeaders [withBearer c.token], Body := "" }

/-- Go `(*Client).prepareAuthenticatedRequest`. -/
def Client.prepareAuthenticatedRequest (c : Client) (path : String) (page : Option Page) :
    Except Err Request :=
  match c.authenticated with
  | some err => .error err
  | none => .ok (c.listingRequest path page)

/-- Go `(*Client).send`: admission first when a limiter is set, then the request. -/
def Client.send (c : Client) (r : Request) (tr : List Event) :
    Except Err Response × List Event :=
  let gate : Option Err × List Event :=
    match c.limiter with
    | some wait => (wait (waits tr), tr ++ [Event.Wait])
    | none => (none, tr)
  match gate with
  | (some err, tr1) => (.error (Err.Wrapped "rate limiter: " err), tr1)
  | (none, tr1) =>
    match c.httpClient (sends tr1) r with
    | .error err => (.error (Err.Wrapped "send request: " err), tr1 ++ [Event.Do r])
    | .ok res => (.ok res, tr1 ++ [Event.Do r])

/-- The status dispatch at the end of `(*Client).fetchListing`. -/
def dispatchStatus (lib : Lib) (path : String) (res : Response) (rate : RateStatus) :
    Except Err Listing :=
  if res.StatusCode = 200 then
    (match lib.decodeListing res.Body with
     | .error err => .error (Err.Wrapped "user listingJson: " err)
     | .ok listing => .ok listing)
  else if res.StatusCode = 429 then
    .error (Err.RateLimitExceeded ((rate.Reset : Int) * Second))
  else
    .error (Err.UnexpectedStatus "GET" path res.StatusCode)

/-- Go `(*Client).fetchListing`. The result `.ok l` stands for a nil error with `l`
decoded into `*listing`; on an error the callers drop `*listing`. -/
def Client.fetchListing (lib : Lib) (c : Client) (path : String) (page : Option Page)
    (tr : List Event) : Except Err Listing × List Event :=
  match c.prepareAuthenticatedRequest path page with
  | .error err => (.error err, tr)
  | .ok req =>
    match c.send req tr with
    | (.error err, tr1) => (.error err, tr1)
    | (.ok res, tr1) =>
      match rateStatus lib res.Header with
      | .error err => (.error err, tr1)
      | .ok rate => (dispatchStatus lib path res rate, tr1)

/-- The local `uri` of `(*Client).Login`: the token endpoint. -/
def accessTokenURI : URL :=
  { Scheme := "https", Host := unauthenticatedHost, Path := "/api/v1/access_token" }

/-- Go `(*Client).Login`: the error (`none` for nil), the client afterwards and the
trace afterwards. -/
def Client.Login (lib : Lib) (c : Client) (username password : String) (tr : List Event) :
    Option Err × Client × List Event :=
  let uri : URL := accessTokenURI
  match c.prepareLoginRequest uri username password with
  | .error err => (some err, c, tr)
  | .ok req =>
    match c.send req tr with
    | (.error err, tr1) => (some (Err.Wrapped "fetch token: " err), c, tr1)
    | (.ok res, tr1) =>
      if res.StatusCode ≠ 200 then
        (some (Err.UnexpectedStatus "POST" uri.String res.StatusCode), c, tr1)
      else
        match lib.decodeToken res.Body with
        | .error err => (some (Err.Wrapped "token response decoding: " err), c, tr1)
        | .ok response => (none, { c with token := response.AccessToken }, tr1)

/-- Go `(*Client).FetchListing`: the pair `(*Listing, error)` and the trace. -/
def Client.FetchListing (lib : Lib) (c : Client) (path : String) (tr : List Event) :
    (Option Listing × Option Err) × List Event :=
  match c.fetchListing lib path none tr with
  | (.error err, tr1) => ((none, some err), tr1)
  | (.ok out, tr1) => ((some out, none), tr1)

/-- The `for` loop of `(*Client).FetchAllListings`, run for at most `fuel`
iterations; the first component is `none` when the loop is still running after
`fuel` iterations and otherwise the returned pair `([]*Listing, error)`. -/
def Client.FetchAllListings.loop (lib : Lib) (c : Client) (path : String) :
    Nat → Page → List Listing → List Event →
      Option (Option (List Listing) × Option Err) × List Event
  | 0, _, _, tr => (none, tr)
  | fuel + 1, page, out, tr =>
    match c.fetchListing lib path (some page) tr with
    | (.error err, tr1) => (some (none, some err), tr1)
    | (.ok listing, tr1) =>
      let page1 : Page :=
        { page with After := listing.After, Count := page.Count + listing.Children.length }
      let out1 := out ++ [listing]
      if listing.After = "" then (some (some out1, none), tr1)
      else Client.FetchAllListings.loop lib c path fuel page1 out1 tr1

/-- Go `(*Client).FetchAllListings`. -/
def Client.FetchAllListings (lib : Lib) (c : Client) (path : String) (fuel : Nat)
    (tr : List Event) : Option (Option (List Listing) × Option Err) × List Event :=
  Client.FetchAllListings.loop lib c path fuel { Limit := 1000 } [] tr

/-! ## Vocabulary of the specification -/

/-- The rate gate, if there is one, admits the call made after the trace `tr`. -/
def Client.admits (c : Client) (tr : List Event) : Prop :=
  ∀ wait, c.limiter = some wait → wait (waits tr) = none

/-- The events of one admission: a `Wait` when a limiter is set. -/
def Client.gateEvents (c : Client) : List Event :=
  match c.limiter with
  | some _ => [Event.Wait]
  | none => []

/-- The values a header carries (none when it is absent). -/
def headerValues (h : Header) (key : String) : List String :=
  (h.lookup key).getD []

/-- Every value of the three rate-limit headers is a valid number; an absent
header has no value. -/
def WellFormedRateHeaders (lib : Lib) (h : Header) : Prop :=
  (∀ v ∈ headerValues h "X-Ratelimit-Remaining", ∃ x, lib.ParseFloat32 v = .ok x) ∧
  (∀ v ∈ headerValues h "X-Ratelimit-Reset", ∃ n, Atoi v = .ok n) ∧
  (∀ v ∈ headerValues h "X-Ratelimit-Used", ∃ n, Atoi v = .ok n)

/-- The cursor after the pages `ps` in the words of the specification: limit
1000, the `after` of the last page (empty before the first), the number of
entries of all pages so far, no `before`. -/
def cursorAfter (ps : List Listing) : Page :=
  { After := match ps.getLast? with
      | some p => p.After
      | none => ""
    Before := ""
    Count := ((ps.map fun p => (p.Children.length : Int)).sum)
    Limit := 1000 }

/-- The events of fetching the first `k` pages of `ps`: for each page one
admission (when a limiter is set) and then the request built from the cursor
after the pages before it. -/
def pageEvents (c : Client) (path : String) (ps : List Listing) : Nat → List Event
  | 0 => []
  | k + 1 =>
    pageEvents c path ps k ++ c.gateEvents
      ++ [Event.Do (c.listingRequest path (some (cursorAfter (ps.take k))))]

/-- The server answers the request for page `k + 1` of `ps`, sent after the trace
`tr0` and the `k` page fetches before it, with status 200, well-formed rate
headers and a body that decodes to that page, and the rate gate admits it. -/
def PageServed (lib : Lib) (c : Client) (path : String) (tr0 : List Event)
    (ps : List Listing) (k : Nat) : Prop :=
  (∀ wait, c.limiter = some wait → wait (waits tr0 + k) = none) ∧
  ∃ res, c.httpClient (sends tr0 + k) (c.listingRequest path (some (cursorAfter (ps.take k))))
      = .ok res ∧
    res.StatusCode = 200 ∧ WellFormedRateHeaders lib res.Header ∧
    lib.decodeListing res.Body = .ok (ps.getD k { After := "", Children := [] })

/-! ## Concrete collaborators used to exercise the model -/

/-- A library whose float parser accepts only `"1.5"` and whose decoders read the
bodies `"first"` and `"last"` as the two pages of the repository test. -/
def exampleLib : Lib :=
  { ParseFloat32 := fun s =>
      if s = "1.5" then .ok (GoFloat.finite (3 / 2)) else .error (Err.Foreign "invalid syntax")
    decodeListing := fun b =>
      if b = "first" then
        .ok { After := "ou812",
              Children := [{ Name := "Unit test name", Title := "Unit test title",
                             Ups := 1337, Author := "John Doe" }] }
      else if b = "last" then
        .ok { After := "",
              Children := [{ Name := "Unit test name2", Title := "Unit test title2",
                             Ups := 17, Author := "Jane Doe" }] }
      else .error (Err.Foreign "unexpected end of JSON input")
    decodeToken := fun b =>
      if b = "token" then
        .ok { AccessToken := "123", ExpiresIn := 86400, Scope := "*", Type_ := "bearer" }
      else .error (Err.Foreign "unexpected end of JSON input") }

/-- A client holding the token `"123"` whose transport answers every request with
`res` and whose rate gate always admits. -/
def exampleClient (res : Response) : Client :=
  { clientID := "clientID", secret := "secret", token := "123",
    httpClient := fun _ _ => .ok res,
    limiter := some fun _ => none }

/-- A client built by `NewClient` on which `Login` has not run; its transport
fails if it is ever reached. -/
def freshClient : Client :=
  NewClient "clientID" "secret" (fun _ _ => .error (Err.Foreign "connection refused")) none

/-- The two pages of `TestClient_FetchAllListings`. -/
def testPages : List Listing :=
  [{ After := "ou812",
     Children := [{ Name := "Unit test name", Title := "Unit test title",
                    Ups := 1337, Author := "John Doe" }] },
   { After := "",
     Children := [{ Name := "Unit test name2", Title := "Unit test title2",
                    Ups := 17, Author := "Jane Doe" }] }]

/-- The client of `TestClient_FetchAllListings` after its login: the transport
answers by the URL of the request, as the round tripper of the test does, and the rate
gate always admits. -/
def testClient : Client :=
  { clientID := "clientID", secret := "secret", token := "123",
    httpClient := fun _ r =>
      if r.URL.String = "https://oauth.reddit.com/unit-test?limit=1000" then
        .ok { StatusCode := 200, Header := [], Body := "first" }
      else if r.URL.String = "https://oauth.reddit.com/unit-test?after=ou812&count=1&limit=1000"
      then .ok { StatusCode := 200, Header := [], Body := "last" }
      else .ok { StatusCode := 400, Header := [], Body := "\x7b\x7d" },
    limiter := some fun _ => none }

/-- A client whose server serves the first test page and answers every later
request with status 500. -/
def brokenClient : Client :=
  { clientID := "clientID", secret := "secret", token := "123",
    httpClient := fun k _ =>
      if k = 0 then .ok { StatusCode := 200, Header := [], Body := "first" }
      else .ok { StatusCode := 500, Header := [], Body := "" },
    limiter := some fun _ => none }

/-! ## Vocabulary for the rate gate -/

/-- The events an operation appends are gated by the limiter `wait`, whose next
call is number `w`: they are pairs of an admission that succeeded and the request
it admitted, possibly followed by one last admission that was refused. -/
def gated (wait : Nat → Option Err) : Nat → List Event → Bool
  | _, [] => true
  | w, [Event.Wait] => (wait w).isSome
  | w, Event.Wait :: Event.Do _ :: rest => (wait w).isNone && gated wait (w + 1) rest
  | _, _ => false

/-! ## The orchestrator (internal/orchestrator/orchestrator.go)

`Run` starts one goroutine per job and returns; each goroutine repeats one
`select` for ever. The model runs the workers one loop iteration at a time, in the
order a schedule names them, so that a statement for every schedule is a
statement for every interleaving of the workers. A send on `errCh` is taken to be
received, and the errors are kept in the order they were sent. -/

namespace Orchestrator

/-- Type `Job` (`func() error`): the outcome of the invocation made after `k`
earlier ones of the same job, `none` for nil. -/
abbrev Job := Nat → Option Err

/-- The `context.Context` as a worker sees it in the `select` of the loop iteration
that starts after `t` earlier ones: `none` while `ctx.Done()` is open, `some err`
with `err = ctx.Err()` once it is closed. -/
abbrev Context := Nat → Option Err

/-- The state of the workers started by `Run`. -/
structure State where
  /-- For each job, how often it has been invoked. -/
  invoked : List Nat
  /-- The errors sent on `errCh`, oldest first. -/
  errCh : List Err
  /-- The number of loop iterations run so far, by all workers together. -/
  clock : Nat
  deriving DecidableEq, Repr

/-- The state right after `Run` has started the workers. -/
def start (jobs : List Job) : State :=
  { invoked := jobs.map fun _ => 0, errCh := [], clock := 0 }

/-- One iteration of the `for` loop of worker `w`: when `ctx.Done()` is closed the
error of the context is sent; otherwise the job is invoked and its error, if any,
is sent. A schedule entry that names no worker does nothing. -/
def iterate (ctx : Context) (jobs : List Job) (st : State) (w : Nat) : State :=
  match jobs[w]? with
  | none => st
  | some job =>
    match ctx st.clock with
    | some cerr => { st with errCh := st.errCh ++ [cerr], clock := st.clock + 1 }
    | none =>
      let k := st.invoked.getD w 0
      match job k with
      | some err =>
        { invoked := st.invoked.set w (k + 1), errCh := st.errCh ++ [err], clock := st.clock + 1 }
      | none =>
        { invoked := st.invoked.set w (k + 1), errCh := st.errCh, clock := st.clock + 1 }

/-- The workers of `Run(ctx, errCh, jobs...)` after the iterations of `schedule`. -/
def Run (ctx : Context) (jobs : List Job) (schedule : List Nat) : State :=
  schedule.foldl (iterate ctx jobs) (start jobs)

/-- The job of the first case of `TestRun`: nil four times, `mocked failure` on the
fifth invocation, nil afterwards. -/
def failsOnFifth : Job :=
  fun k => if k = 4 then some (Err.Foreign "mocked failure") else none

/-- The second job of the second case of `TestRun`: nil three times, `mocked
failure` on the fourth invocation, nil afterwards. -/
def failsOnFourth : Job :=
  fun k => if k = 3 then some (Err.Foreign "mocked failure") else none

/-- A context that is never cancelled. -/
def background : Context := fun _ => none

/-- A context whose deadline has passed before the first iteration. -/
def expired : Context := fun _ => some (Err.Foreign "context deadline exceeded")

end Orchestrator

/-! ## Error messages

The `Error` methods of errors.go, and of the errors the packages wrap, as one
function. Two formatting routines of the standard library are parameters. -/

/-- Formatting routines taken as parameters: `time.Duration.String` and
`strconv.Quote`. -/
structure Fmt where
  Duration : Int → String
  Quote : String → String

/-- The method `Error` of an error value: `fmt.Errorf("ctx: %w", err)` prints the
context followed by the message of `err`; a `*strconv.NumError` prints
`strconv.<Func>: parsing <quoted Num>: <reason>`. -/
def Err.Error (f : Fmt) : Err → String
  | .MissingInput input => MissingInputError.Error input
  | .NotInitialized => NotInitializedError.Error
  | .NotAuthenticated => NotAuthenticatedError.Error
  | .RateLimitExceeded resetsIn => "rate limit exceeded, resets in " ++ f.Duration resetsIn
  | .UnexpectedStatus method url status => UnexpectedStatusError.Error method url status
  | .Wrapped context inner => context ++ Err.Error f inner
  | .NumError func num outOfRange =>
    "strconv." ++ func ++ ": parsing " ++ f.Quote num ++ ": "
      ++ (if outOfRange then "value out of range" else "invalid syntax")
  | .Foreign msg => msg

/-! ## The post service (internal/service/post) -/

namespace PostService

/-- Interface `reddit.ListingFetcher`. A nil error comes with a non-nil result, as
it does for `*reddit.Client`. -/
structure ListingFetcher where
  FetchListing : String → Except Err Listing
  FetchAllListings : String → Except Err (List Listing)

/-- Type `Service` of service.go; `writer b` is the error of `writer.Write(b)`,
`none` for nil. -/
structure Service where
  client : ListingFetcher
  writer : String → Option Err

/-- Type `Post` of model.go. -/
structure Post where
  Title : String
  Ups : Int
  deriving DecidableEq, Repr

/-- Method `(*Post).String`: `fmt.Sprintf("(%d) - %s \n", p.Ups, p.Title)`. -/
def Post.String (p : Post) : String :=
  "(" ++ toString p.Ups ++ ") - " ++ p.Title ++ " \n"

/-- Type `AuthorPosts` of model.go. -/
structure AuthorPosts where
  Author : String
  Qty : Int
  deriving DecidableEq, Repr

/-- Method `(*AuthorPosts).String`: `fmt.Sprintf("(%d) - %s \n", a.Qty, a.Author)`. -/
def AuthorPosts.String (a : AuthorPosts) : String :=
  "(" ++ toString a.Qty ++ ") - " ++ a.Author ++ " \n"

/-- How a call of the service ends: it returns its `error` (`none` for nil) or it
panics. -/
inductive Outcome where
  | returned (err : Option Err)
  | panicked (msg : String)
  deriving DecidableEq, Repr

/-- Method `(*Service).write`; `msg` holds the `String()` of each `fmt.Stringer`.
The result is the error and the byte strings handed to the writer. -/
def Service.write (s : Service) (title : String) (msg : List String) :
    Option Err × List String :=
  let buf := "\n"
  let buf := buf ++ (title ++ "\n")
  let buf := buf ++ (String.mk (List.replicate 80 '-') ++ "\n")
  let buf := msg.foldl (fun b post => b ++ post) buf
  let buf := buf ++ "\n"
  match s.writer buf with
  | some err => (some (Err.Wrapped "error writing msg: " err), [buf])
  | none => (none, [buf])

/-- Method `(*Service).fetchTopPosts`. -/
def Service.fetchTopPosts (s : Service) (subreddit : String) : Except Err (List Post) :=
  match s.client.FetchListing ("/r/" ++ subreddit ++ "/top") with
  | .error err => .error (Err.Wrapped "fetch post listing: " err)
  | .ok listing =>
    .ok (listing.Children.foldl
      (fun posts kid => posts ++ [{ Title := kid.Title, Ups := kid.Ups }]) [])

/-- Method `(*Service).UpdateTopPosts`: the outcome and the byte strings written. -/
def Service.UpdateTopPosts (s : Service) (subreddit : String) : Outcome × List String :=
  match s.fetchTopPosts subreddit with
  | .error err =>
    (.returned (some (Err.Wrapped ("fetch top posts: " ++ subreddit ++ ": ") err)), [])
  | .ok posts =>
    let out := posts.map Post.String
    match s.write ("Top Posts (" ++ subreddit ++ ")") out with
    | (some err, written) =>
      (.returned (some (Err.Wrapped ("write: " ++ subreddit ++ ": ") err)), written)
    | (none, written) => (.returned none, written)

/-- A Go `map[string]int` as an association list with distinct keys. -/
abbrev Counts := List (String × Int)

/-- The read `counts[key]`: zero for a missing key. -/
def Counts.get (counts : Counts) (key : String) : Int :=
  (counts.lookup key).getD 0

/-- The assignment `counts[key] = v`. -/
def Counts.set (counts : Counts) (key : String) (v : Int) : Counts :=
  match counts.lookup key with
  | some _ => counts.map fun kv => if kv.1 = key then (key, v) else kv
  | none => counts ++ [(key, v)]

/-- The body of the inner loop of `fetchTopAuthors`. -/
def countAuthor (counts : Counts) (kid : Reddit.Post) : Counts :=
  let counts := if (counts.lookup kid.Author).isNone then counts.set kid.Author 0 else counts
  counts.set kid.Author (counts.get kid.Author + 1)

/-- Method `(*Service).fetchTopAuthors`. -/
def Service.fetchTopAuthors (s : Service) (subreddit : String) : Except Err Counts :=
  match s.client.FetchAllListings ("/r/" ++ subreddit) with
  | .error err => .error (Err.Wrapped "fetch all listings: " err)
  | .ok listings =>
    .ok (listings.foldl (fun counts listing => listing.Children.foldl countAuthor counts) [])

/-- Insertion of `a` into a list sorted by descending count, before the first
author it does not rank below. -/
def insertAuthor (counts : Counts) (a : String) : List String → List String
  | [] => [a]
  | b :: rest =>
    if counts.get b ≤ counts.get a then a :: b :: rest else b :: insertAuthor counts a rest

/-- The outcome of `slices.SortStableFunc(authors, cmp.Compare(counts[b], counts[a]))`:
descending by count, authors of equal count in their order in `authors`. -/
def sortAuthors (counts : Counts) : List String → List String
  | [] => []
  | a :: rest => insertAuthor counts a (sortAuthors counts rest)

/-- The loop `for i, author := range authors` of `UpdateTopNAuthors`, from index
`i` on: it appends and then breaks when `i > num`. -/
def collectAuthorPosts (counts : Counts) (num : Int) :
    List String → Nat → List AuthorPosts → List AuthorPosts
  | [], _, authorPosts => authorPosts
  | author :: rest, i, authorPosts =>
    let authorPosts := authorPosts ++ [{ Author := author, Qty := counts.get author }]
    if (i : Int) > num then authorPosts
    else collectAuthorPosts counts num rest (i + 1) authorPosts

/-- Method `(*Service).UpdateTopNAuthors`: the outcome and the byte strings written.
`order` is the order in which `range counts` enumerates the keys of the map, which
Go leaves unspecified. The slice expression `authorPosts[:k]` panics unless
`0 ≤ k ≤ len(authorPosts)`. -/
def Service.UpdateTopNAuthors (s : Service) (order : List String → List String)
    (subreddit : String) (num : Int) : Outcome × List String :=
  match s.fetchTopAuthors subreddit with
  | .error err =>
    (.returned (some (Err.Wrapped ("fetch top authors: " ++ subreddit ++ ": ") err)), [])
  | .ok counts =>
    let authors := order (counts.map Prod.fst)
    let authors := sortAuthors counts authors
    let authorPosts := collectAuthorPosts counts num authors 0 []
    let k : Int := min num authorPosts.length
    if k < 0 ∨ (authorPosts.length : Int) < k then
      (.panicked "slice bounds out of range", [])
    else
      let top := authorPosts.take k.toNat
      match s.write ("Top " ++ toString num ++ " Authors (" ++ subreddit ++ ")")
          (top.map AuthorPosts.String) with
      | (some err, written) => (.returned (some (Err.Wrapped "write: " err)), written)
      | (none, written) => (.returned none, written)

/-- The listing of `service_test.go` (entry names are not read by the service; the
third one is shortened). -/
def testListing : Listing :=
  { After := "",
    Children :=
      [{ Name := "Unit test name", Title := "Unit test title", Ups := 99999, Author := "John Doe" },
       { Name := "The Wizard", Title := "Greatest shortstop", Ups := 1111, Author := "Ozzie Smith" },
       { Name := "Backflippin", Title := "Opening Day Backflips", Ups := 11,
         Author := "Ozzie Smith" }] }

/-- A service over a fetcher that returns the test listing, as the mocks of the
tests do, and a writer that accepts every write. -/
def testService : Service :=
  { client :=
      { FetchListing := fun _ => .ok testListing,
        FetchAllListings := fun _ => .ok [testListing] },
    writer := fun _ => none }

/-- A service over a fetcher that fails with `mocked failure`. -/
def failingService : Service :=
  { client :=
      { FetchListing := fun _ => .error (Err.Foreign "mocked failure"),
        FetchAllListings := fun _ => .error (Err.Foreign "mocked failure") },
    writer := fun _ => none }

/-- The entries of all pages, in order. -/
def entries (listings : List Listing) : List Reddit.Post :=
  listings.flatMap fun listing => listing.Children

/-- The number of entries by `author`, summed over all pages. -/
def authorCount (listings : List Listing) (author : String) : Int :=
  (((entries listings).map fun kid => kid.Author).count author : Nat)

/-- The distinct authors of all pages. -/
def distinctAuthors (listings : List Listing) : List String :=
  ((entries listings).map fun kid => kid.Author).dedup

/-- The bytes of one report: a blank line, the title, a rule of 80 dashes, the
lines, a blank line. -/
def report (title : String) (lines : List String) : String :=
  "\n" ++ (title ++ "\n") ++ (String.mk (List.replicate 80 '-') ++ "\n") ++ String.join lines
    ++ "\n"

end PostService

/-! ## Configuration (internal/config) -/

namespace Configuration

/-- The four `slog.Level` values that `toLevel` produces. -/
inductive Level where
  | Debug
  | Info
  | Warn
  | Error
  deriving DecidableEq, Repr

/-- Type `Config` of config.go; `RateLimit` is a `time.Duration` in nanoseconds. -/
structure Config where
  ClientID : String
  ClientSecret : String
  RedditUsername : String
  RedditPassword : String
  Subreddits : List String
  RateLimit : Int
  LogLevel : Level
  TopNAuthors : Int
  deriving DecidableEq, Repr

/-- The errors `Configure` returns: the two error types of errors.go and
`fmt.Errorf("parse configuration: %w", err)`. -/
inductive ConfigErr where
  | MissingConfigInput (env : String)
  | InvalidConfigInput (env reason : String)
  | ParseConfiguration (err : Err)
  deriving DecidableEq, Repr

/-- The method `Error` of these errors. -/
def ConfigErr.Error (f : Fmt) : ConfigErr → String
  | .MissingConfigInput env => "missing env: " ++ env
  | .InvalidConfigInput env reason => "invalid env: " ++ env ++ " reason: " ++ reason
  | .ParseConfiguration err => "parse configuration: " ++ err.Error f

/-- What `Configure` reads from outside the repository: the process environment
(`os.LookupEnv`), `godotenv.Parse` on the content of the reader,
`time.ParseDuration` and `strings.ToLower`. -/
structure Deps where
  LookupEnv : String → Option String
  Parse : String → Except Err (List (String × String))
  ParseDuration : String → Except Err Int
  ToLower : String → String

/-- Pieces of a byte string between occurrences of `sep`, as `strings.Split` cuts
them for a one-byte separator. -/
def splitOn (sep : Char) : List Char → List (List Char)
  | [] => [[]]
  | c :: cs =>
    if c = sep then [] :: splitOn sep cs
    else
      match splitOn sep cs with
      | w :: ws => (c :: w) :: ws
      | [] => [[c]]

/-- Go `strings.Split(s, ",")`. -/
def Split (s : String) : List String :=
  (splitOn ',' s.data).map String.mk

/-- Function `getRequiredEnv`. -/
def getRequiredEnv (d : Deps) (vars : List (String × String)) (env : String) :
    Except ConfigErr String :=
  match d.LookupEnv env with
  | some v => .ok v
  | none =>
    match vars.lookup env with
    | none => .error (ConfigErr.MissingConfigInput env)
    | some v => .ok v

/-- Function `getOptionalEnv`. -/
def getOptionalEnv (d : Deps) (vars : List (String × String)) (env dflt : String) : String :=
  match d.LookupEnv env with
  | some v => v
  | none =>
    match vars.lookup env with
    | some v => v
    | none => dflt

/-- Function `toLevel`. -/
def toLevel (d : Deps) (level : String) : Except ConfigErr Level :=
  if d.ToLower level = "debug" then .ok Level.Debug
  else if d.ToLower level = "info" then .ok Level.Info
  else if d.ToLower level = "warn" then .ok Level.Warn
  else if d.ToLower level = "error" then .ok Level.Error
  else .error (ConfigErr.InvalidConfigInput "log level" "must be: debug, info, warn, error")

/-- Function `Configure`: the pair `(*Config, error)`. -/
def Configure (d : Deps) (f : Fmt) (envVars : String) : Option Config × Option ConfigErr :=
  match d.Parse envVars with
  | .error err => (none, some (ConfigErr.ParseConfiguration err))
  | .ok vars =>
    match getRequiredEnv d vars "REDDIT_CLIENT_ID" with
    | .error err => (none, some err)
    | .ok clientID =>
      match getRequiredEnv d vars "REDDIT_CLIENT_SECRET" with
      | .error err => (none, some err)
      | .ok secret =>
        match getRequiredEnv d vars "REDDIT_USERNAME" with
        | .error err => (none, some err)
        | .ok username =>
          match getRequiredEnv d vars "REDDIT_PASSWORD" with
          | .error err => (none, some err)
          | .ok password =>
            let subreddits := getOptionalEnv d vars "REDDIT_SUBREDDITS" "golang"
            let logLevel := getOptionalEnv d vars "REDDIT_LOG_LEVEL" "info"
            let rateLimit := getOptionalEnv d vars "REDDIT_RATE_LIMIT" "1s"
            match d.ParseDuration rateLimit with
            | .error err =>
              (none, some (ConfigErr.InvalidConfigInput "REDDIT_RATE_LIMIT" (err.Error f)))
            | .ok freq =>
              let topNAuthors := getOptionalEnv d vars "REDDIT_TOP_N_AUTHORS" "10"
              match Atoi topNAuthors with
              | .error err =>
                (none, some (ConfigErr.InvalidConfigInput "REDDIT_TOP_N_AUTHORS" (err.Error f)))
              | .ok num =>
                match toLevel d logLevel with
                | .error err =>
                  (none, some (ConfigErr.InvalidConfigInput "REDDIT_LOG_LEVEL" (err.Error f)))
                | .ok level =>
                  (some { ClientID := clientID, ClientSecret := secret,
                          RedditUsername := username, RedditPassword := password,
                          Subreddits := Split subreddits, RateLimit := freq,
                          LogLevel := level, TopNAuthors := num }, none)

/-- The variable is present, in the process environment or in the parsed input. -/
def present (d : Deps) (vars : List (String × String)) (env : String) : Prop :=
  (d.LookupEnv env).isSome = true ∨ (vars.lookup env).isSome = true

/-- The conditions under which the specification has `Configure` return a Config:
the four required variables are present, the rate limit parses as a duration, the
number of authors parses as an integer and the log level is one of the four names
ignoring case, absent optional values standing for `1s`, `10` and `info`. -/
def accepted (d : Deps) (vars : List (String × String)) : Prop :=
  present d vars "REDDIT_CLIENT_ID" ∧ present d vars "REDDIT_CLIENT_SECRET" ∧
  present d vars "REDDIT_USERNAME" ∧ present d vars "REDDIT_PASSWORD" ∧
  (∃ freq, d.ParseDuration (getOptionalEnv d vars "REDDIT_RATE_LIMIT" "1s") = .ok freq) ∧
  (∃ num, Atoi (getOptionalEnv d vars "REDDIT_TOP_N_AUTHORS" "10") = .ok num) ∧
  d.ToLower (getOptionalEnv d vars "REDDIT_LOG_LEVEL" "info") ∈ ["debug", "info", "warn", "error"]

/-! ### Concrete collaborators -/

/-- Cut a line at its first `=`. -/
def cutAtEquals : List Char → Option (List Char × List Char)
  | [] => none
  | c :: cs =>
    if c = '=' then some ([], cs)
    else
      match cutAtEquals cs with
      | some (k, v) => some (c :: k, v)
      | none => none

/-- May the character occur in a variable name. -/
def nameChar (c : Char) : Bool :=
  (97 ≤ c.toNat && c.toNat ≤ 122) || (65 ≤ c.toNat && c.toNat ≤ 90)
    || (48 ≤ c.toNat && c.toNat ≤ 57) || c = '_' || c = '.'

/-- Read the lines `NAME=value` of a dotenv text; empty lines are skipped. -/
def parseLines : List (List Char) → Except Err (List (String × String))
  | [] => .ok []
  | line :: rest =>
    if line = [] then parseLines rest
    else
      match cutAtEquals line with
      | none => .error (Err.Foreign "unexpected character in variable name")
      | some (k, v) =>
        if k.all nameChar then
          match parseLines rest with
          | .ok vars => .ok ((String.mk k, String.mk v) :: vars)
          | .error err => .error err
        else .error (Err.Foreign "unexpected character in variable name")

/-- Lower-case of an ASCII letter. -/
def lowerChar (c : Char) : Char :=
  if 65 ≤ c.toNat ∧ c.toNat ≤ 90 then Char.ofNat (c.toNat + 32) else c

/-- Collaborators for the examples: the process environment `environ`, a reader of
plain `NAME=value` lines in place of `godotenv.Parse`, a duration reader that
knows `1s` and `60s`, and lower-casing of ASCII letters. -/
def exampleDeps (environ : List (String × String)) : Deps :=
  { LookupEnv := fun env => environ.lookup env,
    Parse := fun text => parseLines (splitOn '\n' text.data),
    ParseDuration := fun s =>
      if s = "1s" then .ok Second
      else if s = "60s" then .ok (60 * Second)
      else .error (Err.Foreign "time: invalid duration"),
    ToLower := fun s => String.mk (s.data.map lowerChar) }

/-- Formatting for the examples: durations are not printed, quoting adds the
quotation marks. -/
def exampleFmt : Fmt :=
  { Duration := fun _ => "",
    Quote := fun s => String.mk [Char.ofNat 34] ++ s ++ String.mk [Char.ofNat 34] }

/-- A process environment that holds the four required variables. -/
def fullEnviron : List (String × String) :=
  [("REDDIT_CLIENT_ID", "test-client-id"), ("REDDIT_CLIENT_SECRET", "test-client-secret"),
   ("REDDIT_USERNAME", "test-username"), ("REDDIT_PASSWORD", "test-password")]

/-- The text `requiredEnvs` of `TestConfigure`. -/
def requiredEnvs : String :=
  "\nREDDIT_CLIENT_ID=test-client-id\nREDDIT_CLIENT_SECRET=test-client-secret\nREDDIT_USERNAME=test-username\nREDDIT_PASSWORD=test-password"

end Configuration

/-! ## Collaborators for the token and tie examples -/

/-- A library whose token decoder reads the body `\x7b\x7d` as `encoding/json` does:
no field is set, so `access_token` is empty. Other bodies are read by
`exampleLib`. -/
def emptyTokenLib : Lib :=
  { ParseFloat32 := exampleLib.ParseFloat32,
    decodeListing := exampleLib.decodeListing,
    decodeToken := fun b =>
      if b = "\x7b\x7d" then .ok { AccessToken := "", ExpiresIn := 0, Scope := "", Type_ := "" }
      else exampleLib.decodeToken b }

/-- A client fresh from `NewClient` whose transport answers every request with
status 200 and the body `\x7b\x7d`, and whose rate gate always admits. -/
def emptyTokenClient : Client :=
  NewClient "clientID" "secret"
    (fun _ _ => .ok { StatusCode := 200, Header := [], Body := "\x7b\x7d" })
    (some fun _ => none)

namespace PostService

/-- A listing with one entry by each of two authors. -/
def tiedListing : Listing :=
  { After := "",
    Children :=
      [{ Name := "t3_1", Title := "First", Ups := 2, Author := "John Doe" },
       { Name := "t3_2", Title := "Second", Ups := 1, Author := "Ozzie Smith" }] }

/-- A service over a fetcher that returns the listing with the tie. -/
def tiedService : Service :=
  { client :=
      { FetchListing := fun _ => .ok tiedListing,
        FetchAllListings := fun _ => .ok [tiedListing] },
    writer := fun _ => none }

end PostService

/-! ## Vocabulary for the requests on the wire -/

/-- The rate-limit headers a response may carry without the fetch failing: each
of the three headers that is present with exactly one value holds a number its
parser accepts. A header that is absent or carries several values is not read. -/
def RateHeadersAccepted (lib : Lib) (h : Header) : Prop :=
  (∀ v, h.lookup "X-Ratelimit-Remaining" = some [v] → ∃ x, lib.ParseFloat32 v = .ok x) ∧
  (∀ v, h.lookup "X-Ratelimit-Reset" = some [v] → ∃ n, Atoi v = .ok n) ∧
  (∀ v, h.lookup "X-Ratelimit-Used" = some [v] → ∃ n, Atoi v = .ok n)

/-- The query string of a page request in the words of the specification: `after`
when it is non-empty, `count` when it is positive, and `limit=1000`, in that
order, joined by `&`, the values query-escaped. -/
def cursorQuery (after : String) (count : Int) : String :=
  (if after = "" then "" else "after=" ++ QueryEscape after ++ "&")
    ++ (if 0 < count then "count=" ++ QueryEscape (Itoa count) ++ "&" else "")
    ++ "limit=1000"

/-- The request for the page that follows the pages `ps`, as it goes on the wire:
a GET of `https://oauth.reddit.com<path>`, the path starting with a slash, whose
query holds the `after` of the last page of `ps` and the number of entries of all
of `ps`, with the bearer token and the two fixed headers. -/
def pageRequest (token path : String) (ps : List Listing) : Request :=
  { Method := "GET",
    URL :=
      { Scheme := "https", Host := "oauth.reddit.com",
        Path := if path ≠ "" ∧ path.front ≠ '/' then "/" ++ path else path,
        RawQuery :=
          cursorQuery
            (match ps.getLast? with
             | some p => p.After
             | none => "")
            ((ps.map fun p => (p.Children.length : Int)).sum) },
    Header :=
      [("Authorization", ["Bearer " ++ token]),
       ("Content-Type", ["application/json"]),
       ("User-Agent", ["reddit-client/v0.0.1 (by /u/jqdurham)"])],
    Body := "" }

/-- The events of fetching the first `k` pages of `ps`, as they are observed: for
each page one admission (when a limiter is set) and then the request on the wire
for the page that follows the pages before it. -/
def fetchEvents (c : Client) (path : String) (ps : List Listing) : Nat → List Event
  | 0 => []
  | k + 1 =>
    fetchEvents c path ps k ++ c.gateEvents ++ [Event.Do (pageRequest c.token path (ps.take k))]

/-- The rate gate admits the request for page `k + 1` of `ps`, made after the trace
`tr0` and the `k` page fetches before it, and the server answers that request with
status 200, rate-limit headers that are accepted and a body that decodes to that
page. -/
def PageAnswered (lib : Lib) (c : Client) (path : String) (tr0 : List Event)
    (ps : List Listing) (k : Nat) : Prop :=
  (∀ wait, c.limiter = some wait → wait (waits tr0 + k) = none) ∧
  ∃ res, c.httpClient (sends tr0 + k) (pageRequest c.token path (ps.take k)) = .ok res ∧
    res.StatusCode = 200 ∧ RateHeadersAccepted lib res.Header ∧
    lib.decodeListing res.Body = .ok (ps.getD k { After := "", Children := [] })

/-- A client holding the token `"123"` whose server answers every request with
status 200, the body of the last test page and the single-valued header
`X-Ratelimit-Used: abc`, and whose rate gate always admits. -/
def unparsableHeaderClient : Client :=
  { clientID := "clientID", secret := "secret", token := "123",
    httpClient := fun _ _ =>
      .ok { StatusCode := 200, Header := [("X-Ratelimit-Used", ["abc"])], Body := "last" },
    limiter := some fun _ => none }

namespace PostService

/-! ### Vocabulary for ties -/

/-- The number of distinct authors with more entries than `author`: the position
(counted from 0) at which the authors with as many entries as `author` begin in
any listing of the authors by descending count. -/
def ahead (listings : List Listing) (author : String) : Nat :=
  (distinctAuthors listings).countP fun x =>
    decide (authorCount listings author < authorCount listings x)

/-- An enumeration order of a map that yields the key `a` first and the other keys
as they come. -/
def enumerateFirst (a : String) (keys : List String) : List String :=
  if a ∈ keys then a :: keys.erase a else keys

/-- A listing with two entries by one author and one entry by each of two others. -/
def lowTieListing : Listing :=
  { After := "", Children :=
      [{ Name := "t3_1", Title := "First", Ups := 4, Author := "Ozzie Smith" },
       { Name := "t3_2", Title := "Second", Ups := 3, Author := "John Doe" },
       { Name := "t3_3", Title := "Third", Ups := 2, Author := "Ozzie Smith" },
       { Name := "t3_4", Title := "Fourth", Ups := 1, Author := "Jane Doe" }] }

/-- A service over a fetcher that returns the listing with the tie behind the
leader. -/
def lowTieService : Service :=
  { client :=
      { FetchListing := fun _ => .ok lowTieListing,
        FetchAllListings := fun _ => .ok [lowTieListing] },
    writer := fun _ => none }

end PostService

/-! ## Lemmas on the collaborators and the trace -/

theorem waits_append (a b : List Event) : waits (a ++ b) = waits a + waits b := by
  simp [waits, List.countP_append]

theorem sends_append (a b : List Event) : sends (a ++ b) = sends a + sends b := by
  simp [sends, List.countP_append]

theorem sent_append (a b : List Event) : sent (a ++ b) = sent a ++ sent b := by
  induction a with
  | nil => rfl
  | cons e a ih => cases e <;> simp [sent, ih]

theorem sends_gateEvents (c : Client) : sends c.gateEvents = 0 := by
  unfold Client.gateEvents
  cases c.limiter <;> rfl

theorem sent_gateEvents (c : Client) : sent c.gateEvents = [] := by
  unfold Client.gateEvents
  cases c.limiter <;> rfl

/-- An admitted `send` performs the admission, then the request, and hands back
what the transport answered. -/
theorem send_of_admits (c : Client) (r : Request) (tr : List Event) (h : c.admits tr) :
    c.send r tr =
      (match c.httpClient (sends tr) r with
       | .error err => .error (Err.Wrapped "send request: " err)
       | .ok res => .ok res,
       tr ++ c.gateEvents ++ [Event.Do r]) := by
  unfold Client.send Client.gateEvents
  cases hl : c.limiter with
  | none =>
    simp only [List.append_nil]
    cases hr : c.httpClient (sends tr) r <;> simp
  | some wait =>
    have hw := h wait hl
    have hs : sends (tr ++ [Event.Wait]) = sends tr := by
      simp [sends, List.countP_append, Event.isDo]
    simp only [hw, hs]
    cases hr : c.httpClient (sends tr) r <;> simp

theorem send_trace_extends (c : Client) (r : Request) (tr : List Event) :
    ∃ ext, (c.send r tr).2 = tr ++ ext := by
  unfold Client.send
  cases hl : c.limiter with
  | none =>
    cases hr : c.httpClient (sends tr) r <;> exact ⟨[Event.Do r], by simp [hr]⟩
  | some wait =>
    cases hw : wait (waits tr) with
    | some err => exact ⟨[Event.Wait], by simp [hw]⟩
    | none =>
      cases hr : c.httpClient (sends (tr ++ [Event.Wait])) r <;>
        exact ⟨[Event.Wait] ++ [Event.Do r], by simp [hw, hr]⟩

/-! ## Lemmas on `rateStatus` -/

theorem singleValue_eq_some_iff (h : Header) (key v : String) :
    singleValue h key = some v ↔ h.lookup key = some [v] := by
  unfold singleValue
  constructor
  · intro hv
    split at hv
    · rename_i w hw
      simp only [Option.some.injEq] at hv
      rw [hw, hv]
    · exact absurd hv (by simp)
  · intro hl
    rw [hl]

theorem singleValue_eq_none_of_lookup (h : Header) (key : String) (hl : h.lookup key = none) :
    singleValue h key = none := by
  unfold singleValue
  rw [hl]

theorem singleValue_mem (h : Header) (key v : String) (hv : singleValue h key = some v) :
    v ∈ headerValues h key := by
  have hl := (singleValue_eq_some_iff h key v).mp hv
  simp [headerValues, hl]

/-- On well-formed headers `rateStatus` succeeds, and its fields are the parsed
values narrowed to `uint8`. -/
theorem rateStatus_of_wellFormed (lib : Lib) (h : Header)
    (hwf : WellFormedRateHeaders lib h) :
    ∃ remain reset used,
      (match singleValue h "X-Ratelimit-Remaining" with
        | some v => lib.ParseFloat32 v
        | none => .ok GoFloat.zero) = Except.ok remain ∧
      (match singleValue h "X-Ratelimit-Reset" with
        | some v => Atoi v
        | none => .ok 0) = Except.ok reset ∧
      (match singleValue h "X-Ratelimit-Used" with
        | some v => Atoi v
        | none => .ok 0) = Except.ok used ∧
      rateStatus lib h = .ok { Remaining := remain, Reset := uint8 reset, Used := uint8 used } := by
  obtain ⟨h1, h2, h3⟩ := hwf
  have e1 : ∃ x, (match singleValue h "X-Ratelimit-Remaining" with
      | some v => lib.ParseFloat32 v
      | none => .ok GoFloat.zero) = Except.ok x := by
    cases hv : singleValue h "X-Ratelimit-Remaining" with
    | none => exact ⟨_, rfl⟩
    | some v => exact h1 v (singleValue_mem h _ v hv)
  have e2 : ∃ x, (match singleValue h "X-Ratelimit-Reset" with
      | some v => Atoi v
      | none => .ok 0) = Except.ok x := by
    cases hv : singleValue h "X-Ratelimit-Reset" with
    | none => exact ⟨_, rfl⟩
    | some v => exact h2 v (singleValue_mem h _ v hv)
  have e3 : ∃ x, (match singleValue h "X-Ratelimit-Used" with
      | some v => Atoi v
      | none => .ok 0) = Except.ok x := by
    cases hv : singleValue h "X-Ratelimit-Used" with
    | none => exact ⟨_, rfl⟩
    | some v => exact h3 v (singleValue_mem h _ v hv)
  obtain ⟨x1, hx1⟩ := e1
  obtain ⟨x2, hx2⟩ := e2
  obtain ⟨x3, hx3⟩ := e3
  refine ⟨x1, x2, x3, hx1, hx2, hx3, ?_⟩
  unfold rateStatus
  simp only [hx1, hx2, hx3]

theorem rateStatus_ok_of_wellFormed (lib : Lib) (h : Header)
    (hwf : WellFormedRateHeaders lib h) : ∃ rate, rateStatus lib h = .ok rate := by
  obtain ⟨_, _, _, _, _, _, hr⟩ := rateStatus_of_wellFormed lib h hwf
  exact ⟨_, hr⟩

/-! ## Lemmas on a single fetch -/

/-- An admitted fetch on an authenticated client whose transport answers `res`:
the headers are parsed first, then the status decides. -/
theorem fetchListing_of_response (lib : Lib) (c : Client) (path : String) (page : Option Page)
    (tr : List Event) (res : Response) (htoken : c.token ≠ "") (hadm : c.admits tr)
    (hres : c.httpClient (sends tr) (c.listingRequest path page) = .ok res) :
    c.fetchListing lib path page tr =
      (match rateStatus lib res.Header with
       | .error err => .error err
       | .ok rate => dispatchStatus lib path res rate,
       tr ++ c.gateEvents ++ [Event.Do (c.listingRequest path page)]) := by
  simp only [Client.fetchListing, Client.prepareAuthenticatedRequest, Client.authenticated,
    htoken, if_false, send_of_admits _ _ _ hadm, hres]
  cases rateStatus lib res.Header <;> rfl

theorem fetchListing_trace_of_admits (lib : Lib) (c : Client) (path : String)
    (page : Option Page) (tr : List Event) (htoken : c.token ≠ "") (hadm : c.admits tr) :
    (c.fetchListing lib path page tr).2 =
      tr ++ c.gateEvents ++ [Event.Do (c.listingRequest path page)] := by
  simp only [Client.fetchListing, Client.prepareAuthenticatedRequest, Client.authenticated,
    htoken, if_false, send_of_admits _ _ _ hadm]
  cases hr : c.httpClient (sends tr) (c.listingRequest path page) with
  | error err => rfl
  | ok res => cases hs : rateStatus lib res.Header <;> simp [hs]

theorem fetchListing_trace_extends (lib : Lib) (c : Client) (path : String)
    (page : Option Page) (tr : List Event) :
    ∃ ext, (c.fetchListing lib path page tr).2 = tr ++ ext := by
  unfold Client.fetchListing
  cases hp : c.prepareAuthenticatedRequest path page with
  | error err => exact ⟨[], by simp⟩
  | ok req =>
    obtain ⟨ext, hext⟩ := send_trace_extends c req tr
    refine ⟨ext, ?_⟩
    cases hs : c.send req tr with
    | mk r tr1 =>
      rw [hs] at hext
      simp only at hext
      cases r with
      | error err => simpa [hs] using hext
      | ok res => cases hr : rateStatus lib res.Header <;> simpa [hs, hr] using hext

/-- A fetch on an authenticated client that the rate gate refuses with `e`: the
error is `e` wrapped with `rate limiter: ` and no request is sent. -/
theorem fetchListing_gate_error (lib : Lib) (c : Client) (path : String)
    (page : Option Page) (tr : List Event) (wait : Nat → Option Err) (e : Err)
    (htoken : c.token ≠ "") (hl : c.limiter = some wait) (hw : wait (waits tr) = some e) :
    c.fetchListing lib path page tr =
      (.error (Err.Wrapped "rate limiter: " e), tr ++ [Event.Wait]) := by
  simp [Client.fetchListing, Client.prepareAuthenticatedRequest, Client.authenticated,
    htoken, Client.send, hl, hw]

/-- An admitted fetch on an authenticated client whose transport fails with `e`:
the error is `e` wrapped with `send request: `. -/
theorem fetchListing_transport_error (lib : Lib) (c : Client) (path : String)
    (page : Option Page) (tr : List Event) (e : Err)
    (htoken : c.token ≠ "") (hadm : c.admits tr)
    (hres : c.httpClient (sends tr) (c.listingRequest path page) = .error e) :
    c.fetchListing lib path page tr =
      (.error (Err.Wrapped "send request: " e),
        tr ++ c.gateEvents ++ [Event.Do (c.listingRequest path page)]) := by
  simp only [Client.fetchListing, Client.prepareAuthenticatedRequest, Client.authenticated,
    htoken, if_false, send_of_admits _ _ _ hadm, hres]

/-- A 429 answer with well-formed headers whose `X-Ratelimit-Reset` is the single
value `v` with `Atoi v = n`: the hint is `uint8 n` seconds, which is `n` seconds
exactly when `0 ≤ n < 256`. -/
theorem fetchListing_rate_limited (lib : Lib) (c : Client) (path : String)
    (page : Option Page) (tr : List Event) (res : Response) (v : String) (n : Int)
    (htoken : c.token ≠ "") (hadm : c.admits tr)
    (hres : c.httpClient (sends tr) (c.listingRequest path page) = .ok res)
    (hstatus : res.StatusCode = 429) (hwf : WellFormedRateHeaders lib res.Header)
    (hv : res.Header.lookup "X-Ratelimit-Reset" = some [v]) (hn : Atoi v = .ok n) :
    (c.fetchListing lib path page tr).1 =
      .error (Err.RateLimitExceeded (((n % 256).toNat : Int) * Second)) := by
  obtain ⟨x1, x2, x3, _, h2, _, hr⟩ := rateStatus_of_wellFormed lib res.Header hwf
  rw [(singleValue_eq_some_iff _ _ v).mpr hv] at h2
  simp only [hn, Except.ok.injEq] at h2
  rw [fetchListing_of_response lib c path page tr res htoken hadm hres, hr]
  simp [dispatchStatus, hstatus, uint8, h2]

/-! ## Lemmas on the pagination loop -/

theorem sends_pageEvents (c : Client) (path : String) (ps : List Listing) (k : Nat) :
    sends (pageEvents c path ps k) = k := by
  induction k with
  | zero => rfl
  | succ k ih =>
    simp only [pageEvents, sends_append, ih, sends_gateEvents]
    rfl

theorem waits_pageEvents (c : Client) (path : String) (ps : List Listing) (k : Nat)
    (wait : Nat → Option Err) (hl : c.limiter = some wait) :
    waits (pageEvents c path ps k) = k := by
  induction k with
  | zero => rfl
  | succ k ih =>
    simp only [pageEvents, waits_append, ih, Client.gateEvents, hl]
    rfl

theorem sent_pageEvents (c : Client) (path : String) (ps : List Listing) (k : Nat) :
    sent (pageEvents c path ps k) =
      (List.range k).map fun j => c.listingRequest path (some (cursorAfter (ps.take j))) := by
  induction k with
  | zero => rfl
  | succ k ih =>
    simp [pageEvents, sent_append, ih, sent_gateEvents, List.range_succ, sent]

theorem cursorAfter_snoc (ps : List Listing) (p : Listing) :
    cursorAfter (ps ++ [p]) =
      { cursorAfter ps with
        After := p.After, Count := (cursorAfter ps).Count + p.Children.length } := by
  simp [cursorAfter, List.getLast?_append]

theorem take_succ_getD (ps : List Listing) (k : Nat) (d : Listing) (hk : k < ps.length) :
    ps.take (k + 1) = ps.take k ++ [ps.getD k d] := by
  rw [List.take_succ]
  simp [List.getD, List.getElem?_eq_getElem hk]

/-- One iteration of the loop on a served page: the cursor, the result and the
trace advance by that page, and the loop stops exactly when its `after` is empty. -/
theorem loop_step (lib : Lib) (c : Client) (path : String) (tr0 : List Event)
    (ps : List Listing) (k fuel : Nat) (htoken : c.token ≠ "") (hk : k < ps.length)
    (hserved : PageServed lib c path tr0 ps k) :
    Client.FetchAllListings.loop lib c path (fuel + 1) (cursorAfter (ps.take k)) (ps.take k)
        (tr0 ++ pageEvents c path ps k) =
      if (ps.getD k { After := "", Children := [] }).After = "" then
        (some (some (ps.take (k + 1)), none), tr0 ++ pageEvents c path ps (k + 1))
      else
        Client.FetchAllListings.loop lib c path fuel (cursorAfter (ps.take (k + 1)))
          (ps.take (k + 1)) (tr0 ++ pageEvents c path ps (k + 1)) := by
  obtain ⟨hgate, res, hres, hstatus, hwf, hdec⟩ := hserved
  have hadm : c.admits (tr0 ++ pageEvents c path ps k) := by
    intro wait hl
    rw [waits_append, waits_pageEvents c path ps k wait hl]
    exact hgate wait hl
  have hsends : sends (tr0 ++ pageEvents c path ps k) = sends tr0 + k := by
    rw [sends_append, sends_pageEvents]
  obtain ⟨rate, hrate⟩ := rateStatus_ok_of_wellFormed lib res.Header hwf
  have hfetch := fetchListing_of_response lib c path (some (cursorAfter (ps.take k)))
    (tr0 ++ pageEvents c path ps k) res htoken hadm (by rw [hsends]; exact hres)
  rw [hrate] at hfetch
  simp only [dispatchStatus, hstatus, if_true, hdec] at hfetch
  rw [Client.FetchAllListings.loop, hfetch]
  simp only [take_succ_getD ps k { After := "", Children := [] } hk, cursorAfter_snoc, pageEvents,
    List.append_assoc]

/-- After `k` served pages that all carry a non-empty `after` the loop has
consumed `k` units of fuel and holds the cursor after those pages. -/
theorem loop_pages (lib : Lib) (c : Client) (path : String) (tr0 : List Event)
    (ps : List Listing) (htoken : ps ≠ [] → c.token ≠ "") (k : Nat) (hk : k ≤ ps.length)
    (hserved : ∀ j, j < k → PageServed lib c path tr0 ps j)
    (hafter : ∀ j p, j < k → ps[j]? = some p → p.After ≠ "") (fuel : Nat) :
    Client.FetchAllListings.loop lib c path (fuel + k) (cursorAfter []) [] tr0 =
      Client.FetchAllListings.loop lib c path fuel (cursorAfter (ps.take k)) (ps.take k)
        (tr0 ++ pageEvents c path ps k) := by
  induction k generalizing fuel with
  | zero => simp [pageEvents]
  | succ k ih =>
    have hk1 : k < ps.length := hk
    have hne : ps ≠ [] := by
      intro h
      simp [h] at hk1
    have ih1 := ih (Nat.le_of_lt hk1) (fun j hj => hserved j (Nat.lt_succ_of_lt hj))
      (fun j p hj => hafter j p (Nat.lt_succ_of_lt hj)) (fuel + 1)
    have hfuel : fuel + (k + 1) = fuel + 1 + k := by omega
    rw [hfuel, ih1,
      loop_step lib c path tr0 ps k fuel (htoken hne) hk1 (hserved k (Nat.lt_succ_self k))]
    have hget : ps[k]? = some (ps.getD k { After := "", Children := [] }) := by
      simp [List.getD, List.getElem?_eq_getElem hk1]
    rw [if_neg (hafter k _ (Nat.lt_succ_self k) hget)]

theorem loop_trace_extends (lib : Lib) (c : Client) (path : String) (fuel : Nat) :
    ∀ (page : Page) (out : List Listing) (tr : List Event),
      ∃ ext, (Client.FetchAllListings.loop lib c path fuel page out tr).2 = tr ++ ext := by
  induction fuel with
  | zero => intro page out tr; exact ⟨[], by simp [Client.FetchAllListings.loop]⟩
  | succ fuel ih =>
    intro page out tr
    obtain ⟨ext, hext⟩ := fetchListing_trace_extends lib c path (some page) tr
    rw [Client.FetchAllListings.loop]
    cases hf : c.fetchListing lib path (some page) tr with
    | mk r tr1 =>
      rw [hf] at hext
      simp only at hext
      cases r with
      | error err => exact ⟨ext, hext⟩
      | ok listing =>
        simp only
        split
        · exact ⟨ext, hext⟩
        · obtain ⟨ext2, hext2⟩ := ih
            { page with After := listing.After, Count := page.Count + listing.Children.length }
            (out ++ [listing]) tr1
          exact ⟨ext ++ ext2, by rw [hext2, hext, List.append_assoc]⟩

/-- The first test page is served to `brokenClient` from the empty trace. -/
theorem brokenClient_served :
    ∀ k, k < (testPages.take 1).length →
      PageServed exampleLib brokenClient "/unit-test" [] (testPages.take 1) k := by
  intro k hk
  have hwf : WellFormedRateHeaders exampleLib [] := by
    simp [WellFormedRateHeaders, headerValues]
  have hk2 : k < 1 := hk
  interval_cases k
  exact ⟨fun wait hw => by cases hw; rfl, _, rfl, rfl, hwf, rfl⟩

/-! ## The claims -/

/-- C2: when the pages `ps` (possibly none) have been served with a non-empty
`after` each and the fetch of the next page fails with `err`, whatever the reason,
`FetchAllListings` returns a nil result together with `err`: none of the pages
already fetched is returned. -/
theorem FetchAllListings_no_partial_result (lib : Lib) (c : Client) (path : String)
    (tr0 tr1 : List Event) (ps : List Listing) (fuel : Nat) (err : Err)
    (htoken : ps ≠ [] → c.token ≠ "")
    (hserved : ∀ k, k < ps.length → PageServed lib c path tr0 ps k)
    (hafter : ∀ p ∈ ps, p.After ≠ "")
    (hfail : c.fetchListing lib path (some (cursorAfter ps))
      (tr0 ++ pageEvents c path ps ps.length) = (.error err, tr1))
    (hfuel : ps.length < fuel) :
    c.FetchAllListings lib path fuel tr0 = (some (none, some err), tr1) := by
  obtain ⟨f, hf⟩ : ∃ f, fuel = f + 1 + ps.length := ⟨fuel - (ps.length + 1), by omega⟩
  have hloop := loop_pages lib c path tr0 ps htoken ps.length (Nat.le_refl _)
    hserved (fun j p _ hp => hafter p (List.getElem?_mem hp)) (f + 1)
  have hcur : cursorAfter [] = ({ Limit := 1000 } : Page) := rfl
  rw [Client.FetchAllListings, hf, ← hcur, hloop, List.take_length,
    Client.FetchAllListings.loop, hfail]

/-- Witness for C2: the first test page is served, the second request is answered
with status 500; the call returns nil and the Unexpected-Status error. -/
theorem FetchAllListings_no_partial_result_witness :
    brokenClient.FetchAllListings exampleLib "/unit-test" 5 [] =
      (some (none, some (Err.UnexpectedStatus "GET" "/unit-test" 500)),
        [] ++ pageEvents brokenClient "/unit-test" (testPages.take 1) 2) :=
  FetchAllListings_no_partial_result exampleLib brokenClient "/unit-test" []
    ([] ++ pageEvents brokenClient "/unit-test" (testPages.take 1) 2) (testPages.take 1) 5
    (Err.UnexpectedStatus "GET" "/unit-test" 500) (fun _ => by decide) brokenClient_served
    (by decide) rfl (by decide)

/-- C4, the code at a failing input: a 429 answer whose `X-Ratelimit-Reset` header
holds the decimal integer 300 makes the fetch fail with Rate-Limit-Exceeded whose
`ResetsIn` is 44 seconds, not 300 seconds, because `rateStatus` narrows the parsed
value to `uint8`. -/
theorem fetchListing_reset_300 :
    Atoi "300" = .ok 300 ∧
    (Client.fetchListing exampleLib
        (exampleClient { StatusCode := 429, Header := [("X-Ratelimit-Reset", ["300"])], Body := "" })
        "/r/golang/top" none []).1 = .error (Err.RateLimitExceeded (44 * Second)) ∧
    (44 : Int) * Second ≠ 300 * Second := by
  refine ⟨rfl, rfl, by decide⟩

/-- C5: `Login` validates before it touches the rate gate or the transport. With
non-empty clientID and secret an empty username fails with Missing-Input
`username` (whatever the password) and a non-empty username with an empty password
fails with Missing-Input `password`; with an empty clientID or secret it fails with
Not-Initialized whatever the username and password. In each case the client and
the trace are unchanged: no admission is requested and no request is sent. -/
theorem Login_validates_inputs_first (lib : Lib) (c : Client) (username password : String)
    (tr : List Event) :
    (c.clientID ≠ "" → c.secret ≠ "" → username = "" →
      c.Login lib username password tr = (some (Err.MissingInput "username"), c, tr)) ∧
    (c.clientID ≠ "" → c.secret ≠ "" → username ≠ "" → password = "" →
      c.Login lib username password tr = (some (Err.MissingInput "password"), c, tr)) ∧
    (c.clientID = "" ∨ c.secret = "" →
      c.Login lib username password tr = (some Err.NotInitialized, c, tr)) ∧
    MissingInputError.Error "username" = "missing required input: username" ∧
    MissingInputError.Error "password" = "missing required input: password" := by
  refine ⟨?_, ?_, ?_, by decide, by decide⟩
  · intro h1 h2 h3
    simp [Client.Login, Client.prepareLoginRequest, Client.validateLoginInputs,
      Client.uninitialized, h1, h2, h3]
  · intro h1 h2 h3 h4
    simp [Client.Login, Client.prepareLoginRequest, Client.validateLoginInputs,
      Client.uninitialized, h1, h2, h3, h4]
  · intro h
    have : c.uninitialized = true := by
      rcases h with h | h <;> simp [Client.uninitialized, h]
    simp [Client.Login, Client.prepareLoginRequest, Client.validateLoginInputs, this]

/-- Witness for C5: the empty-username case of `TestClient_Login`. -/
theorem Login_validates_inputs_first_witness :
    freshClient.Login exampleLib "" "unitTester" [] =
      (some (Err.MissingInput "username"), freshClient, []) :=
  (Login_validates_inputs_first exampleLib freshClient "" "unitTester" []).1
    (by decide) (by decide) rfl

/-- C6: when `Login` with valid inputs is admitted and the token endpoint answers
with a status other than 200, `Login` fails with Unexpected-Status carrying
`POST`, the token URL and that status, its message is
`unexpected status code <s> (POST https://www.reddit.com/api/v1/access_token)`,
and the client (so its token) is unchanged; the outcome does not depend on the
body or on the decoder. -/
theorem Login_unexpected_status (lib : Lib) (c : Client) (username password : String)
    (tr : List Event) (res : Response)
    (hvalid : c.validateLoginInputs username password = none)
    (hadm : c.admits tr)
    (hres : c.httpClient (sends tr) (c.loginRequest accessTokenURI username password) = .ok res)
    (hs : res.StatusCode ≠ 200) :
    c.Login lib username password tr =
      (some (Err.UnexpectedStatus "POST" "https://www.reddit.com/api/v1/access_token"
          res.StatusCode), c,
        tr ++ c.gateEvents ++ [Event.Do (c.loginRequest accessTokenURI username password)]) ∧
    UnexpectedStatusError.Error "POST" "https://www.reddit.com/api/v1/access_token"
        res.StatusCode =
      "unexpected status code " ++ Itoa res.StatusCode
        ++ " (POST https://www.reddit.com/api/v1/access_token)" := by
  constructor
  · have hu : accessTokenURI.String = "https://www.reddit.com/api/v1/access_token" := by
      decide
    simp only [Client.Login, Client.prepareLoginRequest, hvalid, send_of_admits _ _ _ hadm]
    rw [hres]
    simp [hs, hu]
  · simp only [UnexpectedStatusError.Error, Itoa, String.append_assoc]
    rfl

/-- Witness for C6: the invalid-credentials case of `TestClient_Login`, status
401. -/
theorem Login_unexpected_status_witness :
    ((exampleClient { StatusCode := 401, Header := [], Body := "" }).Login exampleLib
        "unitTester" "unitTester" []).1 =
      some (Err.UnexpectedStatus "POST" "https://www.reddit.com/api/v1/access_token" 401) :=
  congrArg Prod.fst
    (Login_unexpected_status exampleLib
      (exampleClient { StatusCode := 401, Header := [], Body := "" })
      "unitTester" "unitTester" [] { StatusCode := 401, Header := [], Body := "" }
      (by decide) (fun wait hw => by cases hw; rfl) rfl (by decide)).1

/-- C7: for an admitted listing fetch on an authenticated client whose response
has well-formed (or absent) rate-limit headers the status alone decides: 200 gives
the decoded listing or the decode error wrapped with `user listingJson: `, 429
gives Rate-Limit-Exceeded with the parsed reset as seconds, every other status `s`
gives Unexpected-Status with `GET`, the path as passed by the caller, and `s`. -/
theorem fetchListing_status_dispatch (lib : Lib) (c : Client) (path : String)
    (page : Option Page) (tr : List Event) (res : Response)
    (htoken : c.token ≠ "") (hadm : c.admits tr)
    (hres : c.httpClient (sends tr) (c.listingRequest path page) = .ok res)
    (hwf : WellFormedRateHeaders lib res.Header) :
    ∃ rate, rateStatus lib res.Header = .ok rate ∧
      (c.fetchListing lib path page tr).1 =
        (if res.StatusCode = 200 then
          (match lib.decodeListing res.Body with
           | .ok listing => .ok listing
           | .error err => .error (Err.Wrapped "user listingJson: " err))
         else if res.StatusCode = 429 then
          .error (Err.RateLimitExceeded ((rate.Reset : Int) * Second))
         else .error (Err.UnexpectedStatus "GET" path res.StatusCode)) := by
  obtain ⟨rate, hrate⟩ := rateStatus_ok_of_wellFormed lib res.Header hwf
  refine ⟨rate, hrate, ?_⟩
  rw [fetchListing_of_response lib c path page tr res htoken hadm hres, hrate]
  simp only [dispatchStatus]
  split
  · cases lib.decodeListing res.Body <;> rfl
  · rfl

/-- Witness for C7: a 404 answer without rate-limit headers. -/
theorem fetchListing_status_dispatch_witness :
    ∃ rate, rateStatus exampleLib [] = .ok rate ∧
      (Client.fetchListing exampleLib
          (exampleClient { StatusCode := 404, Header := [], Body := "" })
          "/r/golang/top" none []).1 =
        (if (404 : Int) = 200 then
          (match exampleLib.decodeListing "" with
           | .ok listing => .ok listing
           | .error err => .error (Err.Wrapped "user listingJson: " err))
         else if (404 : Int) = 429 then
          .error (Err.RateLimitExceeded ((rate.Reset : Int) * Second))
         else .error (Err.UnexpectedStatus "GET" "/r/golang/top" 404)) :=
  fetchListing_status_dispatch exampleLib
    (exampleClient { StatusCode := 404, Header := [], Body := "" })
    "/r/golang/top" none [] { StatusCode := 404, Header := [], Body := "" }
    (by decide) (fun wait hw => by cases hw; rfl) rfl
    (by simp [WellFormedRateHeaders, headerValues])

/-- C8: on a client whose session token is empty, `FetchListing` and
`FetchAllListings` (given fuel for one iteration) return a nil result with
Not-Authenticated, whose message is `not authenticated`, and leave the trace
unchanged: no admission is requested and no request is sent. -/
theorem fetch_unauthenticated (lib : Lib) (c : Client) (path : String) (tr : List Event)
    (fuel : Nat) (h : c.token = "") :
    c.FetchListing lib path tr = ((none, some Err.NotAuthenticated), tr) ∧
    c.FetchAllListings lib path (fuel + 1) tr = (some (none, some Err.NotAuthenticated), tr) ∧
    NotAuthenticatedError.Error = "not authenticated" := by
  refine ⟨?_, ?_, rfl⟩
  · simp [Client.FetchListing, Client.fetchListing, Client.prepareAuthenticatedRequest,
      Client.authenticated, h]
  · simp [Client.FetchAllListings, Client.FetchAllListings.loop, Client.fetchListing,
      Client.prepareAuthenticatedRequest, Client.authenticated, h]

/-- Witness for C8: a client fresh from `NewClient`. -/
theorem fetch_unauthenticated_witness :
    freshClient.FetchListing exampleLib "/r/golang/top" [] =
      ((none, some Err.NotAuthenticated), []) ∧
    freshClient.FetchAllListings exampleLib "/r/golang/top" 1 [] =
      (some (none, some Err.NotAuthenticated), []) :=
  ⟨(fetch_unauthenticated exampleLib freshClient "/r/golang/top" [] 0 rfl).1,
   (fetch_unauthenticated exampleLib freshClient "/r/golang/top" [] 0 rfl).2.1⟩

/-- C9 as stated fails: the header set in which `X-Ratelimit-Reset` carries the two
values `abc` and `def`, neither a valid number, is accepted by `rateStatus` with
the result `RateStatus{0, 0, 0}`, because a header is parsed only when it has
exactly one value. -/
theorem rateStatus_multi_valued_unparsed :
    "abc" ∈ headerValues [("X-Ratelimit-Reset", ["abc", "def"])] "X-Ratelimit-Reset" ∧
    Atoi "abc" = .error (Err.NumError "Atoi" "abc" false) ∧
    Atoi "def" = .error (Err.NumError "Atoi" "def" false) ∧
    rateStatus exampleLib [("X-Ratelimit-Reset", ["abc", "def"])]
      = .ok { Remaining := GoFloat.zero, Reset := 0, Used := 0 } := by
  refine ⟨by decide, rfl, rfl, rfl⟩

/-- C9 amended: when one of the three rate-limit headers carries exactly one value
and that value does not parse, `rateStatus` fails with the parse error of such a
header wrapped with `parse ratelimit remaining: `, `parse ratelimit reset: ` or
`parse ratelimit used: ` accordingly; an admitted listing fetch on an
authenticated client fails with the error of `rateStatus` whatever the status; and
a header set with none of the three headers gives `RateStatus{0, 0, 0}`. -/
theorem rateStatus_parse_error (lib : Lib) (h : Header) :
    (((∃ v e, h.lookup "X-Ratelimit-Remaining" = some [v] ∧ lib.ParseFloat32 v = .error e) ∨
      (∃ v e, h.lookup "X-Ratelimit-Reset" = some [v] ∧ Atoi v = .error e) ∨
      (∃ v e, h.lookup "X-Ratelimit-Used" = some [v] ∧ Atoi v = .error e)) →
     ((∃ v e, h.lookup "X-Ratelimit-Remaining" = some [v] ∧ lib.ParseFloat32 v = .error e ∧
        rateStatus lib h = .error (Err.Wrapped "parse ratelimit remaining: " e)) ∨
      (∃ v e, h.lookup "X-Ratelimit-Reset" = some [v] ∧ Atoi v = .error e ∧
        rateStatus lib h = .error (Err.Wrapped "parse ratelimit reset: " e)) ∨
      (∃ v e, h.lookup "X-Ratelimit-Used" = some [v] ∧ Atoi v = .error e ∧
        rateStatus lib h = .error (Err.Wrapped "parse ratelimit used: " e)))) ∧
    (∀ (c : Client) (path : String) (page : Option Page) (tr : List Event)
        (status : Int) (body : String) (err : Err),
      c.token ≠ "" → c.admits tr →
      c.httpClient (sends tr) (c.listingRequest path page)
        = .ok { StatusCode := status, Header := h, Body := body } →
      rateStatus lib h = .error err →
      (c.fetchListing lib path page tr).1 = .error err) ∧
    (h.lookup "X-Ratelimit-Remaining" = none → h.lookup "X-Ratelimit-Reset" = none →
      h.lookup "X-Ratelimit-Used" = none →
      rateStatus lib h = .ok { Remaining := GoFloat.zero, Reset := 0, Used := 0 }) := by
  refine ⟨?_, ?_, ?_⟩
  · intro hbad
    -- the first header, in the order of the checks, that fails to parse
    by_cases c1 : ∃ v e, h.lookup "X-Ratelimit-Remaining" = some [v] ∧
        lib.ParseFloat32 v = .error e
    · obtain ⟨v, e, hl, hp⟩ := c1
      refine Or.inl ⟨v, e, hl, hp, ?_⟩
      simp [rateStatus, (singleValue_eq_some_iff h _ v).mpr hl, hp]
    · have e1 : ∃ x, (match singleValue h "X-Ratelimit-Remaining" with
          | some v => lib.ParseFloat32 v
          | none => .ok GoFloat.zero) = Except.ok x := by
        cases hv : singleValue h "X-Ratelimit-Remaining" with
        | none => exact ⟨_, rfl⟩
        | some v =>
          cases hp : lib.ParseFloat32 v with
          | ok x => exact ⟨x, hp⟩
          | error e => exact absurd ⟨v, e, (singleValue_eq_some_iff h _ v).mp hv, hp⟩ c1
      obtain ⟨x1, hx1⟩ := e1
      by_cases c2 : ∃ v e, h.lookup "X-Ratelimit-Reset" = some [v] ∧ Atoi v = .error e
      · obtain ⟨v, e, hl, hp⟩ := c2
        refine Or.inr (Or.inl ⟨v, e, hl, hp, ?_⟩)
        unfold rateStatus
        simp only [hx1]
        simp [(singleValue_eq_some_iff h _ v).mpr hl, hp]
      · have e2 : ∃ x, (match singleValue h "X-Ratelimit-Reset" with
            | some v => Atoi v
            | none => .ok 0) = Except.ok x := by
          cases hv : singleValue h "X-Ratelimit-Reset" with
          | none => exact ⟨_, rfl⟩
          | some v =>
            cases hp : Atoi v with
            | ok x => exact ⟨x, hp⟩
            | error e => exact absurd ⟨v, e, (singleValue_eq_some_iff h _ v).mp hv, hp⟩ c2
        obtain ⟨x2, hx2⟩ := e2
        rcases hbad with hb | hb | hb
        · exact absurd hb c1
        · exact absurd hb c2
        · obtain ⟨v, e, hl, hp⟩ := hb
          refine Or.inr (Or.inr ⟨v, e, hl, hp, ?_⟩)
          unfold rateStatus
          simp only [hx1, hx2]
          simp [(singleValue_eq_some_iff h _ v).mpr hl, hp]
  · intro c path page tr status body err htoken hadm hres herr
    rw [fetchListing_of_response lib c path page tr _ htoken hadm hres]
    simp only [herr]
  · intro h1 h2 h3
    simp [rateStatus, singleValue_eq_none_of_lookup h _ h1, singleValue_eq_none_of_lookup h _ h2,
      singleValue_eq_none_of_lookup h _ h3, uint8]

/-- Witness for C9 amended: a single malformed `X-Ratelimit-Used` value. -/
theorem rateStatus_parse_error_witness :
    ∃ err, rateStatus exampleLib [("X-Ratelimit-Used", ["abc"])] = .error err := by
  rcases (rateStatus_parse_error exampleLib [("X-Ratelimit-Used", ["abc"])]).1
    (Or.inr (Or.inr ⟨"abc", _, rfl, rfl⟩)) with
    ⟨_, _, _, _, hr⟩ | ⟨_, _, _, _, hr⟩ | ⟨_, _, _, _, hr⟩ <;> exact ⟨_, hr⟩

/-- C10 as stated fails: a cursor with count -1 (or limit -1) has a non-zero field
and yet `Page.Values` holds no `count` (no `limit`) key. -/
theorem Page_Values_negative_count :
    ({ Count := -1 } : Page).Count ≠ 0 ∧ ({ Limit := -1 } : Page).Limit ≠ 0 ∧
    (Page.Values { Count := -1 }).lookup "count" = none ∧
    (Page.Values { Limit := -1 }).lookup "limit" = none := by
  decide

/-- C10 amended: `Page.Values` contains `after` iff `p.After` is non-empty, `before`
iff `p.Before` is non-empty, `count` iff `p.Count` is positive and `limit` iff
`p.Limit` is positive; each present key maps to the single value of its field
(integers in decimal), and no other key is present. -/
theorem Page_Values_keys (p : Page) :
    p.Values.lookup "after" = (if p.After ≠ "" then some [p.After] else none) ∧
    p.Values.lookup "before" = (if p.Before ≠ "" then some [p.Before] else none) ∧
    p.Values.lookup "count" = (if p.Count > 0 then some [Itoa p.Count] else none) ∧
    p.Values.lookup "limit" = (if p.Limit > 0 then some [Itoa p.Limit] else none) ∧
    ∀ key, key ≠ "after" → key ≠ "before" → key ≠ "count" → key ≠ "limit" →
      p.Values.lookup key = none := by
  unfold Page.Values
  by_cases h1 : p.After = "" <;> by_cases h2 : p.Before = "" <;> by_cases h3 : p.Count > 0 <;>
    by_cases h4 : p.Limit > 0 <;>
    simp [h1, h2, h3, h4, Values.Set, List.lookup, List.filter] <;>
    (intro key k1 k2 k3 k4
     have b1 : (key == "after") = false := beq_eq_false_iff_ne.mpr k1
     have b2 : (key == "before") = false := beq_eq_false_iff_ne.mpr k2
     have b3 : (key == "count") = false := beq_eq_false_iff_ne.mpr k3
     have b4 : (key == "limit") = false := beq_eq_false_iff_ne.mpr k4
     simp [b1, b2, b3, b4])

/-- Witness for C10 amended: the second cursor of the repository test holds no
`other` key. -/
theorem Page_Values_keys_witness :
    (Page.Values { After := "ou812", Count := 1, Limit := 1000 }).lookup "other" = none :=
  (Page_Values_keys { After := "ou812", Count := 1, Limit := 1000 }).2.2.2.2 "other"
    (by decide) (by decide) (by decide) (by decide)

/-! ## Lemmas on the rate gate and on the requests sent -/

theorem send_gated (c : Client) (wait : Nat → Option Err) (hl : c.limiter = some wait)
    (r : Request) (tr : List Event) :
    ∃ ext, (c.send r tr).2 = tr ++ ext ∧ gated wait (waits tr) ext = true ∧
      (∀ res, (c.send r tr).1 = .ok res → ext = [Event.Wait, Event.Do r] ∧ wait (waits tr) = none) ∧
      (∀ r1, Event.Do r1 ∈ ext → r1 = r) := by
  unfold Client.send
  simp only [hl]
  cases hw : wait (waits tr) with
  | some err =>
    exact ⟨[Event.Wait], by simp [hw], by simp [gated, hw], by simp, by simp⟩
  | none =>
    cases hr : c.httpClient (sends (tr ++ [Event.Wait])) r <;>
      exact ⟨[Event.Wait, Event.Do r], by simp [hw, hr], by simp [gated, hw], by simp [hw, hr],
        by simp⟩

theorem fetchListing_gated (lib : Lib) (c : Client) (wait : Nat → Option Err)
    (hl : c.limiter = some wait) (path : String) (page : Option Page) (tr : List Event) :
    ∃ ext, (c.fetchListing lib path page tr).2 = tr ++ ext ∧ gated wait (waits tr) ext = true ∧
      (∀ l, (c.fetchListing lib path page tr).1 = .ok l →
        ext = [Event.Wait, Event.Do (c.listingRequest path page)] ∧ wait (waits tr) = none) ∧
      (∀ r1, Event.Do r1 ∈ ext → r1 = c.listingRequest path page) := by
  unfold Client.fetchListing Client.prepareAuthenticatedRequest
  cases ha : c.authenticated with
  | some err => exact ⟨[], by simp, by simp [gated], by simp, by simp⟩
  | none =>
    obtain ⟨ext, h1, h2, h3, h4⟩ := send_gated c wait hl (c.listingRequest path page) tr
    refine ⟨ext, ?_, h2, ?_, h4⟩
    · cases hs : c.send (c.listingRequest path page) tr with
      | mk r tr1 =>
        rw [hs] at h1
        simp only at h1
        cases r with
        | error err => simpa [hs] using h1
        | ok res => cases hr : rateStatus lib res.Header <;> simpa [hs, hr] using h1
    · intro l hok
      cases hs : c.send (c.listingRequest path page) tr with
      | mk r tr1 =>
        cases r with
        | error err => simp [hs] at hok
        | ok res => exact h3 res (by rw [hs])

theorem gated_pair (wait : Nat → Option Err) (w : Nat) (r : Request) (rest : List Event) :
    gated wait w (Event.Wait :: Event.Do r :: rest) = ((wait w).isNone && gated wait (w + 1) rest) := by
  simp [gated]

/-- The loop of `FetchAllListings` on a client with a limiter: the appended events
are gated, every request is a listing request for the path, and a successful
result has one admission and one request for each page added. -/
theorem loop_gated (lib : Lib) (c : Client) (wait : Nat → Option Err)
    (hl : c.limiter = some wait) (path : String) (fuel : Nat) :
    ∀ (page : Page) (out : List Listing) (tr : List Event),
      ∃ ext, (Client.FetchAllListings.loop lib c path fuel page out tr).2 = tr ++ ext ∧
        gated wait (waits tr) ext = true ∧
        (∀ res, (Client.FetchAllListings.loop lib c path fuel page out tr).1
            = some (some res, none) →
          res.length = out.length + sends ext ∧ waits ext = sends ext) := by
  induction fuel with
  | zero =>
    intro page out tr
    exact ⟨[], by simp [Client.FetchAllListings.loop], by simp [gated],
      by simp [Client.FetchAllListings.loop]⟩
  | succ fuel ih =>
    intro page out tr
    obtain ⟨ext, h1, h2, h3, _⟩ := fetchListing_gated lib c wait hl path (some page) tr
    rw [Client.FetchAllListings.loop]
    cases hf : c.fetchListing lib path (some page) tr with
    | mk r tr1 =>
      rw [hf] at h1 h3
      simp only at h1 h3
      cases r with
      | error err => exact ⟨ext, h1, h2, by simp⟩
      | ok listing =>
        obtain ⟨hext, hw⟩ := h3 listing rfl
        simp only
        split
        · refine ⟨ext, h1, h2, ?_⟩
          intro res hres
          simp only [Option.some.injEq, Prod.mk.injEq, and_true] at hres
          subst hres
          simp [hext, sends, waits, Event.isDo, Event.isWait]
        · obtain ⟨ext2, g1, g2, g3⟩ := ih
            { page with After := listing.After, Count := page.Count + listing.Children.length }
            (out ++ [listing]) tr1
          refine ⟨ext ++ ext2, by rw [g1, h1, List.append_assoc], ?_, ?_⟩
          · have hwt : waits tr1 = waits tr + 1 := by
              rw [h1, hext]
              simp [waits, List.countP_append, Event.isWait]
            rw [hwt] at g2
            rw [hext]
            simp only [List.cons_append, List.nil_append, gated_pair, hw, g2]
            rfl
          · intro res hres
            obtain ⟨k1, k2⟩ := g3 res hres
            rw [sends_append, waits_append, hext]
            constructor
            · rw [k1]
              simp [sends, Event.isDo]
              omega
            · rw [k2]
              simp [sends, waits, Event.isDo, Event.isWait]

theorem fetchListing_requests (lib : Lib) (c : Client) (path : String) (page : Option Page)
    (tr : List Event) :
    ∃ reqs, sent (c.fetchListing lib path page tr).2 = sent tr ++ reqs ∧ reqs.length ≤ 1 ∧
      ∀ r ∈ reqs, r = c.listingRequest path page := by
  have hsend : ∃ reqs, sent (c.send (c.listingRequest path page) tr).2 = sent tr ++ reqs ∧
      reqs.length ≤ 1 ∧ ∀ r ∈ reqs, r = c.listingRequest path page := by
    unfold Client.send
    cases hl : c.limiter with
    | none =>
      cases hr : c.httpClient (sends tr) (c.listingRequest path page) <;>
        exact ⟨[c.listingRequest path page], by simp [hr, sent_append, sent], by simp, by simp⟩
    | some wait =>
      cases hw : wait (waits tr) with
      | some err => exact ⟨[], by simp [hw, sent_append, sent], by simp, by simp⟩
      | none =>
        cases hr : c.httpClient (sends (tr ++ [Event.Wait])) (c.listingRequest path page) <;>
          exact ⟨[c.listingRequest path page], by simp [hw, hr, sent_append, sent], by simp,
            by simp⟩
  unfold Client.fetchListing Client.prepareAuthenticatedRequest
  cases ha : c.authenticated with
  | some err => exact ⟨[], by simp, by simp, by simp⟩
  | none =>
    obtain ⟨reqs, h1, h2, h3⟩ := hsend
    refine ⟨reqs, ?_, h2, h3⟩
    cases hs : c.send (c.listingRequest path page) tr with
    | mk r tr1 =>
      rw [hs] at h1
      simp only at h1
      cases r with
      | error err => simpa [hs] using h1
      | ok res => cases hr : rateStatus lib res.Header <;> simpa [hs, hr] using h1

theorem loop_requests (lib : Lib) (c : Client) (path : String) (fuel : Nat) :
    ∀ (page : Page) (out : List Listing) (tr : List Event),
      ∃ reqs, sent (Client.FetchAllListings.loop lib c path fuel page out tr).2 = sent tr ++ reqs ∧
        ∀ r ∈ reqs, ∃ p, r = c.listingRequest path (some p) := by
  induction fuel with
  | zero =>
    intro page out tr
    exact ⟨[], by simp [Client.FetchAllListings.loop], by simp⟩
  | succ fuel ih =>
    intro page out tr
    obtain ⟨reqs, h1, _, h3⟩ := fetchListing_requests lib c path (some page) tr
    have h3a : ∀ r ∈ reqs, ∃ p, r = c.listingRequest path (some p) :=
      fun r hr => ⟨page, h3 r hr⟩
    rw [Client.FetchAllListings.loop]
    cases hf : c.fetchListing lib path (some page) tr with
    | mk r tr1 =>
      rw [hf] at h1
      simp only at h1
      cases r with
      | error err => exact ⟨reqs, h1, h3a⟩
      | ok listing =>
        simp only
        split
        · exact ⟨reqs, h1, h3a⟩
        · obtain ⟨reqs2, g1, g2⟩ := ih
            { page with After := listing.After, Count := page.Count + listing.Children.length }
            (out ++ [listing]) tr1
          refine ⟨reqs ++ reqs2, by rw [g1, h1, List.append_assoc], ?_⟩
          intro r hr
          rcases List.mem_append.mp hr with h | h
          · exact h3a r h
          · exact g2 r h

theorem listingRequest_shape (c : Client) (path : String) (page : Option Page) :
    (c.listingRequest path page).Method = "GET" ∧
    (c.listingRequest path page).URL.Scheme = "https" ∧
    (c.listingRequest path page).URL.Host = "oauth.reddit.com" ∧
    (c.listingRequest path page).URL.Path =
      (if path ≠ "" ∧ path.front ≠ '/' then "/" ++ path else path) ∧
    (c.listingRequest path page).Header.lookup "Authorization" = some ["Bearer " ++ c.token] ∧
    (c.listingRequest path page).Header.lookup "Content-Type" = some ["application/json"] ∧
    (c.listingRequest path page).Header.lookup "User-Agent"
      = some ["reddit-client/v0.0.1 (by /u/jqdurham)"] := by
  refine ⟨rfl, rfl, rfl, rfl, ?_, ?_, ?_⟩ <;>
    simp [Client.listingRequest, stdHeaders, withBearer, Values.Set, List.lookup, List.filter]

/-! ## The claims on the rate gate, the session token and the single fetch -/

/-- C11: on a client built with a rate gate, the events appended by `Login`,
`FetchListing` and `FetchAllListings` are gated: each request is preceded by one
admission of its own that succeeded, and a refused admission is followed by no
request; a successful `FetchAllListings` of k pages made k admissions and k sends.
When the admission due next returns the error `e`, a validated `Login` fails with
`e` wrapped with `rate limiter: ` (inside its own context `fetch token: `) and an
authenticated fetch fails with `e` wrapped with `rate limiter: `, and the only
event added is that admission. -/
theorem requests_are_gated (lib : Lib) (c : Client) (wait : Nat → Option Err)
    (hl : c.limiter = some wait) (path : String) (tr : List Event) :
    (∀ username password, ∃ ext, (c.Login lib username password tr).2.2 = tr ++ ext ∧
      gated wait (waits tr) ext = true) ∧
    (∃ ext, (c.FetchListing lib path tr).2 = tr ++ ext ∧ gated wait (waits tr) ext = true) ∧
    (∀ fuel, ∃ ext, (c.FetchAllListings lib path fuel tr).2 = tr ++ ext ∧
      gated wait (waits tr) ext = true ∧
      ∀ res, (c.FetchAllListings lib path fuel tr).1 = some (some res, none) →
        waits ext = res.length ∧ sends ext = res.length) ∧
    (∀ e, wait (waits tr) = some e →
      (∀ username password, c.validateLoginInputs username password = none →
        c.Login lib username password tr =
          (some (Err.Wrapped "fetch token: " (Err.Wrapped "rate limiter: " e)), c,
            tr ++ [Event.Wait])) ∧
      (c.token ≠ "" →
        (∀ page, c.fetchListing lib path page tr =
          (.error (Err.Wrapped "rate limiter: " e), tr ++ [Event.Wait])) ∧
        c.FetchListing lib path tr =
          ((none, some (Err.Wrapped "rate limiter: " e)), tr ++ [Event.Wait]) ∧
        ∀ fuel, c.FetchAllListings lib path (fuel + 1) tr =
          (some (none, some (Err.Wrapped "rate limiter: " e)), tr ++ [Event.Wait]))) := by
  refine ⟨?_, ?_, ?_, ?_⟩
  · intro username password
    unfold Client.Login Client.prepareLoginRequest
    cases hv : c.validateLoginInputs username password with
    | some err => exact ⟨[], by simp, by simp [gated]⟩
    | none =>
      obtain ⟨ext, h1, h2, _, _⟩ :=
        send_gated c wait hl (c.loginRequest accessTokenURI username password) tr
      refine ⟨ext, ?_, h2⟩
      cases hs : c.send (c.loginRequest accessTokenURI username password) tr with
      | mk r tr1 =>
        rw [hs] at h1
        simp only at h1
        cases r with
        | error err => simpa [hs] using h1
        | ok res =>
          by_cases hst : res.StatusCode = 200
          · cases hd : lib.decodeToken res.Body <;> simpa [hs, hst, hd] using h1
          · simpa [hs, hst] using h1
  · obtain ⟨ext, h1, h2, _, _⟩ := fetchListing_gated lib c wait hl path none tr
    refine ⟨ext, ?_, h2⟩
    unfold Client.FetchListing
    cases hf : c.fetchListing lib path none tr with
    | mk r tr1 =>
      rw [hf] at h1
      cases r <;> simpa using h1
  · intro fuel
    obtain ⟨ext, h1, h2, h3⟩ := loop_gated lib c wait hl path fuel { Limit := 1000 } [] tr
    refine ⟨ext, h1, h2, ?_⟩
    intro res hres
    obtain ⟨k1, k2⟩ := h3 res hres
    simp only [List.length_nil, Nat.zero_add] at k1
    omega
  · intro e he
    refine ⟨?_, ?_⟩
    · intro username password hv
      simp [Client.Login, Client.prepareLoginRequest, hv, Client.send, hl, he]
    · intro htoken
      have hfetch : ∀ page, c.fetchListing lib path page tr =
          (.error (Err.Wrapped "rate limiter: " e), tr ++ [Event.Wait]) :=
        fun page => fetchListing_gate_error lib c path page tr wait e htoken hl he
      refine ⟨hfetch, ?_, ?_⟩
      · simp [Client.FetchListing, hfetch]
      · intro fuel
        simp [Client.FetchAllListings, Client.FetchAllListings.loop, hfetch]

/-- Witness for C11: the test client (a rate gate that always admits) fetching the
two test pages makes two admissions and two sends. -/
theorem requests_are_gated_witness :
    ∃ ext, (testClient.FetchAllListings exampleLib "/unit-test" 2 []).2 = [] ++ ext ∧
      gated (fun _ => none) (waits []) ext = true ∧
      ∀ res, (testClient.FetchAllListings exampleLib "/unit-test" 2 []).1
          = some (some res, none) →
        waits ext = res.length ∧ sends ext = res.length :=
  (requests_are_gated exampleLib testClient (fun _ => none) rfl "/unit-test" []).2.2.1 2

/-- C12: a validated, admitted `Login` that receives status 200 with a body whose
`access_token` is `t` returns nil and leaves a client that differs from the one
before only in its session token, which is `t` whatever it was before and whatever
`expires_in` is; every request later sent by `FetchListing` or `FetchAllListings`
on that client is a GET to host `oauth.reddit.com` carrying
`Authorization: Bearer t`, `Content-Type: application/json` and the fixed
User-Agent. -/
theorem Login_sets_bearer_token (lib : Lib) (c : Client) (username password : String)
    (tr : List Event) (res : Response) (tok : AccessTokenResponse)
    (hvalid : c.validateLoginInputs username password = none)
    (hadm : c.admits tr)
    (hres : c.httpClient (sends tr) (c.loginRequest accessTokenURI username password) = .ok res)
    (hs : res.StatusCode = 200) (hdec : lib.decodeToken res.Body = .ok tok) :
    c.Login lib username password tr =
      (none, { c with token := tok.AccessToken },
        tr ++ c.gateEvents ++ [Event.Do (c.loginRequest accessTokenURI username password)]) ∧
    (∀ (path : String) (tr1 : List Event),
      ∃ reqs, sent (Client.FetchListing lib { c with token := tok.AccessToken } path tr1).2
          = sent tr1 ++ reqs ∧
        ∀ r ∈ reqs, r.Method = "GET" ∧ r.URL.Host = "oauth.reddit.com" ∧
          r.Header.lookup "Authorization" = some ["Bearer " ++ tok.AccessToken] ∧
          r.Header.lookup "Content-Type" = some ["application/json"] ∧
          r.Header.lookup "User-Agent" = some ["reddit-client/v0.0.1 (by /u/jqdurham)"]) ∧
    (∀ (path : String) (fuel : Nat) (tr1 : List Event),
      ∃ reqs, sent (Client.FetchAllListings lib { c with token := tok.AccessToken } path fuel
          tr1).2 = sent tr1 ++ reqs ∧
        ∀ r ∈ reqs, r.Method = "GET" ∧ r.URL.Host = "oauth.reddit.com" ∧
          r.Header.lookup "Authorization" = some ["Bearer " ++ tok.AccessToken] ∧
          r.Header.lookup "Content-Type" = some ["application/json"] ∧
          r.Header.lookup "User-Agent" = some ["reddit-client/v0.0.1 (by /u/jqdurham)"]) := by
  refine ⟨?_, ?_, ?_⟩
  · simp only [Client.Login, Client.prepareLoginRequest, hvalid, send_of_admits _ _ _ hadm]
    rw [hres]
    simp [hs, hdec]
  · intro path tr1
    obtain ⟨reqs, h1, _, h3⟩ :=
      fetchListing_requests lib { c with token := tok.AccessToken } path none tr1
    refine ⟨reqs, ?_, ?_⟩
    · unfold Client.FetchListing
      cases hf : Client.fetchListing lib { c with token := tok.AccessToken } path none tr1 with
      | mk r tr2 =>
        rw [hf] at h1
        cases r <;> simpa using h1
    · intro r hr
      rw [h3 r hr]
      obtain ⟨a, _, b, _, d, e, f⟩ :=
        listingRequest_shape { c with token := tok.AccessToken } path none
      exact ⟨a, b, d, e, f⟩
  · intro path fuel tr1
    obtain ⟨reqs, h1, h2⟩ :=
      loop_requests lib { c with token := tok.AccessToken } path fuel { Limit := 1000 } [] tr1
    refine ⟨reqs, h1, ?_⟩
    intro r hr
    obtain ⟨p, hp⟩ := h2 r hr
    rw [hp]
    obtain ⟨a, _, b, _, d, e, f⟩ :=
      listingRequest_shape { c with token := tok.AccessToken } path (some p)
    exact ⟨a, b, d, e, f⟩

/-- Witness for C12: the token endpoint of the repository test answers 200 with
`access_token` 123 and `expires_in` 86400. -/
theorem Login_sets_bearer_token_witness :
    ((exampleClient { StatusCode := 200, Header := [], Body := "token" }).Login exampleLib
        "unitTester" "unitTester" []).1 = none :=
  congrArg Prod.fst
    (Login_sets_bearer_token exampleLib
      (exampleClient { StatusCode := 200, Header := [], Body := "token" })
      "unitTester" "unitTester" [] { StatusCode := 200, Header := [], Body := "token" }
      { AccessToken := "123", ExpiresIn := 86400, Scope := "*", Type_ := "bearer" }
      (by decide) (fun wait hw => by cases hw; rfl) rfl rfl rfl).1

/-- C13: `FetchListing` on an authenticated client sends at most one request, built
without a cursor, so with an empty query string; when that request is admitted and
answered by a decodable 200 the decoded page is returned whatever its `after`; and
when the single fetch fails, with Rate-Limit-Exceeded or anything else, that error
is returned with a nil page and the trace of that single fetch. -/
theorem FetchListing_single_request (lib : Lib) (c : Client) (path : String)
    (tr : List Event) (htoken : c.token ≠ "") :
    (∃ reqs, sent (c.FetchListing lib path tr).2 = sent tr ++ reqs ∧ reqs.length ≤ 1 ∧
      ∀ r ∈ reqs, r = c.listingRequest path none) ∧
    (c.listingRequest path none).URL.RawQuery = "" ∧
    (∀ res listing, c.admits tr →
      c.httpClient (sends tr) (c.listingRequest path none) = .ok res →
      res.StatusCode = 200 → WellFormedRateHeaders lib res.Header →
      lib.decodeListing res.Body = .ok listing →
      c.FetchListing lib path tr =
        ((some listing, none),
          tr ++ c.gateEvents ++ [Event.Do (c.listingRequest path none)])) ∧
    (∀ res, c.admits tr →
      c.httpClient (sends tr) (c.listingRequest path none) = .ok res →
      res.StatusCode = 429 → WellFormedRateHeaders lib res.Header →
      ∃ d, c.FetchListing lib path tr =
        ((none, some (Err.RateLimitExceeded d)),
          tr ++ c.gateEvents ++ [Event.Do (c.listingRequest path none)])) ∧
    (∀ err tr1, c.fetchListing lib path none tr = (.error err, tr1) →
      c.FetchListing lib path tr = ((none, some err), tr1)) := by
  refine ⟨?_, rfl, ?_, ?_, ?_⟩
  · obtain ⟨reqs, h1, h2, h3⟩ := fetchListing_requests lib c path none tr
    refine ⟨reqs, ?_, h2, h3⟩
    unfold Client.FetchListing
    cases hf : c.fetchListing lib path none tr with
    | mk r tr1 =>
      rw [hf] at h1
      cases r <;> simpa using h1
  · intro res listing hadm hres hs hwf hdec
    obtain ⟨rate, hrate⟩ := rateStatus_ok_of_wellFormed lib res.Header hwf
    simp [Client.FetchListing, fetchListing_of_response lib c path none tr res htoken hadm hres,
      hrate, dispatchStatus, hs, hdec]
  · intro res hadm hres hs hwf
    obtain ⟨rate, hrate⟩ := rateStatus_ok_of_wellFormed lib res.Header hwf
    refine ⟨(rate.Reset : Int) * Second, ?_⟩
    simp [Client.FetchListing, fetchListing_of_response lib c path none tr res htoken hadm hres,
      hrate, dispatchStatus, hs]
  · intro err tr1 hf
    simp [Client.FetchListing, hf]

/-- Witness for C13: the first test page, whose `after` is `ou812`, is returned by
`FetchListing` after one request. -/
theorem FetchListing_single_request_witness :
    ∃ reqs, sent ((exampleClient { StatusCode := 200, Header := [], Body := "first" }).FetchListing
        exampleLib "/unit-test" []).2 = sent [] ++ reqs ∧ reqs.length ≤ 1 ∧
      ∀ r ∈ reqs, r = (exampleClient { StatusCode := 200, Header := [], Body := "first" }).listingRequest
        "/unit-test" none :=
  (FetchListing_single_request exampleLib
    (exampleClient { StatusCode := 200, Header := [], Body := "first" }) "/unit-test" []
    (by decide)).1

/-! ## Lemmas on the orchestrator -/

namespace Orchestrator

/-- A single worker whose context stays open for the next `n` iterations invokes
its job `n` more times and sends exactly the errors of those invocations. -/
theorem single_worker_run (ctx : Context) (job : Job) (n : Nat) :
    ∀ (st : State) (k : Nat), st.invoked = [k] →
      (∀ t, t < st.clock + n → ctx t = none) →
      (List.replicate n 0).foldl (iterate ctx [job]) st =
        { invoked := [k + n],
          errCh := st.errCh ++ (List.range' k n).filterMap job,
          clock := st.clock + n } := by
  induction n with
  | zero =>
    intro st k hk _
    cases st
    simp_all
  | succ n ih =>
    intro st k hk hctx
    have hc : ctx st.clock = none := hctx st.clock (by omega)
    rw [List.replicate_succ, List.foldl_cons]
    cases hj : job k with
    | none =>
      have hstep : iterate ctx [job] st 0 =
          { invoked := [k + 1], errCh := st.errCh, clock := st.clock + 1 } := by
        simp [iterate, hc, hk, hj]
      rw [hstep, ih _ (k + 1) rfl (by intro t ht; exact hctx t (by simp at ht; omega))]
      simp [List.range'_succ, hj]
      omega
    | some err =>
      have hstep : iterate ctx [job] st 0 =
          { invoked := [k + 1], errCh := st.errCh ++ [err], clock := st.clock + 1 } := by
        simp [iterate, hc, hk, hj]
      rw [hstep, ih _ (k + 1) rfl (by intro t ht; exact hctx t (by simp at ht; omega))]
      simp [List.range'_succ, hj]
      omega

end Orchestrator

namespace Orchestrator

/-- Two workers, the first of which never fails, while the context stays open: the
errors sent are those of the invocations of the second job, in order. -/
theorem two_worker_run (ctx : Context) (jobB : Job) (schedule : List Nat) :
    ∀ (st : State) (a b : Nat), st.invoked = [a, b] →
      (∀ t, t < st.clock + schedule.length → ctx t = none) →
      (schedule.foldl (iterate ctx [fun _ => none, jobB]) st).invoked
          = [a + schedule.count 0, b + schedule.count 1] ∧
      (schedule.foldl (iterate ctx [fun _ => none, jobB]) st).errCh
          = st.errCh ++ (List.range' b (schedule.count 1)).filterMap jobB := by
  induction schedule with
  | nil =>
    intro st a b hk _
    simp [hk]
  | cons w rest ih =>
    intro st a b hk hctx
    have hc : ctx st.clock = none := hctx st.clock (by simp)
    rw [List.foldl_cons]
    rcases w with _ | _ | w
    · -- the first worker runs: its job returns nil
      have hstep : iterate ctx [fun _ => none, jobB] st 0 =
          { invoked := [a + 1, b], errCh := st.errCh, clock := st.clock + 1 } := by
        simp [iterate, hc, hk]
      rw [hstep]
      obtain ⟨h1, h2⟩ := ih { invoked := [a + 1, b], errCh := st.errCh, clock := st.clock + 1 }
        (a + 1) b rfl (by intro t ht; exact hctx t (by simp at ht ⊢; omega))
      rw [h1, h2]
      simp
      omega
    · -- the second worker runs
      cases hj : jobB b with
      | none =>
        have hstep : iterate ctx [fun _ => none, jobB] st 1 =
            { invoked := [a, b + 1], errCh := st.errCh, clock := st.clock + 1 } := by
          simp [iterate, hc, hk, hj]
        rw [hstep]
        obtain ⟨h1, h2⟩ := ih { invoked := [a, b + 1], errCh := st.errCh, clock := st.clock + 1 }
          a (b + 1) rfl (by intro t ht; exact hctx t (by simp at ht ⊢; omega))
        rw [h1, h2]
        simp [List.range'_succ, hj]
        omega
      | some err =>
        have hstep : iterate ctx [fun _ => none, jobB] st 1 =
            { invoked := [a, b + 1], errCh := st.errCh ++ [err], clock := st.clock + 1 } := by
          simp [iterate, hc, hk, hj]
        rw [hstep]
        obtain ⟨h1, h2⟩ := ih
          { invoked := [a, b + 1], errCh := st.errCh ++ [err], clock := st.clock + 1 }
          a (b + 1) rfl (by intro t ht; exact hctx t (by simp at ht ⊢; omega))
        rw [h1, h2]
        simp [List.range'_succ, hj]
        omega
    · -- the entry names no worker
      have hstep : iterate ctx [fun _ => none, jobB] st (w + 1 + 1) = st := by
        simp [iterate]
      rw [hstep]
      obtain ⟨h1, h2⟩ := ih st a b hk
        (by intro t ht; exact hctx t (by simp at ht ⊢; omega))
      rw [h1, h2]
      simp

/-- The errors of the first `m` invocations of a job that returns nil three times
and then fails: none before the fourth invocation, the failure first from then on. -/
theorem head_of_fourth_failure (jobB : Job) (failure : Err) (m : Nat)
    (h0 : jobB 0 = none) (h1 : jobB 1 = none) (h2 : jobB 2 = none)
    (h3 : jobB 3 = some failure) :
    ((List.range' 0 m).filterMap jobB).head? = if 4 ≤ m then some failure else none := by
  by_cases hm : 4 ≤ m
  · obtain ⟨j, rfl⟩ : ∃ j, m = j + 1 + 1 + 1 + 1 := ⟨m - 4, by omega⟩
    simp [List.range'_succ, h0, h1, h2, h3]
  · have hm4 : m < 4 := by omega
    interval_cases m <;> simp [List.range'_succ, h0, h1, h2]

end Orchestrator

/-! ## The claims on the orchestrator -/

/-- C14: a single worker whose cancellation signal does not fire during its first
`n` loop iterations, and whose sends are received, has after those iterations
invoked the job exactly `n` times and sent exactly the non-nil results of those
invocations, in invocation order; it does not stop after a failure. -/
theorem worker_invokes_job_every_iteration (ctx : Orchestrator.Context)
    (job : Orchestrator.Job) (n : Nat) (hctx : ∀ t, t < n → ctx t = none) :
    (Orchestrator.Run ctx [job] (List.replicate n 0)).invoked = [n] ∧
    (Orchestrator.Run ctx [job] (List.replicate n 0)).errCh = (List.range n).filterMap job := by
  have h := Orchestrator.single_worker_run ctx job n (Orchestrator.start [job]) 0 rfl
    (by intro t ht; exact hctx t (by simpa [Orchestrator.start] using ht))
  unfold Orchestrator.Run
  rw [h]
  simp [Orchestrator.start, List.range_eq_range']

/-- Witness for C14: the job that returns nil four times and fails on its fifth
invocation; after six iterations it has been invoked six times and the first
error on the sink is that failure. -/
theorem worker_invokes_job_every_iteration_witness :
    (Orchestrator.Run Orchestrator.background [Orchestrator.failsOnFifth]
        (List.replicate 6 0)).invoked = [6] ∧
    (Orchestrator.Run Orchestrator.background [Orchestrator.failsOnFifth]
        (List.replicate 6 0)).errCh = [Err.Foreign "mocked failure"] :=
  ⟨(worker_invokes_job_every_iteration Orchestrator.background Orchestrator.failsOnFifth 6
      (fun _ _ => rfl)).1,
   (worker_invokes_job_every_iteration Orchestrator.background Orchestrator.failsOnFifth 6
      (fun _ _ => rfl)).2.trans (by decide)⟩

/-- C15: a loop iteration that starts with the cancellation signal triggered does
not invoke the job and sends the terminal error of the signal. The worker does
not exit: as the signal stays triggered, however the iterations that follow are
scheduled among the workers, no job is invoked again and every one of them sends
the cancellation error again. -/
theorem cancelled_worker_keeps_reporting (ctx : Orchestrator.Context)
    (jobs : List Orchestrator.Job) (cerr : Err) (schedule : List Nat) :
    ∀ (st : Orchestrator.State), (∀ t, st.clock ≤ t → ctx t = some cerr) →
      (∀ w ∈ schedule, w < jobs.length) →
      (∀ w, w < jobs.length →
        (Orchestrator.iterate ctx jobs st w).invoked = st.invoked ∧
        (Orchestrator.iterate ctx jobs st w).errCh = st.errCh ++ [cerr]) ∧
      (schedule.foldl (Orchestrator.iterate ctx jobs) st).invoked = st.invoked ∧
      (schedule.foldl (Orchestrator.iterate ctx jobs) st).errCh
        = st.errCh ++ List.replicate schedule.length cerr := by
  have hstep : ∀ (st : Orchestrator.State) (w : Nat), ctx st.clock = some cerr →
      w < jobs.length →
      Orchestrator.iterate ctx jobs st w =
        { st with errCh := st.errCh ++ [cerr], clock := st.clock + 1 } := by
    intro st w hc hw
    simp [Orchestrator.iterate, List.getElem?_eq_getElem hw, hc]
  induction schedule with
  | nil =>
    intro st hdone _
    refine ⟨fun w hw => ?_, by simp, by simp⟩
    rw [hstep st w (hdone _ (Nat.le_refl _)) hw]
    exact ⟨rfl, rfl⟩
  | cons w rest ih =>
    intro st hdone hvalid
    have hw : w < jobs.length := hvalid w (by simp)
    have h1 := hstep st w (hdone _ (Nat.le_refl _)) hw
    obtain ⟨_, i2, i3⟩ := ih { st with errCh := st.errCh ++ [cerr], clock := st.clock + 1 }
      (fun t ht => hdone t (by simp at ht; omega))
      (fun v hv => hvalid v (by simp [hv]))
    refine ⟨fun v hv => ?_, ?_, ?_⟩
    · rw [hstep st v (hdone _ (Nat.le_refl _)) hv]
      exact ⟨rfl, rfl⟩
    · rw [List.foldl_cons, h1, i2]
    · rw [List.foldl_cons, h1, i3]
      simp [List.replicate_succ]

/-- Witness for C15: a worker started under an expired deadline runs three
iterations, never invokes its job and sends the deadline error three times. -/
theorem cancelled_worker_keeps_reporting_witness :
    (Orchestrator.Run Orchestrator.expired [Orchestrator.failsOnFifth] [0, 0, 0]).invoked = [0] ∧
    (Orchestrator.Run Orchestrator.expired [Orchestrator.failsOnFifth] [0, 0, 0]).errCh
      = [] ++ List.replicate 3 (Err.Foreign "context deadline exceeded") :=
  (cancelled_worker_keeps_reporting Orchestrator.expired [Orchestrator.failsOnFifth]
    (Err.Foreign "context deadline exceeded") [0, 0, 0]
    (Orchestrator.start [Orchestrator.failsOnFifth]) (fun _ _ => rfl) (by decide)).2

/-- C16: `Run` with two jobs, the first always returning nil and the second
returning nil on its first three invocations and `failure` on its fourth. Under
every schedule of the two workers during which the cancellation signal does not
fire, nothing is sent on the sink before the second worker has run four
iterations, and from then on the first error sent, hence the first one received,
is `failure`. -/
theorem first_error_is_second_job_failure (ctx : Orchestrator.Context)
    (jobB : Orchestrator.Job) (failure : Err) (schedule : List Nat)
    (h0 : jobB 0 = none) (h1 : jobB 1 = none) (h2 : jobB 2 = none)
    (h3 : jobB 3 = some failure)
    (hctx : ∀ t, t < schedule.length → ctx t = none) :
    (Orchestrator.Run ctx [fun _ => none, jobB] schedule).errCh.head?
      = if 4 ≤ schedule.count 1 then some failure else none := by
  obtain ⟨_, herr⟩ := Orchestrator.two_worker_run ctx jobB schedule
    (Orchestrator.start [fun _ => none, jobB]) 0 0 rfl
    (by intro t ht; exact hctx t (by simpa [Orchestrator.start] using ht))
  unfold Orchestrator.Run
  rw [herr]
  simpa [Orchestrator.start] using
    Orchestrator.head_of_fourth_failure jobB failure (schedule.count 1) h0 h1 h2 h3

/-- Witness for C16: the second case of `TestRun` under one interleaving. -/
theorem first_error_is_second_job_failure_witness :
    (Orchestrator.Run Orchestrator.background [fun _ => none, Orchestrator.failsOnFourth]
        [0, 1, 1, 0, 0, 1, 0, 1, 1, 0]).errCh.head?
      = if 4 ≤ [0, 1, 1, 0, 0, 1, 0, 1, 1, 0].count 1 then some (Err.Foreign "mocked failure")
        else none :=
  first_error_is_second_job_failure Orchestrator.background Orchestrator.failsOnFourth
    (Err.Foreign "mocked failure") [0, 1, 1, 0, 0, 1, 0, 1, 1, 0] rfl rfl rfl rfl
    (fun _ _ => rfl)

/-! ## Lemmas on the post service -/

namespace PostService

theorem foldl_append_eq_join (msg : List String) :
    ∀ init : String, msg.foldl (fun b post => b ++ post) init = init ++ String.join msg := by
  induction msg with
  | nil =>
    intro init
    simp [String.join]
  | cons m rest ih =>
    intro init
    have hj : String.join (m :: rest) = m ++ String.join rest := by
      simp only [String.join, List.foldl_cons]
      rw [ih, ih]
      simp
    rw [List.foldl_cons, ih, hj, String.append_assoc]

theorem foldl_snoc_eq_map {α β : Type} (f : α → β) (l : List α) :
    ∀ acc : List β, l.foldl (fun out x => out ++ [f x]) acc = acc ++ l.map f := by
  induction l with
  | nil => intro acc; simp
  | cons x rest ih => intro acc; simp [ih]

/-- The single write of `write`: the report for the title and the lines. -/
theorem write_eq_report (s : Service) (title : String) (msg : List String) :
    s.write title msg =
      (match s.writer (report title msg) with
       | some err => some (Err.Wrapped "error writing msg: " err)
       | none => none,
       [report title msg]) := by
  unfold Service.write report
  simp only [foldl_append_eq_join]
  cases s.writer ("\n" ++ (title ++ "\n") ++ (String.mk (List.replicate 80 '-') ++ "\n")
    ++ String.join msg ++ "\n") <;> rfl

end PostService

namespace PostService

/-! ### The map of counts -/

theorem lookup_isSome_iff_mem_keys (c : Counts) (k : String) :
    (c.lookup k).isSome = true ↔ k ∈ c.map Prod.fst := by
  induction c with
  | nil => simp
  | cons kv rest ih =>
    obtain ⟨k1, v1⟩ := kv
    by_cases h : k = k1
    · subst h
      simp
    · have hb : (k == k1) = false := beq_eq_false_iff_ne.mpr h
      simp [List.lookup_cons, hb, ih, h]

theorem lookup_update (c : Counts) (key : String) (v : Int) (k : String) :
    (c.map fun kv => if kv.1 = key then (key, v) else kv).lookup k =
      if k = key then (c.lookup key).map (fun _ => v) else c.lookup k := by
  induction c with
  | nil => simp
  | cons kv rest ih =>
    obtain ⟨k1, v1⟩ := kv
    by_cases h1 : k1 = key
    · subst h1
      by_cases h : k = k1
      · subst h
        simp
      · have hb : (k == k1) = false := beq_eq_false_iff_ne.mpr h
        simp only [List.map_cons, if_true, List.lookup_cons, hb, ih, h, if_false]
    · by_cases h : k = key
      · subst h
        have hb : (k == k1) = false := beq_eq_false_iff_ne.mpr (Ne.symm h1)
        simp only [List.map_cons, h1, if_false, List.lookup_cons, hb, ih, if_true]
      · by_cases h2 : k = k1
        · subst h2
          simp [h1, h]
        · have hb : (k == k1) = false := beq_eq_false_iff_ne.mpr h2
          simp only [List.map_cons, h1, if_false, List.lookup_cons, hb, ih, h]

theorem keys_update (c : Counts) (key : String) (v : Int) :
    (c.map fun kv => if kv.1 = key then (key, v) else kv).map Prod.fst = c.map Prod.fst := by
  induction c with
  | nil => rfl
  | cons kv rest ih =>
    by_cases h : kv.1 = key
    · simp only [List.map_cons, h, if_true, ih]
    · simp only [List.map_cons, h, if_false, ih]

theorem get_set (c : Counts) (key : String) (v : Int) (k : String) :
    (c.set key v).get k = if k = key then v else c.get k := by
  unfold Counts.set Counts.get
  cases hl : c.lookup key with
  | some n =>
    simp only [lookup_update, hl]
    split <;> simp
  | none =>
    simp only [List.lookup_append]
    by_cases h : k = key
    · subst h
      simp [hl]
    · have hb : (k == key) = false := beq_eq_false_iff_ne.mpr h
      cases hk : c.lookup k <;> simp [List.lookup_cons, hb, h]

theorem keys_set (c : Counts) (key : String) (v : Int) :
    (c.set key v).map Prod.fst =
      if key ∈ c.map Prod.fst then c.map Prod.fst else c.map Prod.fst ++ [key] := by
  unfold Counts.set
  cases hl : c.lookup key with
  | some n =>
    have hm : key ∈ c.map Prod.fst := (lookup_isSome_iff_mem_keys c key).mp (by simp [hl])
    simp only [keys_update, hm, if_true]
  | none =>
    have hm : key ∉ c.map Prod.fst := by
      intro hmem
      have := (lookup_isSome_iff_mem_keys c key).mpr hmem
      simp [hl] at this
    simp only [hm, if_false, List.map_append, List.map_cons, List.map_nil]

theorem get_countAuthor (c : Counts) (kid : Reddit.Post) (k : String) :
    (countAuthor c kid).get k = c.get k + if k = kid.Author then 1 else 0 := by
  unfold countAuthor
  by_cases hn : (c.lookup kid.Author).isNone = true
  · have h0 : c.get kid.Author = 0 := by
      simp only [Option.isNone_iff_eq_none] at hn
      simp [Counts.get, hn]
    simp only [hn, if_true, get_set]
    by_cases h : k = kid.Author
    · subst h
      simp [h0]
    · simp [h]
  · simp only [hn, get_set]
    by_cases h : k = kid.Author
    · subst h
      simp
    · simp [h]

theorem keys_countAuthor (c : Counts) (kid : Reddit.Post) :
    (countAuthor c kid).map Prod.fst =
      if kid.Author ∈ c.map Prod.fst then c.map Prod.fst else c.map Prod.fst ++ [kid.Author] := by
  unfold countAuthor
  by_cases hm : kid.Author ∈ c.map Prod.fst
  · have hs : (c.lookup kid.Author).isNone = false := by
      have := (lookup_isSome_iff_mem_keys c kid.Author).mpr hm
      cases hl : c.lookup kid.Author <;> simp_all
    simp only [hs, Bool.false_eq_true, if_false, keys_set, hm, if_true]
  · have hs : (c.lookup kid.Author).isNone = true := by
      cases hl : c.lookup kid.Author with
      | none => rfl
      | some n =>
        exact absurd ((lookup_isSome_iff_mem_keys c kid.Author).mp (by simp [hl])) hm
    simp only [hs, if_true, keys_set, hm, if_false]
    simp

/-- The counts after the entries `es`: distinct keys, the keys are the authors seen,
and each count has grown by the number of entries of that author. -/
theorem foldl_countAuthor (es : List Reddit.Post) :
    ∀ c : Counts, (c.map Prod.fst).Nodup →
      ((es.foldl countAuthor c).map Prod.fst).Nodup ∧
      (∀ k, k ∈ (es.foldl countAuthor c).map Prod.fst ↔
        k ∈ c.map Prod.fst ∨ k ∈ es.map fun kid => kid.Author) ∧
      (∀ k, (es.foldl countAuthor c).get k =
        c.get k + ((es.map fun kid => kid.Author).count k : Nat)) := by
  induction es with
  | nil =>
    intro c hc
    simp [hc]
  | cons kid rest ih =>
    intro c hc
    have hnd : ((countAuthor c kid).map Prod.fst).Nodup := by
      rw [keys_countAuthor]
      split
      · exact hc
      · rename_i hm
        exact List.Nodup.append hc (List.nodup_singleton _) (by simpa using hm)
    obtain ⟨i1, i2, i3⟩ := ih (countAuthor c kid) hnd
    refine ⟨i1, ?_, ?_⟩
    · intro k
      rw [List.foldl_cons, i2, keys_countAuthor]
      split
      · rename_i hm
        simp only [List.map_cons, List.mem_cons]
        constructor
        · rintro (h | h)
          · exact Or.inl h
          · exact Or.inr (Or.inr h)
        · rintro (h | h | h)
          · exact Or.inl h
          · exact Or.inl (h ▸ hm)
          · exact Or.inr h
      · simp only [List.map_cons, List.mem_cons, List.mem_append, List.mem_singleton]
        tauto
    · intro k
      rw [List.foldl_cons, i3, get_countAuthor]
      by_cases h : k = kid.Author
      · subst h
        simp
        omega
      · have hne : kid.Author ≠ k := fun e => h e.symm
        simp [h, List.count_cons, hne]

end PostService

namespace PostService

/-! ### Sorting and cutting the authors -/

theorem insertAuthor_perm (c : Counts) (a : String) (l : List String) :
    (insertAuthor c a l).Perm (a :: l) := by
  induction l with
  | nil => exact List.Perm.refl _
  | cons b rest ih =>
    unfold insertAuthor
    split
    · exact List.Perm.refl _
    · exact (List.Perm.cons b ih).trans (List.Perm.swap a b rest)

theorem sortAuthors_perm (c : Counts) (l : List String) : (sortAuthors c l).Perm l := by
  induction l with
  | nil => exact List.Perm.refl _
  | cons a rest ih =>
    unfold sortAuthors
    exact (insertAuthor_perm c a _).trans (List.Perm.cons a ih)

theorem insertAuthor_sorted (c : Counts) (a : String) (l : List String)
    (hl : l.Pairwise fun x y => c.get y ≤ c.get x) :
    (insertAuthor c a l).Pairwise fun x y => c.get y ≤ c.get x := by
  induction l with
  | nil => simp [insertAuthor]
  | cons b rest ih =>
    obtain ⟨hb, hrest⟩ := List.pairwise_cons.mp hl
    unfold insertAuthor
    split
    · rename_i hab
      refine List.pairwise_cons.mpr ⟨?_, hl⟩
      intro y hy
      rcases List.mem_cons.mp hy with h | h
      · subst h
        exact hab
      · exact le_trans (hb y h) hab
    · rename_i hab
      refine List.pairwise_cons.mpr ⟨?_, ih hrest⟩
      intro y hy
      rcases List.mem_cons.mp ((insertAuthor_perm c a rest).mem_iff.mp hy) with h | h
      · subst h
        omega
      · exact hb y h

theorem sortAuthors_sorted (c : Counts) (l : List String) :
    (sortAuthors c l).Pairwise fun x y => c.get y ≤ c.get x := by
  induction l with
  | nil => simp [sortAuthors]
  | cons a rest ih =>
    unfold sortAuthors
    exact insertAuthor_sorted c a _ ih

/-- For `num ≥ 0` the loop collects the first `num + 2` authors (it breaks one
iteration late). -/
theorem collectAuthorPosts_eq (c : Counts) (num : Int) (hnum : 0 ≤ num)
    (authors : List String) :
    ∀ (i : Nat) (acc : List AuthorPosts), (i : Int) ≤ num + 1 →
      collectAuthorPosts c num authors i acc =
        acc ++ (authors.take (num.toNat + 2 - i)).map
          fun a => { Author := a, Qty := c.get a } := by
  induction authors with
  | nil =>
    intro i acc _
    simp [collectAuthorPosts]
  | cons a rest ih =>
    intro i acc hi
    unfold collectAuthorPosts
    by_cases hgt : (i : Int) > num
    · have hk : num.toNat + 2 - i = 1 := by omega
      simp [hgt, hk]
    · have hk : num.toNat + 2 - i = (num.toNat + 2 - (i + 1)) + 1 := by omega
      simp only [hgt, if_false]
      rw [ih (i + 1) _ (by push_cast; omega), hk, List.take_succ_cons]
      simp

end PostService

namespace PostService

theorem foldl_entries (listings : List Listing) :
    ∀ c : Counts,
      listings.foldl (fun counts listing => listing.Children.foldl countAuthor counts) c =
        (entries listings).foldl countAuthor c := by
  induction listings with
  | nil => intro c; rfl
  | cons l rest ih =>
    intro c
    simp only [List.foldl_cons, ih, entries, List.flatMap_cons, List.foldl_append]

theorem take_min_length (l : List String) (n : Nat) :
    l.take (min n l.length) = l.take n := by
  rcases Nat.le_total n l.length with h | h
  · rw [Nat.min_eq_left h]
  · rw [Nat.min_eq_right h, List.take_length, List.take_of_length_le h]

/-- For `num ≥ 0` and counts `counts`, `UpdateTopNAuthors` writes the report of the
first `num` authors of the sorted enumeration. -/
theorem UpdateTopNAuthors_written (s : Service) (order : List String → List String)
    (subreddit : String) (num : Int) (counts : Counts) (hnum : 0 ≤ num)
    (hfetch : s.fetchTopAuthors subreddit = .ok counts) :
    (s.UpdateTopNAuthors order subreddit num).2 =
      [report ("Top " ++ toString num ++ " Authors (" ++ subreddit ++ ")")
        (((sortAuthors counts (order (counts.map Prod.fst))).take num.toNat).map
          fun a => "(" ++ toString (counts.get a) ++ ") - " ++ a ++ " \n")] := by
  have hcol := collectAuthorPosts_eq counts num hnum
    (sortAuthors counts (order (counts.map Prod.fst))) 0 [] (by omega)
  simp only [List.nil_append, Nat.sub_zero] at hcol
  unfold Service.UpdateTopNAuthors
  simp only [hfetch, hcol, List.length_map, List.length_take]
  have hk : ¬ (min num ((min (num.toNat + 2)
        (sortAuthors counts (order (counts.map Prod.fst))).length : Nat) : Int) < 0 ∨
      ((min (num.toNat + 2)
        (sortAuthors counts (order (counts.map Prod.fst))).length : Nat) : Int) <
        min num ((min (num.toNat + 2)
          (sortAuthors counts (order (counts.map Prod.fst))).length : Nat) : Int)) := by
    omega
  have htake : (min num ((min (num.toNat + 2)
        (sortAuthors counts (order (counts.map Prod.fst))).length : Nat) : Int)).toNat
      = min num.toNat (sortAuthors counts (order (counts.map Prod.fst))).length := by
    omega
  rw [if_neg hk, htake, write_eq_report]
  have hlines : (List.take (min num.toNat (sortAuthors counts (order (counts.map Prod.fst))).length)
        ((List.take (num.toNat + 2) (sortAuthors counts (order (counts.map Prod.fst)))).map
          fun a => ({ Author := a, Qty := counts.get a } : AuthorPosts))).map AuthorPosts.String
      = ((sortAuthors counts (order (counts.map Prod.fst))).take num.toNat).map
          fun a => "(" ++ toString (counts.get a) ++ ") - " ++ a ++ " \n" := by
    rw [← List.map_take, List.take_take, List.map_map]
    have hmin : min (min num.toNat (sortAuthors counts (order (counts.map Prod.fst))).length)
        (num.toNat + 2) = min num.toNat (sortAuthors counts (order (counts.map Prod.fst))).length := by
      omega
    rw [hmin, take_min_length]
    rfl
  rw [hlines]
  cases s.writer (report ("Top " ++ toString num ++ " Authors (" ++ subreddit ++ ")")
    (((sortAuthors counts (order (counts.map Prod.fst))).take num.toNat).map
      fun a => "(" ++ toString (counts.get a) ++ ") - " ++ a ++ " \n")) <;> rfl

end PostService

/-! ## The claims on the post service -/

/-- C17: for `num ≥ 0` and listings returned by `FetchAllListings`, whatever the
order in which the map of counts is enumerated, `UpdateTopNAuthors` writes one
report whose lines are `(<qty>) - <author> ` with a newline for the authors `top`,
where `top` consists of exactly `min(num, number of distinct authors)` distinct
authors of the listings, `qty` is the number of entries by that author over all
pages, the lines are in non-increasing order of `qty`, and no author left out has
a larger `qty` than one written. -/
theorem UpdateTopNAuthors_writes_top_authors (s : PostService.Service)
    (order : List String → List String) (subreddit : String) (num : Int)
    (listings : List Listing) (hnum : 0 ≤ num) (horder : ∀ l, (order l).Perm l)
    (hfetch : s.client.FetchAllListings ("/r/" ++ subreddit) = .ok listings) :
    ∃ top : List String,
      (s.UpdateTopNAuthors order subreddit num).2 =
        [PostService.report ("Top " ++ toString num ++ " Authors (" ++ subreddit ++ ")")
          (top.map fun a =>
            "(" ++ toString (PostService.authorCount listings a) ++ ") - " ++ a ++ " \n")] ∧
      (top.length : Int) = min num (PostService.distinctAuthors listings).length ∧
      top.Nodup ∧
      (∀ a ∈ top, a ∈ PostService.distinctAuthors listings) ∧
      top.Pairwise (fun a b =>
        PostService.authorCount listings b ≤ PostService.authorCount listings a) ∧
      (∀ a ∈ top, ∀ b ∈ PostService.distinctAuthors listings, b ∉ top →
        PostService.authorCount listings b ≤ PostService.authorCount listings a) := by
  -- the counts computed by `fetchTopAuthors`
  obtain ⟨counts, hcounts, hdef⟩ : ∃ counts, s.fetchTopAuthors subreddit = .ok counts ∧
      counts = (PostService.entries listings).foldl PostService.countAuthor [] := by
    refine ⟨_, ?_, rfl⟩
    simp [PostService.Service.fetchTopAuthors, hfetch, PostService.foldl_entries]
  obtain ⟨hnd, hmem, hget⟩ :=
    PostService.foldl_countAuthor (PostService.entries listings) [] (by simp)
  rw [← hdef] at hnd hmem hget
  have hqty : ∀ a, counts.get a = PostService.authorCount listings a := by
    intro a
    rw [hget a]
    simp [PostService.Counts.get, PostService.authorCount]
  have hkeys : ∀ a, a ∈ counts.map Prod.fst ↔ a ∈ PostService.distinctAuthors listings := by
    intro a
    rw [hmem a]
    simp [PostService.distinctAuthors]
  -- the sorted enumeration of the keys
  have hperm : (PostService.sortAuthors counts (order (counts.map Prod.fst))).Perm
      (counts.map Prod.fst) :=
    (PostService.sortAuthors_perm counts _).trans (horder _)
  have hsorted := PostService.sortAuthors_sorted counts (order (counts.map Prod.fst))
  have hsnd : (PostService.sortAuthors counts (order (counts.map Prod.fst))).Nodup :=
    hperm.nodup_iff.mpr hnd
  have hlen : (PostService.sortAuthors counts (order (counts.map Prod.fst))).length =
      (PostService.distinctAuthors listings).length := by
    rw [hperm.length_eq]
    refine List.Perm.length_eq ((List.perm_ext_iff_of_nodup hnd ?_).mpr hkeys)
    exact List.nodup_dedup _
  refine ⟨(PostService.sortAuthors counts (order (counts.map Prod.fst))).take num.toNat,
    ?_, ?_, ?_, ?_, ?_, ?_⟩
  · rw [PostService.UpdateTopNAuthors_written s order subreddit num counts hnum hcounts]
    simp only [hqty]
  · rw [List.length_take, hlen]
    omega
  · exact hsnd.sublist (List.take_sublist _ _)
  · intro a ha
    exact (hkeys a).mp (hperm.mem_iff.mp (List.mem_of_mem_take ha))
  · have := hsorted.sublist (List.take_sublist num.toNat _)
    simpa only [hqty] using this
  · intro a ha b hb hnot
    have hbs : b ∈ PostService.sortAuthors counts (order (counts.map Prod.fst)) :=
      hperm.mem_iff.mpr ((hkeys b).mpr hb)
    rw [← List.take_append_drop num.toNat
      (PostService.sortAuthors counts (order (counts.map Prod.fst)))] at hbs hsorted
    have hbd : b ∈ (PostService.sortAuthors counts (order (counts.map Prod.fst))).drop
        num.toNat := by
      rcases List.mem_append.mp hbs with h | h
      · exact absurd h hnot
      · exact h
    have := (List.pairwise_append.mp hsorted).2.2 a ha b hbd
    simpa only [hqty] using this

/-- Witness for C17: the listing of `TestService_UpdateTopNAuthors` with `num` 10,
the map enumerated in reverse. -/
theorem UpdateTopNAuthors_writes_top_authors_witness :
    ∃ top : List String,
      (PostService.testService.UpdateTopNAuthors List.reverse "cardinals" 10).2 =
        [PostService.report ("Top " ++ toString (10 : Int) ++ " Authors (" ++ "cardinals" ++ ")")
          (top.map fun a =>
            "(" ++ toString (PostService.authorCount [PostService.testListing] a) ++ ") - "
              ++ a ++ " \n")] ∧
      (top.length : Int) = min 10 (PostService.distinctAuthors [PostService.testListing]).length :=
  (UpdateTopNAuthors_writes_top_authors PostService.testService List.reverse "cardinals" 10
    [PostService.testListing] (by decide) (fun l => List.reverse_perm l) rfl).imp
    fun _ h => ⟨h.1, h.2.1⟩

/-- C18: when `FetchListing` returns a listing for the path `/r/<s>/top`,
`UpdateTopPosts` performs a single write whose bytes are a newline, the title
`Top Posts (<s>)` and a newline, 80 dashes and a newline, one line
`(<ups>) - <title> ` with a newline for each entry in the order of the listing, and
a final newline; it returns nil when the writer accepts the write. -/
theorem UpdateTopPosts_writes_report (s : PostService.Service) (subreddit : String)
    (listing : Listing)
    (hfetch : s.client.FetchListing ("/r/" ++ subreddit ++ "/top") = .ok listing) :
    (s.UpdateTopPosts subreddit).2 =
      ["\n" ++ ("Top Posts (" ++ subreddit ++ ")" ++ "\n")
        ++ (String.mk (List.replicate 80 '-') ++ "\n")
        ++ String.join (listing.Children.map fun kid =>
            "(" ++ toString kid.Ups ++ ") - " ++ kid.Title ++ " \n")
        ++ "\n"] ∧
    String.mk (List.replicate 80 '-') =
      "--------------------------------------------------------------------------------" ∧
    (s.writer (PostService.report ("Top Posts (" ++ subreddit ++ ")")
        (listing.Children.map fun kid =>
          "(" ++ toString kid.Ups ++ ") - " ++ kid.Title ++ " \n")) = none →
      (s.UpdateTopPosts subreddit).1 = .returned none) := by
  have hposts : s.fetchTopPosts subreddit =
      .ok (listing.Children.map fun kid => { Title := kid.Title, Ups := kid.Ups }) := by
    simp [PostService.Service.fetchTopPosts, hfetch, PostService.foldl_snoc_eq_map]
  have hlines : (listing.Children.map fun kid =>
        ({ Title := kid.Title, Ups := kid.Ups } : PostService.Post)).map PostService.Post.String
      = listing.Children.map fun kid =>
          "(" ++ toString kid.Ups ++ ") - " ++ kid.Title ++ " \n" := by
    simp [PostService.Post.String]
  refine ⟨?_, by decide, ?_⟩
  · simp only [PostService.Service.UpdateTopPosts, hposts, PostService.write_eq_report, hlines]
    cases s.writer (PostService.report ("Top Posts (" ++ subreddit ++ ")")
      (listing.Children.map fun kid =>
        "(" ++ toString kid.Ups ++ ") - " ++ kid.Title ++ " \n")) <;> rfl
  · intro hw
    simp only [PostService.Service.UpdateTopPosts, hposts, PostService.write_eq_report, hlines,
      hw]

/-- Witness for C18: the listing and the expected output of
`TestService_UpdateTopPosts`. -/
theorem UpdateTopPosts_writes_report_witness :
    (PostService.testService.UpdateTopPosts "cardinals").2 =
      ["\n" ++ ("Top Posts (" ++ "cardinals" ++ ")" ++ "\n")
        ++ (String.mk (List.replicate 80 '-') ++ "\n")
        ++ String.join (PostService.testListing.Children.map fun kid =>
            "(" ++ toString kid.Ups ++ ") - " ++ kid.Title ++ " \n")
        ++ "\n"] :=
  (UpdateTopPosts_writes_report PostService.testService "cardinals" PostService.testListing
    rfl).1

/-- C19: when the listing fetcher fails with `e`, `UpdateTopPosts` and
`UpdateTopNAuthors` write nothing and return an error that wraps `e`, whose
message is `fetch top posts: <subreddit>: fetch post listing: <e>` and
`fetch top authors: <subreddit>: fetch all listings: <e>` respectively. -/
theorem fetch_failure_writes_nothing (f : Fmt) (s : PostService.Service)
    (order : List String → List String) (subreddit : String) (num : Int) (e : Err) :
    (s.client.FetchListing ("/r/" ++ subreddit ++ "/top") = .error e →
      s.UpdateTopPosts subreddit =
        (.returned (some (Err.Wrapped ("fetch top posts: " ++ subreddit ++ ": ")
          (Err.Wrapped "fetch post listing: " e))), []) ∧
      Err.Error f (Err.Wrapped ("fetch top posts: " ++ subreddit ++ ": ")
          (Err.Wrapped "fetch post listing: " e)) =
        "fetch top posts: " ++ subreddit ++ ": fetch post listing: " ++ Err.Error f e) ∧
    (s.client.FetchAllListings ("/r/" ++ subreddit) = .error e →
      s.UpdateTopNAuthors order subreddit num =
        (.returned (some (Err.Wrapped ("fetch top authors: " ++ subreddit ++ ": ")
          (Err.Wrapped "fetch all listings: " e))), []) ∧
      Err.Error f (Err.Wrapped ("fetch top authors: " ++ subreddit ++ ": ")
          (Err.Wrapped "fetch all listings: " e)) =
        "fetch top authors: " ++ subreddit ++ ": fetch all listings: " ++ Err.Error f e) := by
  constructor
  · intro h
    refine ⟨by simp [PostService.Service.UpdateTopPosts, PostService.Service.fetchTopPosts, h],
      ?_⟩
    simp only [Err.Error, String.append_assoc]
    rw [← String.append_assoc ": " "fetch post listing: "]
    rfl
  · intro h
    refine ⟨by simp [PostService.Service.UpdateTopNAuthors,
      PostService.Service.fetchTopAuthors, h], ?_⟩
    simp only [Err.Error, String.append_assoc]
    rw [← String.append_assoc ": " "fetch all listings: "]
    rfl

/-- Witness for C19: the failing fetcher of the tests, subreddit `cubs`. -/
theorem fetch_failure_writes_nothing_witness :
    PostService.failingService.UpdateTopNAuthors id "cubs" 0 =
      (.returned (some (Err.Wrapped ("fetch top authors: " ++ "cubs" ++ ": ")
        (Err.Wrapped "fetch all listings: " (Err.Foreign "mocked failure")))), []) :=
  ((fetch_failure_writes_nothing { Duration := fun _ => "", Quote := fun q => q }
    PostService.failingService id "cubs" 0 (Err.Foreign "mocked failure")).2 rfl).1

/-! ## Lemmas on the configuration -/

namespace Configuration

theorem getRequiredEnv_of_present (d : Deps) (vars : List (String × String)) (env : String)
    (h : present d vars env) : ∃ v, getRequiredEnv d vars env = .ok v := by
  unfold getRequiredEnv
  cases hl : d.LookupEnv env with
  | some v => exact ⟨v, rfl⟩
  | none =>
    cases hv : vars.lookup env with
    | some v => exact ⟨v, rfl⟩
    | none =>
      rcases h with h | h
      · simp [hl] at h
      · simp [hv] at h

theorem getRequiredEnv_of_absent (d : Deps) (vars : List (String × String)) (env : String)
    (h : ¬ present d vars env) :
    getRequiredEnv d vars env = .error (ConfigErr.MissingConfigInput env) := by
  unfold getRequiredEnv
  cases hl : d.LookupEnv env with
  | some v => exact absurd (Or.inl (by simp [hl])) h
  | none =>
    cases hv : vars.lookup env with
    | some v => exact absurd (Or.inr (by simp [hv])) h
    | none => rfl

theorem getRequiredEnv_eq_getOptionalEnv (d : Deps) (vars : List (String × String))
    (env v dflt : String) (h : getRequiredEnv d vars env = .ok v) :
    v = getOptionalEnv d vars env dflt := by
  unfold getRequiredEnv at h
  unfold getOptionalEnv
  cases hl : d.LookupEnv env with
  | some w => simpa [hl] using h.symm
  | none =>
    cases hv : vars.lookup env with
    | some w => simpa [hl, hv] using h.symm
    | none => simp [hl, hv] at h

theorem toLevel_ok_iff (d : Deps) (level : String) :
    (∃ lvl, toLevel d level = .ok lvl) ↔
      d.ToLower level ∈ ["debug", "info", "warn", "error"] := by
  unfold toLevel
  by_cases h1 : d.ToLower level = "debug"
  · simp [h1]
  · by_cases h2 : d.ToLower level = "info"
    · simp [h2]
    · by_cases h3 : d.ToLower level = "warn"
      · simp [h3]
      · by_cases h4 : d.ToLower level = "error"
        · simp [h4]
        · simp [h1, h2, h3, h4]

theorem toLevel_error (d : Deps) (level : String)
    (h : d.ToLower level ∉ ["debug", "info", "warn", "error"]) :
    toLevel d level =
      .error (ConfigErr.InvalidConfigInput "log level" "must be: debug, info, warn, error") := by
  simp only [List.mem_cons, List.mem_singleton, List.not_mem_nil, or_false, not_or] at h
  obtain ⟨h1, h2, h3, h4⟩ := h
  simp [toLevel, h1, h2, h3, h4]

end Configuration

namespace Configuration

/-- The outcome of `Configure` on an input that parses, check by check. -/
theorem Configure_cases (d : Deps) (f : Fmt) (envVars : String)
    (vars : List (String × String)) (hparse : d.Parse envVars = .ok vars) :
    (¬ present d vars "REDDIT_CLIENT_ID" →
      Configure d f envVars = (none, some (ConfigErr.MissingConfigInput "REDDIT_CLIENT_ID"))) ∧
    (present d vars "REDDIT_CLIENT_ID" → ¬ present d vars "REDDIT_CLIENT_SECRET" →
      Configure d f envVars =
        (none, some (ConfigErr.MissingConfigInput "REDDIT_CLIENT_SECRET"))) ∧
    (present d vars "REDDIT_CLIENT_ID" → present d vars "REDDIT_CLIENT_SECRET" →
      ¬ present d vars "REDDIT_USERNAME" →
      Configure d f envVars = (none, some (ConfigErr.MissingConfigInput "REDDIT_USERNAME"))) ∧
    (present d vars "REDDIT_CLIENT_ID" → present d vars "REDDIT_CLIENT_SECRET" →
      present d vars "REDDIT_USERNAME" → ¬ present d vars "REDDIT_PASSWORD" →
      Configure d f envVars = (none, some (ConfigErr.MissingConfigInput "REDDIT_PASSWORD"))) ∧
    (present d vars "REDDIT_CLIENT_ID" → present d vars "REDDIT_CLIENT_SECRET" →
      present d vars "REDDIT_USERNAME" → present d vars "REDDIT_PASSWORD" →
      (∀ err, d.ParseDuration (getOptionalEnv d vars "REDDIT_RATE_LIMIT" "1s") = .error err →
        Configure d f envVars =
          (none, some (ConfigErr.InvalidConfigInput "REDDIT_RATE_LIMIT" (err.Error f)))) ∧
      (∀ freq, d.ParseDuration (getOptionalEnv d vars "REDDIT_RATE_LIMIT" "1s") = .ok freq →
        (∀ err, Atoi (getOptionalEnv d vars "REDDIT_TOP_N_AUTHORS" "10") = .error err →
          Configure d f envVars =
            (none, some (ConfigErr.InvalidConfigInput "REDDIT_TOP_N_AUTHORS" (err.Error f)))) ∧
        (∀ num, Atoi (getOptionalEnv d vars "REDDIT_TOP_N_AUTHORS" "10") = .ok num →
          (d.ToLower (getOptionalEnv d vars "REDDIT_LOG_LEVEL" "info")
              ∉ ["debug", "info", "warn", "error"] →
            Configure d f envVars =
              (none, some (ConfigErr.InvalidConfigInput "REDDIT_LOG_LEVEL"
                "invalid env: log level reason: must be: debug, info, warn, error"))) ∧
          (∀ lvl, toLevel d (getOptionalEnv d vars "REDDIT_LOG_LEVEL" "info") = .ok lvl →
            Configure d f envVars =
              (some { ClientID := getOptionalEnv d vars "REDDIT_CLIENT_ID" "",
                      ClientSecret := getOptionalEnv d vars "REDDIT_CLIENT_SECRET" "",
                      RedditUsername := getOptionalEnv d vars "REDDIT_USERNAME" "",
                      RedditPassword := getOptionalEnv d vars "REDDIT_PASSWORD" "",
                      Subreddits := Split (getOptionalEnv d vars "REDDIT_SUBREDDITS" "golang"),
                      RateLimit := freq, LogLevel := lvl, TopNAuthors := num }, none))))) := by
  refine ⟨?_, ?_, ?_, ?_, ?_⟩
  · intro h1
    simp [Configure, hparse, getRequiredEnv_of_absent d vars _ h1]
  · intro h1 h2
    obtain ⟨v1, e1⟩ := getRequiredEnv_of_present d vars _ h1
    simp [Configure, hparse, e1, getRequiredEnv_of_absent d vars _ h2]
  · intro h1 h2 h3
    obtain ⟨v1, e1⟩ := getRequiredEnv_of_present d vars _ h1
    obtain ⟨v2, e2⟩ := getRequiredEnv_of_present d vars _ h2
    simp [Configure, hparse, e1, e2, getRequiredEnv_of_absent d vars _ h3]
  · intro h1 h2 h3 h4
    obtain ⟨v1, e1⟩ := getRequiredEnv_of_present d vars _ h1
    obtain ⟨v2, e2⟩ := getRequiredEnv_of_present d vars _ h2
    obtain ⟨v3, e3⟩ := getRequiredEnv_of_present d vars _ h3
    simp [Configure, hparse, e1, e2, e3, getRequiredEnv_of_absent d vars _ h4]
  · intro h1 h2 h3 h4
    obtain ⟨v1, e1⟩ := getRequiredEnv_of_present d vars _ h1
    obtain ⟨v2, e2⟩ := getRequiredEnv_of_present d vars _ h2
    obtain ⟨v3, e3⟩ := getRequiredEnv_of_present d vars _ h3
    obtain ⟨v4, e4⟩ := getRequiredEnv_of_present d vars _ h4
    have w1 := getRequiredEnv_eq_getOptionalEnv d vars _ v1 "" e1
    have w2 := getRequiredEnv_eq_getOptionalEnv d vars _ v2 "" e2
    have w3 := getRequiredEnv_eq_getOptionalEnv d vars _ v3 "" e3
    have w4 := getRequiredEnv_eq_getOptionalEnv d vars _ v4 "" e4
    refine ⟨?_, ?_⟩
    · intro err he
      simp [Configure, hparse, e1, e2, e3, e4, he]
    · intro freq hf
      refine ⟨?_, ?_⟩
      · intro err he
        simp [Configure, hparse, e1, e2, e3, e4, hf, he]
      · intro num hn
        refine ⟨?_, ?_⟩
        · intro hl
          simp [Configure, hparse, e1, e2, e3, e4, hf, hn, toLevel_error d _ hl,
            ConfigErr.Error, String.append_assoc]
        · intro lvl hl
          simp [Configure, hparse, e1, e2, e3, e4, hf, hn, hl, w1, w2, w3, w4]

end Configuration

/-! ## The claim on the configuration -/

/-- C20 as stated fails: with the four required variables in the process
environment and every optional value at its default, an input that does not parse
makes `Configure` return a nil Config and the error `parse configuration: ...`,
which is neither a `missing env` nor an `invalid env` error. -/
theorem Configure_unparsable_input :
    (∀ env ∈ ["REDDIT_CLIENT_ID", "REDDIT_CLIENT_SECRET", "REDDIT_USERNAME", "REDDIT_PASSWORD"],
      ((Configuration.exampleDeps Configuration.fullEnviron).LookupEnv env).isSome = true) ∧
    (Configuration.exampleDeps Configuration.fullEnviron).ParseDuration "1s" = .ok Second ∧
    Atoi "10" = .ok 10 ∧
    Configuration.toLevel (Configuration.exampleDeps Configuration.fullEnviron) "info"
      = .ok Configuration.Level.Info ∧
    Configuration.Configure (Configuration.exampleDeps Configuration.fullEnviron)
        Configuration.exampleFmt "!" =
      (none, some (Configuration.ConfigErr.ParseConfiguration
        (Err.Foreign "unexpected character in variable name"))) ∧
    Configuration.ConfigErr.Error Configuration.exampleFmt
        (Configuration.ConfigErr.ParseConfiguration
          (Err.Foreign "unexpected character in variable name")) =
      "parse configuration: unexpected character in variable name" := by
  refine ⟨by decide, rfl, rfl, rfl, rfl, rfl⟩

/-- C20 amended: when the input does not parse, `Configure` returns a nil Config and
the error `parse configuration: <err>`. When it parses, `Configure` returns a
Config iff the four required variables are present (in the process environment or
the parsed input), REDDIT_RATE_LIMIT parses as a duration, REDDIT_TOP_N_AUTHORS
parses as an integer and REDDIT_LOG_LEVEL is one of debug, info, warn, error
ignoring case, absent optional values standing for `1s`, `10`, `info` and the
subreddits for `golang`; otherwise it returns a nil Config and the error of the
first failing check in the order client id, client secret, username, password,
rate limit, number of authors, log level: `missing env: <name>` for a missing
required variable, `invalid env: <name> reason: ...` for an unparsable one. -/
theorem Configure_accepts_iff (d : Configuration.Deps) (f : Fmt) (envVars : String) :
    (∀ err, d.Parse envVars = .error err →
      Configuration.Configure d f envVars =
        (none, some (Configuration.ConfigErr.ParseConfiguration err)) ∧
      Configuration.ConfigErr.Error f (Configuration.ConfigErr.ParseConfiguration err) =
        "parse configuration: " ++ err.Error f) ∧
    (∀ vars, d.Parse envVars = .ok vars →
      ((∃ cfg, Configuration.Configure d f envVars = (some cfg, none)) ↔
        Configuration.accepted d vars) ∧
      (¬ Configuration.accepted d vars →
        (Configuration.Configure d f envVars).1 = none ∧
        ∃ env, env ∈ ["REDDIT_CLIENT_ID", "REDDIT_CLIENT_SECRET", "REDDIT_USERNAME",
            "REDDIT_PASSWORD", "REDDIT_RATE_LIMIT", "REDDIT_TOP_N_AUTHORS",
            "REDDIT_LOG_LEVEL"] ∧
          ((Configuration.Configure d f envVars).2 =
              some (Configuration.ConfigErr.MissingConfigInput env) ∨
            ∃ reason, (Configuration.Configure d f envVars).2 =
              some (Configuration.ConfigErr.InvalidConfigInput env reason))) ∧
      (¬ Configuration.present d vars "REDDIT_CLIENT_ID" →
        Configuration.Configure d f envVars =
          (none, some (Configuration.ConfigErr.MissingConfigInput "REDDIT_CLIENT_ID"))) ∧
      (Configuration.present d vars "REDDIT_CLIENT_ID" →
        ¬ Configuration.present d vars "REDDIT_CLIENT_SECRET" →
        Configuration.Configure d f envVars =
          (none, some (Configuration.ConfigErr.MissingConfigInput "REDDIT_CLIENT_SECRET"))) ∧
      (Configuration.present d vars "REDDIT_CLIENT_ID" →
        Configuration.present d vars "REDDIT_CLIENT_SECRET" →
        ¬ Configuration.present d vars "REDDIT_USERNAME" →
        Configuration.Configure d f envVars =
          (none, some (Configuration.ConfigErr.MissingConfigInput "REDDIT_USERNAME"))) ∧
      (Configuration.present d vars "REDDIT_CLIENT_ID" →
        Configuration.present d vars "REDDIT_CLIENT_SECRET" →
        Configuration.present d vars "REDDIT_USERNAME" →
        ¬ Configuration.present d vars "REDDIT_PASSWORD" →
        Configuration.Configure d f envVars =
          (none, some (Configuration.ConfigErr.MissingConfigInput "REDDIT_PASSWORD"))) ∧
      (Configuration.present d vars "REDDIT_CLIENT_ID" →
        Configuration.present d vars "REDDIT_CLIENT_SECRET" →
        Configuration.present d vars "REDDIT_USERNAME" →
        Configuration.present d vars "REDDIT_PASSWORD" →
        (∀ err, d.ParseDuration
            (Configuration.getOptionalEnv d vars "REDDIT_RATE_LIMIT" "1s") = .error err →
          Configuration.Configure d f envVars =
            (none, some (Configuration.ConfigErr.InvalidConfigInput "REDDIT_RATE_LIMIT"
              (err.Error f)))) ∧
        (∀ freq, d.ParseDuration
            (Configuration.getOptionalEnv d vars "REDDIT_RATE_LIMIT" "1s") = .ok freq →
          (∀ err, Atoi (Configuration.getOptionalEnv d vars "REDDIT_TOP_N_AUTHORS" "10")
              = .error err →
            Configuration.Configure d f envVars =
              (none, some (Configuration.ConfigErr.InvalidConfigInput "REDDIT_TOP_N_AUTHORS"
                (err.Error f)))) ∧
          (∀ num, Atoi (Configuration.getOptionalEnv d vars "REDDIT_TOP_N_AUTHORS" "10")
              = .ok num →
            (d.ToLower (Configuration.getOptionalEnv d vars "REDDIT_LOG_LEVEL" "info")
                ∉ ["debug", "info", "warn", "error"] →
              Configuration.Configure d f envVars =
                (none, some (Configuration.ConfigErr.InvalidConfigInput "REDDIT_LOG_LEVEL"
                  "invalid env: log level reason: must be: debug, info, warn, error"))) ∧
            (∀ lvl, Configuration.toLevel d
                (Configuration.getOptionalEnv d vars "REDDIT_LOG_LEVEL" "info") = .ok lvl →
              Configuration.Configure d f envVars =
                (some { ClientID := Configuration.getOptionalEnv d vars "REDDIT_CLIENT_ID" "",
                        ClientSecret :=
                          Configuration.getOptionalEnv d vars "REDDIT_CLIENT_SECRET" "",
                        RedditUsername :=
                          Configuration.getOptionalEnv d vars "REDDIT_USERNAME" "",
                        RedditPassword :=
                          Configuration.getOptionalEnv d vars "REDDIT_PASSWORD" "",
                        Subreddits := Configuration.Split
                          (Configuration.getOptionalEnv d vars "REDDIT_SUBREDDITS" "golang"),
                        RateLimit := freq, LogLevel := lvl, TopNAuthors := num },
                  none))))) ∧
      (∀ env dflt, d.LookupEnv env = none → vars.lookup env = none →
        Configuration.getOptionalEnv d vars env dflt = dflt)) ∧
    Configuration.Split "golang" = ["golang"] ∧
    (∀ env, Configuration.ConfigErr.Error f (Configuration.ConfigErr.MissingConfigInput env)
      = "missing env: " ++ env) ∧
    (∀ env reason,
      Configuration.ConfigErr.Error f (Configuration.ConfigErr.InvalidConfigInput env reason)
        = "invalid env: " ++ env ++ " reason: " ++ reason) := by
  refine ⟨?_, ?_, by decide, fun _ => rfl, fun _ _ => rfl⟩
  · intro err he
    exact ⟨by simp [Configuration.Configure, he], rfl⟩
  · intro vars hparse
    obtain ⟨c1, c2, c3, c4, c5⟩ := Configuration.Configure_cases d f envVars vars hparse
    -- every way in which the conditions can fail ends in a nil Config and an error
    -- naming a variable
    have hfail : ¬ Configuration.accepted d vars →
        (Configuration.Configure d f envVars).1 = none ∧
        ∃ env, env ∈ ["REDDIT_CLIENT_ID", "REDDIT_CLIENT_SECRET", "REDDIT_USERNAME",
            "REDDIT_PASSWORD", "REDDIT_RATE_LIMIT", "REDDIT_TOP_N_AUTHORS",
            "REDDIT_LOG_LEVEL"] ∧
          ((Configuration.Configure d f envVars).2 =
              some (Configuration.ConfigErr.MissingConfigInput env) ∨
            ∃ reason, (Configuration.Configure d f envVars).2 =
              some (Configuration.ConfigErr.InvalidConfigInput env reason)) := by
      intro hna
      by_cases p1 : Configuration.present d vars "REDDIT_CLIENT_ID"
      swap
      · rw [c1 p1]
        exact ⟨rfl, _, by simp, Or.inl rfl⟩
      by_cases p2 : Configuration.present d vars "REDDIT_CLIENT_SECRET"
      swap
      · rw [c2 p1 p2]
        exact ⟨rfl, _, by simp, Or.inl rfl⟩
      by_cases p3 : Configuration.present d vars "REDDIT_USERNAME"
      swap
      · rw [c3 p1 p2 p3]
        exact ⟨rfl, _, by simp, Or.inl rfl⟩
      by_cases p4 : Configuration.present d vars "REDDIT_PASSWORD"
      swap
      · rw [c4 p1 p2 p3 p4]
        exact ⟨rfl, _, by simp, Or.inl rfl⟩
      obtain ⟨d1, d2⟩ := c5 p1 p2 p3 p4
      cases hf : d.ParseDuration
          (Configuration.getOptionalEnv d vars "REDDIT_RATE_LIMIT" "1s") with
      | error err =>
        rw [d1 err hf]
        exact ⟨rfl, _, by simp, Or.inr ⟨_, rfl⟩⟩
      | ok freq =>
        obtain ⟨a1, a2⟩ := d2 freq hf
        cases hn : Atoi (Configuration.getOptionalEnv d vars "REDDIT_TOP_N_AUTHORS" "10") with
        | error err =>
          rw [a1 err hn]
          exact ⟨rfl, _, by simp, Or.inr ⟨_, rfl⟩⟩
        | ok num =>
          obtain ⟨l1, _⟩ := a2 num hn
          by_cases hl : d.ToLower
              (Configuration.getOptionalEnv d vars "REDDIT_LOG_LEVEL" "info")
              ∈ ["debug", "info", "warn", "error"]
          · exact absurd ⟨p1, p2, p3, p4, ⟨freq, hf⟩, ⟨num, hn⟩, hl⟩ hna
          · rw [l1 hl]
            exact ⟨rfl, _, by simp, Or.inr ⟨_, rfl⟩⟩
    refine ⟨⟨?_, ?_⟩, hfail, c1, c2, c3, c4, c5, ?_⟩
    · rintro ⟨cfg, hcfg⟩
      by_contra hna
      have := (hfail hna).1
      rw [hcfg] at this
      exact absurd this (by simp)
    · rintro ⟨p1, p2, p3, p4, ⟨freq, hf⟩, ⟨num, hn⟩, hl⟩
      obtain ⟨lvl, hlvl⟩ := (Configuration.toLevel_ok_iff d _).mpr hl
      exact ⟨_, ((((c5 p1 p2 p3 p4).2 freq hf).2 num hn).2 lvl hlvl)⟩
    · intro env dflt h1 h2
      simp [Configuration.getOptionalEnv, h1, h2]

/-- Witness for C20 amended: the case `Required parameters only` of
`TestConfigure`. -/
theorem Configure_accepts_iff_witness :
    ∃ cfg, Configuration.Configure (Configuration.exampleDeps []) Configuration.exampleFmt
      Configuration.requiredEnvs = (some cfg, none) :=
  (((Configure_accepts_iff (Configuration.exampleDeps []) Configuration.exampleFmt
      Configuration.requiredEnvs).2.1
    [("REDDIT_CLIENT_ID", "test-client-id"), ("REDDIT_CLIENT_SECRET", "test-client-secret"),
     ("REDDIT_USERNAME", "test-username"), ("REDDIT_PASSWORD", "test-password")] rfl).1).mpr
    ⟨Or.inr rfl, Or.inr rfl, Or.inr rfl, Or.inr rfl, ⟨_, rfl⟩, ⟨_, rfl⟩, by decide⟩

/-! ## Lemmas on the session token -/

theorem rateStatus_error_wrapped (lib : Lib) (h : Header) (err : Err)
    (he : rateStatus lib h = .error err) : ∃ context inner, err = Err.Wrapped context inner := by
  unfold rateStatus at he
  simp only at he
  split at he
  · simp only [Except.error.injEq] at he
    exact ⟨_, _, he.symm⟩
  · split at he
    · simp only [Except.error.injEq] at he
      exact ⟨_, _, he.symm⟩
    · split at he
      · simp only [Except.error.injEq] at he
        exact ⟨_, _, he.symm⟩
      · simp at he

/-- A fetch on a client that holds a token never fails with Not-Authenticated. -/
theorem fetchListing_with_token (lib : Lib) (c : Client) (path : String)
    (page : Option Page) (tr : List Event) (htoken : c.token ≠ "") :
    (c.fetchListing lib path page tr).1 ≠ .error Err.NotAuthenticated := by
  unfold Client.fetchListing Client.prepareAuthenticatedRequest Client.authenticated
  simp only [htoken, if_false]
  unfold Client.send
  cases hl : c.limiter with
  | none =>
    simp only
    cases hr : c.httpClient (sends tr) (c.listingRequest path page) with
    | error e => simp
    | ok res =>
      simp only
      cases hs : rateStatus lib res.Header with
      | error e =>
        obtain ⟨ctx, inner, rfl⟩ := rateStatus_error_wrapped lib res.Header e hs
        simp
      | ok rate =>
        simp only [dispatchStatus]
        split
        · cases lib.decodeListing res.Body <;> simp
        · split <;> simp
  | some wait =>
    simp only
    cases hw : wait (waits tr) with
    | some e => simp
    | none =>
      simp only
      cases hr : c.httpClient (sends (tr ++ [Event.Wait])) (c.listingRequest path page) with
      | error e => simp
      | ok res =>
        simp only
        cases hs : rateStatus lib res.Header with
        | error e =>
          obtain ⟨ctx, inner, rfl⟩ := rateStatus_error_wrapped lib res.Header e hs
          simp
        | ok rate =>
          simp only [dispatchStatus]
          split
          · cases lib.decodeListing res.Body <;> simp
          · split <;> simp

theorem loop_with_token (lib : Lib) (c : Client) (path : String) (htoken : c.token ≠ "")
    (fuel : Nat) :
    ∀ (page : Page) (out : List Listing) (tr : List Event) (res : Option (List Listing)),
      (Client.FetchAllListings.loop lib c path fuel page out tr).1
        ≠ some (res, some Err.NotAuthenticated) := by
  induction fuel with
  | zero =>
    intro page out tr res
    simp [Client.FetchAllListings.loop]
  | succ fuel ih =>
    intro page out tr res
    have hf := fetchListing_with_token lib c path (some page) tr htoken
    rw [Client.FetchAllListings.loop]
    cases hfl : c.fetchListing lib path (some page) tr with
    | mk r tr1 =>
      rw [hfl] at hf
      cases r with
      | error e =>
        simp only at hf ⊢
        intro h
        simp only [Option.some.injEq, Prod.mk.injEq] at h
        exact hf (by rw [h.2])
      | ok listing =>
        simp only
        split
        · simp
        · exact ih _ _ _ _

/-- With a token set, neither `FetchListing` nor `FetchAllListings` returns
Not-Authenticated. -/
theorem fetch_with_token (lib : Lib) (c : Client) (path : String) (tr : List Event)
    (fuel : Nat) (htoken : c.token ≠ "") :
    (∀ res, (c.FetchListing lib path tr).1 ≠ (res, some Err.NotAuthenticated)) ∧
    (∀ res, (c.FetchAllListings lib path fuel tr).1 ≠ some (res, some Err.NotAuthenticated)) := by
  constructor
  · intro res
    have hf := fetchListing_with_token lib c path none tr htoken
    unfold Client.FetchListing
    cases hfl : c.fetchListing lib path none tr with
    | mk r tr1 =>
      rw [hfl] at hf
      cases r with
      | error e =>
        simp only at hf ⊢
        intro h
        simp only [Prod.mk.injEq, Option.some.injEq] at h
        exact hf (by rw [h.2])
      | ok listing => simp
  · intro res
    exact loop_with_token lib c path htoken fuel _ _ _ res

namespace PostService

/-- What `fetchTopAuthors` computes from the fetched listings: a map with distinct
keys, the distinct authors, each with the number of its entries. -/
theorem fetchTopAuthors_counts (s : Service) (subreddit : String) (listings : List Listing)
    (hfetch : s.client.FetchAllListings ("/r/" ++ subreddit) = .ok listings) :
    ∃ counts, s.fetchTopAuthors subreddit = .ok counts ∧
      (counts.map Prod.fst).Nodup ∧
      (∀ a, a ∈ counts.map Prod.fst ↔ a ∈ distinctAuthors listings) ∧
      (∀ a, counts.get a = authorCount listings a) := by
  obtain ⟨hnd, hmem, hget⟩ := foldl_countAuthor (entries listings) [] (by simp)
  refine ⟨(entries listings).foldl countAuthor [], ?_, hnd, ?_, ?_⟩
  · simp [Service.fetchTopAuthors, hfetch, foldl_entries]
  · intro a
    rw [hmem a]
    simp [distinctAuthors]
  · intro a
    rw [hget a]
    simp [Counts.get, authorCount]

/-- A negative `num` makes the slice bound `min(num, len(authorPosts))` negative:
once the listings are fetched, `UpdateTopNAuthors` panics and writes nothing. -/
theorem UpdateTopNAuthors_panics_of_negative (s : Service)
    (order : List String → List String) (subreddit : String) (num : Int)
    (listings : List Listing) (hnum : num < 0)
    (hfetch : s.client.FetchAllListings ("/r/" ++ subreddit) = .ok listings) :
    s.UpdateTopNAuthors order subreddit num = (.panicked "slice bounds out of range", []) := by
  obtain ⟨counts, hcounts, _⟩ := fetchTopAuthors_counts s subreddit listings hfetch
  unfold Service.UpdateTopNAuthors
  simp only [hcounts]
  rw [if_pos]
  left
  exact lt_of_le_of_lt (min_le_left _ _) hnum

end PostService

/-! ## Session token, slice bound and enumeration order -/

/-- C21, the code at a failing input: the token endpoint answers a validated,
admitted `Login` with status 200 and a body without `access_token`. `Login`
returns nil, the session token stays empty, and the `FetchListing` and
`FetchAllListings` that follow fail with Not-Authenticated. -/
theorem Login_success_leaves_token_empty :
    (emptyTokenClient.Login emptyTokenLib "unitTester" "unitTester" []).1 = none ∧
    (emptyTokenClient.Login emptyTokenLib "unitTester" "unitTester" []).2.1.token = "" ∧
    (Client.FetchListing emptyTokenLib
        (emptyTokenClient.Login emptyTokenLib "unitTester" "unitTester" []).2.1 "/r/golang/top"
        (emptyTokenClient.Login emptyTokenLib "unitTester" "unitTester" []).2.2).1
      = (none, some Err.NotAuthenticated) ∧
    (Client.FetchAllListings emptyTokenLib
        (emptyTokenClient.Login emptyTokenLib "unitTester" "unitTester" []).2.1 "/r/golang" 1
        (emptyTokenClient.Login emptyTokenLib "unitTester" "unitTester" []).2.2).1
      = some (none, some Err.NotAuthenticated) := by
  refine ⟨rfl, rfl, rfl, rfl⟩

/-- C22, the code at a failing input: `Configure` accepts
`REDDIT_TOP_N_AUTHORS=-1` and produces `TopNAuthors` -1; with that `num`,
`UpdateTopNAuthors` on the listing of the tests computes a negative slice bound
and panics before anything is written. -/
theorem UpdateTopNAuthors_negative_bound_panics :
    ((Configuration.Configure (Configuration.exampleDeps []) Configuration.exampleFmt
        (Configuration.requiredEnvs ++ "\nREDDIT_TOP_N_AUTHORS=-1")).1.map
      fun cfg => cfg.TopNAuthors) = some (-1) ∧
    PostService.testService.UpdateTopNAuthors id "cardinals" (-1) =
      (.panicked "slice bounds out of range", []) := by
  refine ⟨rfl, rfl⟩

/-- C23 as stated fails: on a listing in which two authors have one entry each,
the enumeration orders `id` and `reverse` of the map make `UpdateTopNAuthors` write
the two author lines in different orders, and with `num` 1 write different authors. -/
theorem UpdateTopNAuthors_tie_follows_enumeration :
    (∀ l : List String, (id l).Perm l) ∧ (∀ l : List String, (List.reverse l).Perm l) ∧
    (PostService.tiedService.UpdateTopNAuthors id "golang" 10).2 ≠
      (PostService.tiedService.UpdateTopNAuthors List.reverse "golang" 10).2 ∧
    (PostService.tiedService.UpdateTopNAuthors id "golang" 1).2 ≠
      (PostService.tiedService.UpdateTopNAuthors List.reverse "golang" 1).2 := by
  refine ⟨fun l => List.Perm.refl l, fun l => List.reverse_perm l, by decide, by decide⟩

/-! ## Lemmas on the requests on the wire -/

theorem rateStatus_ok_iff (lib : Lib) (h : Header) :
    (∃ rate, rateStatus lib h = .ok rate) ↔ RateHeadersAccepted lib h := by
  unfold rateStatus RateHeadersAccepted
  constructor
  · rintro ⟨rate, hr⟩
    refine ⟨?_, ?_, ?_⟩
    · intro v hv
      rw [(singleValue_eq_some_iff h _ v).mpr hv] at hr
      cases hp : lib.ParseFloat32 v with
      | ok x => exact ⟨x, rfl⟩
      | error e => simp [hp] at hr
    · intro v hv
      rw [(singleValue_eq_some_iff h "X-Ratelimit-Reset" v).mpr hv] at hr
      cases hp : Atoi v with
      | ok x => exact ⟨x, rfl⟩
      | error e =>
        simp only [hp] at hr
        split at hr <;> simp at hr
    · intro v hv
      rw [(singleValue_eq_some_iff h "X-Ratelimit-Used" v).mpr hv] at hr
      cases hp : Atoi v with
      | ok x => exact ⟨x, rfl⟩
      | error e =>
        simp only [hp] at hr
        split at hr
        · simp at hr
        · split at hr <;> simp at hr
  · rintro ⟨h1, h2, h3⟩
    have e1 : ∃ x, (match singleValue h "X-Ratelimit-Remaining" with
        | some v => lib.ParseFloat32 v
        | none => .ok GoFloat.zero) = Except.ok x := by
      cases hv : singleValue h "X-Ratelimit-Remaining" with
      | none => exact ⟨_, rfl⟩
      | some v => exact h1 v ((singleValue_eq_some_iff h _ v).mp hv)
    have e2 : ∃ x, (match singleValue h "X-Ratelimit-Reset" with
        | some v => Atoi v
        | none => .ok 0) = Except.ok x := by
      cases hv : singleValue h "X-Ratelimit-Reset" with
      | none => exact ⟨_, rfl⟩
      | some v => exact h2 v ((singleValue_eq_some_iff h _ v).mp hv)
    have e3 : ∃ x, (match singleValue h "X-Ratelimit-Used" with
        | some v => Atoi v
        | none => .ok 0) = Except.ok x := by
      cases hv : singleValue h "X-Ratelimit-Used" with
      | none => exact ⟨_, rfl⟩
      | some v => exact h3 v ((singleValue_eq_some_iff h _ v).mp hv)
    obtain ⟨x1, hx1⟩ := e1
    obtain ⟨x2, hx2⟩ := e2
    obtain ⟨x3, hx3⟩ := e3
    refine ⟨{ Remaining := x1, Reset := uint8 x2, Used := uint8 x3 }, ?_⟩
    simp only [hx1, hx2, hx3]

theorem encode_cursor (after : String) (count : Int) :
    Values.Encode (Page.Values { After := after, Before := "", Count := count, Limit := 1000 })
      = cursorQuery after count := by
  have k1 : QueryEscape "after" = "after" := by decide
  have k2 : QueryEscape "count" = "count" := by decide
  have k3 : QueryEscape "limit" = "limit" := by decide
  have k4 : QueryEscape (Itoa 1000) = "1000" := by decide
  have c1 : ¬ (['l', 'i', 'm', 'i', 't'] < ['c', 'o', 'u', 'n', 't']) := by decide
  have c2 : ¬ (['l', 'i', 'm', 'i', 't'] < ['a', 'f', 't', 'e', 'r']) := by decide
  have c3 : ¬ (['c', 'o', 'u', 'n', 't'] < ['a', 'f', 't', 'e', 'r']) := by decide
  have c4 : ['c', 'o', 'u', 'n', 't'] < ['l', 'i', 'm', 'i', 't'] := by decide
  have c5 : ['a', 'f', 't', 'e', 'r'] < ['l', 'i', 'm', 'i', 't'] := by decide
  have c6 : ['a', 'f', 't', 'e', 'r'] < ['c', 'o', 'u', 'n', 't'] := by decide
  have a1 : ∀ x : String, "count" ++ ("=" ++ x) = "count=" ++ x := fun x => by
    rw [← String.append_assoc]
    rfl
  have a2 : ∀ x : String, "after" ++ ("=" ++ x) = "after=" ++ x := fun x => by
    rw [← String.append_assoc]
    rfl
  unfold Page.Values cursorQuery Values.Encode sortedKeys
  by_cases h1 : after = "" <;> by_cases h3 : 0 < count <;>
    simp [h1, h3, Values.Set, List.lookup, List.filter, insertKey, String.intercalate,
      String.intercalate.go, k1, k2, k3, k4, c1, c2, c3, c4, c5, c6, String.append_assoc, a1, a2]

/-- The request the client builds from the cursor after the pages `ps` is the
request on the wire for the page that follows `ps`. -/
theorem listingRequest_eq_pageRequest (c : Client) (path : String) (ps : List Listing) :
    c.listingRequest path (some (cursorAfter ps)) = pageRequest c.token path ps := by
  have henc := encode_cursor
    (match ps.getLast? with
     | some p => p.After
     | none => "")
    ((ps.map fun p => (p.Children.length : Int)).sum)
  unfold Client.listingRequest pageRequest
  simp only [cursorAfter, henc]
  rfl

theorem pageEvents_eq_fetchEvents (c : Client) (path : String) (ps : List Listing) (k : Nat) :
    pageEvents c path ps k = fetchEvents c path ps k := by
  induction k with
  | zero => rfl
  | succ k ih => simp only [pageEvents, fetchEvents, ih, listingRequest_eq_pageRequest]

theorem sent_fetchEvents (c : Client) (path : String) (ps : List Listing) (k : Nat) :
    sent (fetchEvents c path ps k) =
      (List.range k).map fun j => pageRequest c.token path (ps.take j) := by
  rw [← pageEvents_eq_fetchEvents, sent_pageEvents]
  simp only [listingRequest_eq_pageRequest]

theorem pageServed_of_answered (lib : Lib) (c : Client) (path : String) (tr0 : List Event)
    (ps : List Listing) (k : Nat) (h : PageAnswered lib c path tr0 ps k) :
    (∀ wait, c.limiter = some wait → wait (waits tr0 + k) = none) ∧
    ∃ res rate, c.httpClient (sends tr0 + k) (c.listingRequest path (some (cursorAfter (ps.take k))))
        = .ok res ∧
      res.StatusCode = 200 ∧ rateStatus lib res.Header = .ok rate ∧
      lib.decodeListing res.Body = .ok (ps.getD k { After := "", Children := [] }) := by
  obtain ⟨hgate, res, hres, hstatus, hacc, hdec⟩ := h
  obtain ⟨rate, hrate⟩ := (rateStatus_ok_iff lib res.Header).mpr hacc
  exact ⟨hgate, res, rate, by rw [listingRequest_eq_pageRequest]; exact hres, hstatus, hrate, hdec⟩

/-! ## Lemmas on answered pages -/

/-- One iteration of the loop on an answered page, in terms of the requests on the
wire. -/
theorem loop_step_answered (lib : Lib) (c : Client) (path : String) (tr0 : List Event)
    (ps : List Listing) (k fuel : Nat) (htoken : c.token ≠ "") (hk : k < ps.length)
    (hanswered : PageAnswered lib c path tr0 ps k) :
    Client.FetchAllListings.loop lib c path (fuel + 1) (cursorAfter (ps.take k)) (ps.take k)
        (tr0 ++ fetchEvents c path ps k) =
      if (ps.getD k { After := "", Children := [] }).After = "" then
        (some (some (ps.take (k + 1)), none), tr0 ++ fetchEvents c path ps (k + 1))
      else
        Client.FetchAllListings.loop lib c path fuel (cursorAfter (ps.take (k + 1)))
          (ps.take (k + 1)) (tr0 ++ fetchEvents c path ps (k + 1)) := by
  obtain ⟨hgate, res, rate, hres, hstatus, hrate, hdec⟩ :=
    pageServed_of_answered lib c path tr0 ps k hanswered
  simp only [← pageEvents_eq_fetchEvents]
  have hadm : c.admits (tr0 ++ pageEvents c path ps k) := by
    intro wait hl
    rw [waits_append, waits_pageEvents c path ps k wait hl]
    exact hgate wait hl
  have hsends : sends (tr0 ++ pageEvents c path ps k) = sends tr0 + k := by
    rw [sends_append, sends_pageEvents]
  have hfetch := fetchListing_of_response lib c path (some (cursorAfter (ps.take k)))
    (tr0 ++ pageEvents c path ps k) res htoken hadm (by rw [hsends]; exact hres)
  rw [hrate] at hfetch
  simp only [dispatchStatus, hstatus, if_true, hdec] at hfetch
  rw [Client.FetchAllListings.loop, hfetch]
  simp only [take_succ_getD ps k { After := "", Children := [] } hk, cursorAfter_snoc, pageEvents,
    List.append_assoc]

/-- After `k` answered pages that all carry a non-empty `after` the loop has
consumed `k` units of fuel and holds the cursor after those pages. -/
theorem loop_pages_answered (lib : Lib) (c : Client) (path : String) (tr0 : List Event)
    (ps : List Listing) (htoken : c.token ≠ "") (k : Nat) (hk : k ≤ ps.length)
    (hanswered : ∀ j, j < k → PageAnswered lib c path tr0 ps j)
    (hafter : ∀ j p, j < k → ps[j]? = some p → p.After ≠ "") (fuel : Nat) :
    Client.FetchAllListings.loop lib c path (fuel + k) (cursorAfter []) [] tr0 =
      Client.FetchAllListings.loop lib c path fuel (cursorAfter (ps.take k)) (ps.take k)
        (tr0 ++ fetchEvents c path ps k) := by
  induction k generalizing fuel with
  | zero => simp [fetchEvents]
  | succ k ih =>
    have hk1 : k < ps.length := hk
    have ih1 := ih (Nat.le_of_lt hk1) (fun j hj => hanswered j (Nat.lt_succ_of_lt hj))
      (fun j p hj => hafter j p (Nat.lt_succ_of_lt hj)) (fuel + 1)
    have hfuel : fuel + (k + 1) = fuel + 1 + k := by omega
    rw [hfuel, ih1,
      loop_step_answered lib c path tr0 ps k fuel htoken hk1 (hanswered k (Nat.lt_succ_self k))]
    have hget : ps[k]? = some (ps.getD k { After := "", Children := [] }) := by
      simp [List.getD, List.getElem?_eq_getElem hk1]
    rw [if_neg (hafter k _ (Nat.lt_succ_self k) hget)]

/-- What one fetch does to the wire: either it sends nothing and fails, or it
sends its request, and a page it returns is the decoding of a 200 answer to that
request. -/
theorem fetchListing_outcome (lib : Lib) (c : Client) (path : String) (page : Option Page)
    (tr : List Event) :
    (sent (c.fetchListing lib path page tr).2 = sent tr ∧
      ∀ l, (c.fetchListing lib path page tr).1 ≠ .ok l) ∨
    (sent (c.fetchListing lib path page tr).2 = sent tr ++ [c.listingRequest path page] ∧
      sends (c.fetchListing lib path page tr).2 = sends tr + 1 ∧
      ∀ l, (c.fetchListing lib path page tr).1 = .ok l →
        ∃ res, c.httpClient (sends tr) (c.listingRequest path page) = .ok res ∧
          res.StatusCode = 200 ∧ lib.decodeListing res.Body = .ok l) := by
  have hdisp : ∀ (res : Response) (rate : RateStatus) (l : Listing),
      dispatchStatus lib path res rate = .ok l →
        res.StatusCode = 200 ∧ lib.decodeListing res.Body = .ok l := by
    intro res rate l hl
    unfold dispatchStatus at hl
    by_cases hs : res.StatusCode = 200
    · refine ⟨hs, ?_⟩
      simp only [hs, if_true] at hl
      cases hd : lib.decodeListing res.Body with
      | error e => simp [hd] at hl
      | ok l1 =>
        simp only [hd, Except.ok.injEq] at hl
        rw [hl]
    · simp only [hs, if_false] at hl
      split at hl <;> simp at hl
  unfold Client.fetchListing Client.prepareAuthenticatedRequest
  cases ha : c.authenticated with
  | some err => exact Or.inl ⟨by simp, by simp⟩
  | none =>
    simp only
    unfold Client.send
    cases hl : c.limiter with
    | none =>
      simp only
      cases hr : c.httpClient (sends tr) (c.listingRequest path page) with
      | error e =>
        exact Or.inr ⟨by simp [sent_append, sent], by simp [sends_append, sends, Event.isDo],
          by simp⟩
      | ok res =>
        cases hrate : rateStatus lib res.Header with
        | error e =>
          exact Or.inr ⟨by simp [hrate, sent_append, sent],
            by simp [hrate, sends_append, sends, Event.isDo], by simp [hrate]⟩
        | ok rate =>
          refine Or.inr ⟨by simp [hrate, sent_append, sent],
            by simp [hrate, sends_append, sends, Event.isDo], ?_⟩
          intro l hok
          simp only [hrate] at hok
          exact ⟨res, rfl, hdisp res rate l hok⟩
    | some wait =>
      simp only
      cases hw : wait (waits tr) with
      | some err => exact Or.inl ⟨by simp [sent_append, sent], by simp⟩
      | none =>
        have hs : sends (tr ++ [Event.Wait]) = sends tr := by
          simp [sends_append, sends, Event.isDo]
        simp only [hs]
        cases hr : c.httpClient (sends tr) (c.listingRequest path page) with
        | error e =>
          exact Or.inr ⟨by simp [sent_append, sent], by simp [sends_append, sends, Event.isDo],
            by simp⟩
        | ok res =>
          cases hrate : rateStatus lib res.Header with
          | error e =>
            exact Or.inr ⟨by simp [hrate, sent_append, sent],
              by simp [hrate, sends_append, sends, Event.isDo], by simp [hrate]⟩
          | ok rate =>
            refine Or.inr ⟨by simp [hrate, sent_append, sent],
              by simp [hrate, sends_append, sends, Event.isDo], ?_⟩
            intro l hok
            simp only [hrate] at hok
            exact ⟨res, rfl, hdisp res rate l hok⟩

/-- The requests of the pagination loop started with the cursor after the pages
`prev`: there are pages `qs`, each the decoding of the 200 answer to the request
before it, such that the requests sent are the requests on the wire that follow
`prev`, `prev` and the first page of `qs`, and so on; a request follows a page only
when its `after` is not empty, and a returned result consists of `out` and `qs`. -/
theorem loop_cursors (lib : Lib) (c : Client) (path : String) (fuel : Nat) :
    ∀ (prev out : List Listing) (tr : List Event),
      ∃ (qs : List Listing) (m : Nat),
        sent (Client.FetchAllListings.loop lib c path fuel (cursorAfter prev) out tr).2 =
          sent tr ++ (List.range m).map
            (fun k => pageRequest c.token path (prev ++ qs.take k)) ∧
        qs.length ≤ m ∧ m ≤ qs.length + 1 ∧
        (∀ k p, qs[k]? = some p →
          ∃ res, c.httpClient (sends tr + k) (pageRequest c.token path (prev ++ qs.take k))
              = .ok res ∧
            res.StatusCode = 200 ∧ lib.decodeListing res.Body = .ok p) ∧
        (∀ k p, qs[k]? = some p → k + 1 < m → p.After ≠ "") ∧
        (∀ res, (Client.FetchAllListings.loop lib c path fuel (cursorAfter prev) out tr).1
            = some (some res, none) → res = out ++ qs ∧ m = qs.length) := by
  induction fuel with
  | zero =>
    intro prev out tr
    exact ⟨[], 0, by simp [Client.FetchAllListings.loop], by simp, by simp, by simp, by simp,
      by simp [Client.FetchAllListings.loop]⟩
  | succ fuel ih =>
    intro prev out tr
    rw [Client.FetchAllListings.loop]
    rcases fetchListing_outcome lib c path (some (cursorAfter prev)) tr with
      ⟨hsent, hfail⟩ | ⟨hsent, hsends, hok⟩
    · -- nothing was sent
      cases hf : c.fetchListing lib path (some (cursorAfter prev)) tr with
      | mk r tr1 =>
        rw [hf] at hsent hfail
        simp only at hsent hfail
        cases r with
        | ok l => exact absurd rfl (hfail l)
        | error err =>
          exact ⟨[], 0, by simp [hsent], by simp, by simp, by simp, by simp, by simp⟩
    · cases hf : c.fetchListing lib path (some (cursorAfter prev)) tr with
      | mk r tr1 =>
        rw [hf] at hsent hsends hok
        simp only at hsent hsends hok
        rw [listingRequest_eq_pageRequest] at hsent hok
        cases r with
        | error err =>
          exact ⟨[], 1, by simp [hsent], by simp, by simp, by simp, by simp, by simp⟩
        | ok listing =>
          obtain ⟨res0, hres0, hstatus0, hdec0⟩ := hok listing rfl
          simp only
          by_cases hafter : listing.After = ""
          · simp only [hafter, if_true]
            refine ⟨[listing], 1, by simp [hsent, List.range_succ], by simp, by simp, ?_, by simp, by simp⟩
            intro k p hp
            rcases k with _ | k
            · simp only [List.getElem?_cons_zero, Option.some.injEq] at hp
              subst hp
              exact ⟨res0, by simpa using hres0, hstatus0, hdec0⟩
            · simp at hp
          · simp only [hafter, if_false]
            have hcur : ({ cursorAfter prev with
                After := listing.After,
                Count := (cursorAfter prev).Count + listing.Children.length } : Page)
                = cursorAfter (prev ++ [listing]) := (cursorAfter_snoc prev listing).symm
            rw [hcur]
            obtain ⟨qs, m, h1, h2, h3, h4, h5, h6⟩ := ih (prev ++ [listing]) (out ++ [listing]) tr1
            refine ⟨listing :: qs, m + 1, ?_, by simp [h2], by simp [h3], ?_, ?_, ?_⟩
            · rw [h1, hsent, List.range_succ_eq_map]
              simp [List.append_assoc, Function.comp_def]
            · intro k p hp
              rcases k with _ | k
              · simp only [List.getElem?_cons_zero, Option.some.injEq] at hp
                subst hp
                exact ⟨res0, by simpa using hres0, hstatus0, hdec0⟩
              · simp only [List.getElem?_cons_succ] at hp
                obtain ⟨res, hres, hstatus, hdec⟩ := h4 k p hp
                refine ⟨res, ?_, hstatus, hdec⟩
                have hidx : sends tr + (k + 1) = sends tr1 + k := by omega
                rw [hidx]
                simpa [List.append_assoc] using hres
            · intro k p hp hlt
              rcases k with _ | k
              · simp only [List.getElem?_cons_zero, Option.some.injEq] at hp
                subst hp
                exact hafter
              · simp only [List.getElem?_cons_succ] at hp
                exact h5 k p hp (by omega)
            · intro res hres
              obtain ⟨g1, g2⟩ := h6 res hres
              exact ⟨by simp [g1], by simp [g2]⟩

/-! ## The claims on pagination -/

/-- C1 as stated fails: a server that answers the only page request with status
200, a body that decodes to a page with an empty `after`, and the header
`X-Ratelimit-Used: abc` makes `FetchAllListings` return a nil result and the
header parse error instead of that page. -/
theorem FetchAllListings_unparsable_header :
    unparsableHeaderClient.httpClient 0 (pageRequest "123" "/unit-test" []) =
      .ok { StatusCode := 200, Header := [("X-Ratelimit-Used", ["abc"])], Body := "last" } ∧
    exampleLib.decodeListing "last" =
      .ok { After := "",
            Children := [{ Name := "Unit test name2", Title := "Unit test title2",
                           Ups := 17, Author := "Jane Doe" }] } ∧
    (unparsableHeaderClient.FetchAllListings exampleLib "/unit-test" 5 []).1 =
      some (none,
        some (Err.Wrapped "parse ratelimit used: " (Err.NumError "Atoi" "abc" false))) := by
  refine ⟨rfl, rfl, rfl⟩

/-- C1 amended: when every request of an authenticated client is admitted by the
rate gate and answered with the pages `ps` (at least one), each a decodable 200
whose rate-limit headers are accepted, and the last page of `ps` is the first one
with an empty `after`, then `FetchAllListings`, given fuel for `ps.length`
iterations, returns exactly `ps` in that order with a nil error; the requests it
sends are the `ps.length` requests on the wire for those pages, so no page after
the last is requested, and the last page returned has an empty `after`. -/
theorem FetchAllListings_returns_pages (lib : Lib) (c : Client) (path : String)
    (tr0 : List Event) (ps : List Listing) (fuel : Nat)
    (htoken : c.token ≠ "") (hne : ps ≠ [])
    (hanswered : ∀ k, k < ps.length → PageAnswered lib c path tr0 ps k)
    (hafter : ∀ k p, ps[k]? = some p → (p.After = "" ↔ k + 1 = ps.length))
    (hfuel : ps.length ≤ fuel) :
    c.FetchAllListings lib path fuel tr0 =
      (some (some ps, none), tr0 ++ fetchEvents c path ps ps.length) ∧
    sent (c.FetchAllListings lib path fuel tr0).2 =
      sent tr0 ++ (List.range ps.length).map (fun k => pageRequest c.token path (ps.take k)) ∧
    sends (c.FetchAllListings lib path fuel tr0).2 = sends tr0 + ps.length ∧
    ∃ last, ps.getLast? = some last ∧ last.After = "" := by
  have hpos : 0 < ps.length := List.length_pos.mpr hne
  obtain ⟨n, hn⟩ : ∃ n, ps.length = n + 1 := ⟨ps.length - 1, by omega⟩
  obtain ⟨f, hf⟩ : ∃ f, fuel = f + 1 + n := ⟨fuel - (n + 1), by omega⟩
  have hnlt : n < ps.length := by omega
  have hget : ps[n]? = some (ps.getD n { After := "", Children := [] }) := by
    simp [List.getD, List.getElem?_eq_getElem hnlt]
  have hlast : (ps.getD n { After := "", Children := [] }).After = "" :=
    (hafter n _ hget).mpr hn.symm
  have hrun : c.FetchAllListings lib path fuel tr0 =
      (some (some ps, none), tr0 ++ fetchEvents c path ps ps.length) := by
    have hloop := loop_pages_answered lib c path tr0 ps htoken n (Nat.le_of_lt hnlt)
      (fun j hj => hanswered j (by omega))
      (fun j p hj hp h => by
        have := (hafter j p hp).mp h
        omega) (f + 1)
    have hcur : cursorAfter [] = ({ Limit := 1000 } : Page) := rfl
    rw [Client.FetchAllListings, hf, ← hcur, hloop,
      loop_step_answered lib c path tr0 ps n f htoken hnlt (hanswered n hnlt), if_pos hlast,
      ← hn, List.take_length]
  refine ⟨hrun, ?_, ?_, ?_⟩
  · rw [hrun, sent_append, sent_fetchEvents]
  · rw [hrun, sends_append, ← pageEvents_eq_fetchEvents, sends_pageEvents]
  · refine ⟨ps.getD n { After := "", Children := [] }, ?_, hlast⟩
    rw [List.getLast?_eq_getElem?, ← hget]
    congr 1
    omega

/-- The two test pages are answered to `testClient` from the empty trace. -/
theorem testClient_answered :
    ∀ k, k < testPages.length →
      PageAnswered exampleLib testClient "/unit-test" [] testPages k := by
  intro k hk
  have hacc : RateHeadersAccepted exampleLib [] := by
    simp [RateHeadersAccepted]
  have hk2 : k < 2 := hk
  interval_cases k
  · exact ⟨fun wait hw => by cases hw; rfl, _, rfl, rfl, hacc, rfl⟩
  · exact ⟨fun wait hw => by cases hw; rfl, _, rfl, rfl, hacc, rfl⟩

/-- Witness for C1 amended: the two pages of the repository test. -/
theorem FetchAllListings_returns_pages_witness :
    testClient.FetchAllListings exampleLib "/unit-test" 2 [] =
      (some (some testPages, none), [] ++ fetchEvents testClient "/unit-test" testPages 2) ∧
    (sent (testClient.FetchAllListings exampleLib "/unit-test" 2 []).2).map
        (fun r => r.URL.String) =
      ["https://oauth.reddit.com/unit-test?limit=1000",
       "https://oauth.reddit.com/unit-test?after=ou812&count=1&limit=1000"] :=
  ⟨(FetchAllListings_returns_pages exampleLib testClient "/unit-test" [] testPages 2
    (by decide) (by decide) testClient_answered
    (by
      intro k p hp
      rcases k with _ | _ | k
      · simp [testPages] at hp
        subst hp
        decide
      · simp [testPages] at hp
        subst hp
        decide
      · simp [testPages] at hp)
    (by decide)).1, by decide⟩

/-- C3: in every `FetchAllListings` call there are pages `ps`, each the decoding of
the 200 answer of the server to the request before it, such that the requests the
call sends are, in order, the requests on the wire for the page that follows the
first 0, 1, 2, ... pages of `ps`: a request is sent for every page of `ps` and at
most one more, a further request is sent only after a page with a non-empty
`after`, and a returned result is `ps`. The first request has the query
`limit=1000`. The request that follows page `k` has the query `after=<after of page
k, query-escaped>`, then `count=<number of entries of pages 1..k together>` when
that number is positive, then `limit=1000`, joined by `&`. Each of these requests
is the one the client builds from the cursor with limit 1000, that `after`, that
`count` and no `before`. -/
theorem FetchAllListings_cursors (lib : Lib) (c : Client) (path : String) (fuel : Nat)
    (tr0 : List Event) :
    ∃ (ps : List Listing) (m : Nat),
      sent (c.FetchAllListings lib path fuel tr0).2 =
        sent tr0 ++ (List.range m).map (fun k => pageRequest c.token path (ps.take k)) ∧
      ps.length ≤ m ∧ m ≤ ps.length + 1 ∧
      (∀ k p, ps[k]? = some p →
        ∃ res, c.httpClient (sends tr0 + k) (pageRequest c.token path (ps.take k)) = .ok res ∧
          res.StatusCode = 200 ∧ lib.decodeListing res.Body = .ok p) ∧
      (∀ k p, ps[k]? = some p → k + 1 < m → p.After ≠ "") ∧
      (∀ res, (c.FetchAllListings lib path fuel tr0).1 = some (some res, none) →
        res = ps ∧ m = ps.length) ∧
      (pageRequest c.token path (ps.take 0)).URL.RawQuery = "limit=1000" ∧
      (∀ k p, ps[k]? = some p → k + 1 < m →
        (pageRequest c.token path (ps.take (k + 1))).URL.RawQuery =
          "after=" ++ QueryEscape p.After ++ "&"
            ++ (if 0 < (((ps.take (k + 1)).map fun q => (q.Children.length : Int)).sum)
                then "count=" ++ QueryEscape
                  (Itoa (((ps.take (k + 1)).map fun q => (q.Children.length : Int)).sum)) ++ "&"
                else "")
            ++ "limit=1000") ∧
      (∀ k p, ps[k]? = some p →
        pageRequest c.token path (ps.take (k + 1)) =
          c.listingRequest path
            (some { After := p.After, Before := "",
                    Count := (((ps.take (k + 1)).map fun q => (q.Children.length : Int)).sum),
                    Limit := 1000 })) ∧
      pageRequest c.token path (ps.take 0) =
        c.listingRequest path (some { After := "", Before := "", Count := 0, Limit := 1000 }) := by
  obtain ⟨ps, m, h1, h2, h3, h4, h5, h6⟩ := loop_cursors lib c path fuel [] [] tr0
  have hcur : cursorAfter [] = ({ Limit := 1000 } : Page) := rfl
  simp only [List.nil_append] at h1 h4 h6
  have hlast : ∀ k p, ps[k]? = some p → (ps.take (k + 1)).getLast? = some p := by
    intro k p hp
    have hk : k < ps.length := by
      by_contra hge
      rw [List.getElem?_eq_none (Nat.le_of_not_lt hge)] at hp
      exact absurd hp (by simp)
    have hp1 : p = ps.getD k { After := "", Children := [] } := by
      simp [List.getD, hp]
    rw [take_succ_getD ps k { After := "", Children := [] } hk, ← hp1]
    simp
  refine ⟨ps, m, ?_, h2, h3, h4, h5, ?_, rfl, ?_, ?_, ?_⟩
  · rw [Client.FetchAllListings, ← hcur]
    exact h1
  · rw [Client.FetchAllListings, ← hcur]
    exact h6
  · intro k p hp hlt
    have hne := h5 k p hp hlt
    simp only [pageRequest, cursorQuery, hlast k p hp, hne, if_false]
  · intro k p hp
    rw [← listingRequest_eq_pageRequest]
    simp only [cursorAfter, hlast k p hp]
  · rw [← listingRequest_eq_pageRequest]
    rfl

/-- Witness for C3: the two requests of the repository test. -/
theorem FetchAllListings_cursors_witness :
    (∃ (ps : List Listing) (m : Nat),
      sent (testClient.FetchAllListings exampleLib "/unit-test" 2 []).2 =
        sent [] ++ (List.range m).map (fun k => pageRequest testClient.token "/unit-test" (ps.take k)) ∧
      ps.length ≤ m ∧ m ≤ ps.length + 1) ∧
    (sent (testClient.FetchAllListings exampleLib "/unit-test" 2 []).2).map
        (fun r => r.URL.RawQuery) = ["limit=1000", "after=ou812&count=1&limit=1000"] :=
  ⟨(FetchAllListings_cursors exampleLib testClient "/unit-test" 2 []).imp
      fun _ h => h.imp fun _ g => ⟨g.1, g.2.1, g.2.2.1⟩,
    by decide⟩

namespace PostService

/-! ### Stability of the sort and the place of a tie -/

theorem enumerateFirst_perm (a : String) (l : List String) : (enumerateFirst a l).Perm l := by
  unfold enumerateFirst
  split
  · rename_i h
    exact (List.perm_cons_erase h).symm
  · exact List.Perm.refl _

theorem insertAuthor_filter (c : Counts) (a : String) (v : Int) (l : List String) :
    (insertAuthor c a l).filter (fun x => decide (c.get x = v)) =
      (a :: l).filter (fun x => decide (c.get x = v)) := by
  induction l with
  | nil => rfl
  | cons b rest ih =>
    unfold insertAuthor
    split
    · rfl
    · rename_i hab
      have hne : c.get a ≠ c.get b := by omega
      rw [List.filter_cons, ih]
      by_cases ha : c.get a = v
      · have hb : ¬ c.get b = v := fun h => hne (ha.trans h.symm)
        simp [List.filter_cons, ha, hb]
      · simp [List.filter_cons, ha]

/-- The sort is stable: the authors with any one count keep their order. -/
theorem sortAuthors_stable (c : Counts) (v : Int) (l : List String) :
    (sortAuthors c l).filter (fun x => decide (c.get x = v)) =
      l.filter (fun x => decide (c.get x = v)) := by
  induction l with
  | nil => rfl
  | cons a rest ih =>
    unfold sortAuthors
    rw [insertAuthor_filter, List.filter_cons, List.filter_cons, ih]

/-- A list sorted by descending count consists of the authors with more than `v`,
then those with `v`, then those with less. -/
theorem sorted_split (c : Counts) (v : Int) (l : List String)
    (hl : l.Pairwise fun x y => c.get y ≤ c.get x) :
    l = l.filter (fun x => decide (v < c.get x)) ++
      (l.filter (fun x => decide (c.get x = v)) ++ l.filter (fun x => decide (c.get x < v))) := by
  induction l with
  | nil => rfl
  | cons a rest ih =>
    obtain ⟨ha, hrest⟩ := List.pairwise_cons.mp hl
    have ih1 := ih hrest
    have hmore : c.get a ≤ v → rest.filter (fun x => decide (v < c.get x)) = [] := by
      intro hle
      rw [List.filter_eq_nil_iff]
      intro x hx
      have := ha x hx
      simp only [decide_eq_true_eq]
      omega
    have hsame : c.get a < v → rest.filter (fun x => decide (c.get x = v)) = [] := by
      intro hlt
      rw [List.filter_eq_nil_iff]
      intro x hx
      have := ha x hx
      simp only [decide_eq_true_eq]
      omega
    rcases lt_trichotomy v (c.get a) with h | h | h
    · have h1 : ¬ c.get a = v := by omega
      have h2 : ¬ c.get a < v := by omega
      rw [List.filter_cons_of_pos (by simpa using h), List.filter_cons_of_neg (by simpa using h1),
        List.filter_cons_of_neg (by simpa using h2), List.cons_append, ← ih1]
    · have h0 : c.get a = v := h.symm
      have h1 : ¬ v < c.get a := by omega
      have h2 : ¬ c.get a < v := by omega
      have hnone := hmore (by omega)
      rw [hnone, List.nil_append] at ih1
      rw [List.filter_cons_of_neg (by simpa using h1), List.filter_cons_of_pos (by simpa using h0),
        List.filter_cons_of_neg (by simpa using h2), hnone, List.nil_append, List.cons_append,
        ← ih1]
    · have h1 : ¬ v < c.get a := by omega
      have h2 : ¬ c.get a = v := by omega
      have hnone := hmore (by omega)
      have hnone2 := hsame h
      rw [hnone, hnone2, List.nil_append, List.nil_append] at ih1
      rw [List.filter_cons_of_neg (by simpa using h1), List.filter_cons_of_neg (by simpa using h2),
        List.filter_cons_of_pos (by simpa using h), hnone, hnone2, List.nil_append,
        List.nil_append, ← ih1]

theorem getElem?_split {α : Type} (l : List α) (i : Nat) (x : α) (h : l[i]? = some x) :
    ∃ l1 l2, l = l1 ++ x :: l2 ∧ l1.length = i := by
  induction l generalizing i with
  | nil => simp at h
  | cons a rest ih =>
    rcases i with _ | i
    · simp only [List.getElem?_cons_zero, Option.some.injEq] at h
      subst h
      exact ⟨[], rest, rfl, rfl⟩
    · simp only [List.getElem?_cons_succ] at h
      obtain ⟨l1, l2, h1, h2⟩ := ih i h
      exact ⟨a :: l1, l2, by rw [h1]; rfl, by simp [h2]⟩

/-- In a list sorted by descending count, an author stands behind all authors of
larger count: at least as many places from the front as there are such authors,
and exactly as many when no author before it has the same count. An author of
smaller count has more authors of larger count than stand before this one. -/
theorem sorted_rank (c : Counts) (l1 l2 : List String) (x : String)
    (hs : (l1 ++ x :: l2).Pairwise fun a b => c.get b ≤ c.get a) :
    (l1 ++ x :: l2).countP (fun z => decide (c.get x < c.get z)) ≤ l1.length ∧
    ((∀ z ∈ l1, c.get z ≠ c.get x) →
      (l1 ++ x :: l2).countP (fun z => decide (c.get x < c.get z)) = l1.length) ∧
    (∀ u, c.get u < c.get x →
      l1.length + 1 ≤ (l1 ++ x :: l2).countP (fun z => decide (c.get u < c.get z))) := by
  obtain ⟨_, h2, h3⟩ := List.pairwise_append.mp hs
  obtain ⟨hx, _⟩ := List.pairwise_cons.mp h2
  have hbefore : ∀ z ∈ l1, c.get x ≤ c.get z := fun z hz => h3 z hz x (List.mem_cons_self _ _)
  have hafter : l2.countP (fun z => decide (c.get x < c.get z)) = 0 := by
    rw [List.countP_eq_zero]
    intro z hz
    have := hx z hz
    simp only [decide_eq_true_eq]
    omega
  refine ⟨?_, ?_, ?_⟩
  · rw [List.countP_append, List.countP_cons, hafter]
    have := List.countP_le_length (fun z => decide (c.get x < c.get z)) (l := l1)
    simp
    exact this
  · intro hne
    rw [List.countP_append, List.countP_cons, hafter]
    have hall : l1.countP (fun z => decide (c.get x < c.get z)) = l1.length := by
      rw [List.countP_eq_length]
      intro z hz
      have h1 := hbefore z hz
      have h2 := hne z hz
      simp only [decide_eq_true_eq]
      omega
    simp [hall]
  · intro u hu
    rw [List.countP_append, List.countP_cons]
    have hall : l1.countP (fun z => decide (c.get u < c.get z)) = l1.length := by
      rw [List.countP_eq_length]
      intro z hz
      have h1 := hbefore z hz
      simp only [decide_eq_true_eq]
      omega
    simp [hall, hu]

end PostService

namespace PostService

/-- Where an author stands among the first `n` of a sorted enumeration when no tie
reaches the first `n` places: at the place given by the number of authors with a
larger count, and no other author has its count. -/
theorem place_of_untied (c : Counts) (keys S : List String) (n i : Nat) (x : String)
    (hnd : keys.Nodup) (hp : S.Perm keys)
    (hs : S.Pairwise fun a b => c.get b ≤ c.get a)
    (hties : ∀ a ∈ keys, ∀ b ∈ keys, a ≠ b → c.get a = c.get b →
      n ≤ keys.countP (fun z => decide (c.get a < c.get z)))
    (hi : i < n) (hx : S[i]? = some x) :
    keys.countP (fun z => decide (c.get x < c.get z)) = i ∧
    (∀ z ∈ keys, c.get z = c.get x → z = x) ∧
    (∀ u, c.get u < c.get x → i + 1 ≤ keys.countP (fun z => decide (c.get u < c.get z))) := by
  obtain ⟨l1, l2, hS, hlen⟩ := getElem?_split S i x hx
  subst hS
  obtain ⟨r1, r2, r3⟩ := sorted_rank c l1 l2 x hs
  rw [hp.countP_eq] at r1 r2
  have hxk : x ∈ keys := hp.mem_iff.mp (by simp)
  have hsnd : (l1 ++ x :: l2).Nodup := hp.nodup_iff.mpr hnd
  have huniq : ∀ z ∈ keys, c.get z = c.get x → z = x := by
    intro z hz hzx
    by_contra hne
    have := hties x hxk z hz (fun h => hne h.symm) hzx.symm
    omega
  refine ⟨?_, huniq, ?_⟩
  · rw [← hlen]
    apply r2
    intro z hz hzx
    have hzk : z ∈ keys := hp.mem_iff.mp (by simp [hz])
    have hzx2 := huniq z hzk hzx
    subst hzx2
    have := (List.nodup_append.mp hsnd).2.2
    exact this hz (List.mem_cons_self _ _)
  · intro u hu
    have := r3 u hu
    rw [hp.countP_eq] at this
    omega

/-- Two sorted enumerations of the same authors agree on their first `n` places
when no tie reaches these places. -/
theorem take_sorted_eq (c : Counts) (keys S1 S2 : List String) (n : Nat)
    (hnd : keys.Nodup) (hp1 : S1.Perm keys) (hp2 : S2.Perm keys)
    (hs1 : S1.Pairwise fun a b => c.get b ≤ c.get a)
    (hs2 : S2.Pairwise fun a b => c.get b ≤ c.get a)
    (hties : ∀ a ∈ keys, ∀ b ∈ keys, a ≠ b → c.get a = c.get b →
      n ≤ keys.countP (fun z => decide (c.get a < c.get z))) :
    S1.take n = S2.take n := by
  apply List.ext_getElem?
  intro i
  by_cases hi : i < n
  · rw [List.getElem?_take_of_lt hi, List.getElem?_take_of_lt hi]
    have hlen : S1.length = S2.length := (hp1.trans hp2.symm).length_eq
    by_cases hil : i < S1.length
    · have hx : S1[i]? = some (S1[i]) := List.getElem?_eq_getElem hil
      have hy : S2[i]? = some (S2.get ⟨i, hlen ▸ hil⟩) := List.getElem?_eq_getElem (hlen ▸ hil)
      obtain ⟨a1, a2, a3⟩ := place_of_untied c keys S1 n i _ hnd hp1 hs1 hties hi hx
      obtain ⟨b1, b2, b3⟩ := place_of_untied c keys S2 n i _ hnd hp2 hs2 hties hi hy
      have hyk : S2.get ⟨i, hlen ▸ hil⟩ ∈ keys := hp2.mem_iff.mp (List.get_mem _ _ _)
      have hcount : c.get (S2.get ⟨i, hlen ▸ hil⟩) = c.get (S1[i]) := by
        rcases lt_trichotomy (c.get (S2.get ⟨i, hlen ▸ hil⟩)) (c.get (S1[i])) with h | h | h
        · have := a3 _ h
          omega
        · exact h
        · have := b3 _ h
          omega
      rw [hx, hy, a2 _ hyk hcount]
    · rw [List.getElem?_eq_none (by omega), List.getElem?_eq_none (by omega)]
  · rw [List.getElem?_take_eq_none (by omega), List.getElem?_take_eq_none (by omega)]

/-- When the enumeration yields `a` first, `a` is the first of the authors with
its count in the sorted list: it stands at the place given by the number of
authors with a larger count. -/
theorem first_of_tie (c : Counts) (keys : List String) (a : String) (ha : a ∈ keys) :
    (sortAuthors c (enumerateFirst a keys))[keys.countP
      (fun z => decide (c.get a < c.get z))]? = some a := by
  have hperm : (sortAuthors c (enumerateFirst a keys)).Perm keys :=
    (sortAuthors_perm c _).trans (enumerateFirst_perm a keys)
  have hsplit := sorted_split c (c.get a) _ (sortAuthors_sorted c (enumerateFirst a keys))
  have hstable := sortAuthors_stable c (c.get a) (enumerateFirst a keys)
  have hfirst : (enumerateFirst a keys).filter (fun x => decide (c.get x = c.get a)) =
      a :: (keys.erase a).filter (fun x => decide (c.get x = c.get a)) := by
    simp [enumerateFirst, ha, List.filter_cons]
  have hlen : ((sortAuthors c (enumerateFirst a keys)).filter
      (fun x => decide (c.get a < c.get x))).length =
      keys.countP (fun z => decide (c.get a < c.get z)) := by
    rw [← List.countP_eq_length_filter, hperm.countP_eq]
  rw [hstable, hfirst] at hsplit
  rw [hsplit, List.getElem?_append_right (by omega), hlen]
  simp

end PostService

namespace PostService

/-! ### Lines and reports as byte strings -/

theorem ite_ne_newline (p : Prop) [Decidable p] (x y : Char) (hx : x ≠ Char.ofNat 10)
    (hy : y ≠ Char.ofNat 10) : (if p then x else y) ≠ Char.ofNat 10 := by
  split <;> assumption

theorem digitChar_ne_newline (n : Nat) : Nat.digitChar n ≠ Char.ofNat 10 := by
  unfold Nat.digitChar
  repeat (refine ite_ne_newline _ _ _ (by decide) ?_)
  decide

theorem toDigitsCore_no_newline (fuel : Nat) :
    ∀ (n : Nat) (ds : List Char), Char.ofNat 10 ∉ ds →
      Char.ofNat 10 ∉ Nat.toDigitsCore 10 fuel n ds := by
  induction fuel with
  | zero =>
    intro n ds hds
    simpa [Nat.toDigitsCore] using hds
  | succ fuel ih =>
    intro n ds hds
    have hcons : Char.ofNat 10 ∉ Nat.digitChar (n % 10) :: ds := by
      intro h
      rcases List.mem_cons.mp h with h | h
      · exact digitChar_ne_newline _ h.symm
      · exact hds h
    unfold Nat.toDigitsCore
    simp only
    split
    · exact hcons
    · exact ih _ _ hcons

theorem toString_nat_no_newline (n : Nat) : Char.ofNat 10 ∉ (toString n).data := by
  show Char.ofNat 10 ∉ (Nat.repr n).data
  unfold Nat.repr Nat.toDigits
  exact toDigitsCore_no_newline _ _ _ (by simp)

theorem toString_int_no_newline (i : Int) : Char.ofNat 10 ∉ (toString i).data := by
  cases i with
  | ofNat n => exact toString_nat_no_newline n
  | negSucc n =>
    show Char.ofNat 10 ∉ ("-" ++ Nat.repr (n + 1)).data
    rw [String.data_append]
    intro h
    rcases List.mem_append.mp h with h | h
    · revert h
      decide
    · exact toString_nat_no_newline (n + 1) h

theorem append_sep_inj (sep : Char) (l1 : List Char) :
    ∀ (l2 r1 r2 : List Char), sep ∉ l1 → sep ∉ l2 →
      l1 ++ sep :: r1 = l2 ++ sep :: r2 → l1 = l2 ∧ r1 = r2 := by
  induction l1 with
  | nil =>
    intro l2 r1 r2 _ h2 h
    cases l2 with
    | nil => exact ⟨rfl, by simpa using h⟩
    | cons x l2 =>
      simp only [List.nil_append, List.cons_append, List.cons.injEq] at h
      exact absurd (h.1 ▸ List.mem_cons_self _ _) h2
  | cons x l1 ih =>
    intro l2 r1 r2 h1 h2 h
    cases l2 with
    | nil =>
      simp only [List.nil_append, List.cons_append, List.cons.injEq] at h
      exact absurd (h.1 ▸ List.mem_cons_self _ _) h1
    | cons y l2 =>
      simp only [List.cons_append, List.cons.injEq] at h
      obtain ⟨g1, g2⟩ := ih l2 r1 r2 (fun hm => h1 (List.mem_cons_of_mem _ hm))
        (fun hm => h2 (List.mem_cons_of_mem _ hm)) h.2
      exact ⟨by rw [h.1, g1], g2⟩

/-- Lines without a line break inside, each closed by one, can be read back from
their concatenation. -/
theorem flatten_lines_inj (sep : Char) (L1 : List (List Char)) :
    ∀ L2 : List (List Char), (∀ b ∈ L1, sep ∉ b) → (∀ b ∈ L2, sep ∉ b) →
      (L1.map fun b => b ++ [sep]).flatten = (L2.map fun b => b ++ [sep]).flatten → L1 = L2 := by
  induction L1 with
  | nil =>
    intro L2 _ _ h
    cases L2 with
    | nil => rfl
    | cons b2 r2 => simp at h
  | cons b1 r1 ih =>
    intro L2 h1 h2 h
    cases L2 with
    | nil => simp at h
    | cons b2 r2 =>
      simp only [List.map_cons, List.flatten_cons, List.append_assoc, List.singleton_append] at h
      obtain ⟨g1, g2⟩ := append_sep_inj sep b1 b2 _ _ (h1 b1 (List.mem_cons_self _ _))
        (h2 b2 (List.mem_cons_self _ _)) h
      rw [g1, ih r2 (fun b hb => h1 b (List.mem_cons_of_mem _ hb))
        (fun b hb => h2 b (List.mem_cons_of_mem _ hb)) g2]

theorem join_data (l : List String) : (String.join l).data = (l.map String.data).flatten := by
  have hgen : ∀ (l : List String) (init : String),
      (l.foldl (fun b post => b ++ post) init).data = init.data ++ (l.map String.data).flatten := by
    intro l
    induction l with
    | nil => intro init; simp
    | cons m rest ih =>
      intro init
      rw [List.foldl_cons, ih, String.data_append]
      simp [List.append_assoc]
  have := hgen l ""
  simpa [String.join] using this

/-- The bytes of a report determine its lines. -/
theorem report_inj (title : String) (L1 L2 : List String)
    (h : report title L1 = report title L2) :
    (L1.map String.data).flatten = (L2.map String.data).flatten := by
  unfold report at h
  have hd := congrArg String.data h
  simp only [String.data_append, List.append_assoc] at hd
  have h1 := List.append_cancel_left hd
  have h2 := List.append_cancel_left h1
  have h3 := List.append_cancel_left h2
  have h4 := List.append_cancel_left h3
  have h5 := List.append_cancel_left h4
  have h6 := List.append_cancel_right h5
  rw [join_data, join_data] at h6
  exact h6

/-- The line of an author without its closing line break. -/
theorem line_data (qty : Int) (a : String) :
    ("(" ++ toString qty ++ ") - " ++ a ++ " \n").data =
      (('(' :: (toString qty).data ++ [')', ' ', '-', ' ']) ++ a.data ++ [' '])
        ++ [Char.ofNat 10] := by
  simp only [String.data_append]
  simp [List.append_assoc]

/-- Two lists of authors without line breaks in their names give the same report
only when their lines agree place by place. -/
theorem report_lines_inj (c : Counts) (title : String) (A1 A2 : List String)
    (h1 : ∀ a ∈ A1, Char.ofNat 10 ∉ a.data) (h2 : ∀ a ∈ A2, Char.ofNat 10 ∉ a.data)
    (h : report title (A1.map fun a => "(" ++ toString (c.get a) ++ ") - " ++ a ++ " \n") =
      report title (A2.map fun a => "(" ++ toString (c.get a) ++ ") - " ++ a ++ " \n")) :
    (A1.map fun a => ('(' :: (toString (c.get a)).data ++ [')', ' ', '-', ' ']) ++ a.data ++ [' ']) =
      (A2.map fun a => ('(' :: (toString (c.get a)).data ++ [')', ' ', '-', ' ']) ++ a.data ++ [' ']) := by
  have hflat := report_inj title _ _ h
  simp only [List.map_map, Function.comp_def, line_data] at hflat
  have hbody : ∀ (A : List String), (∀ a ∈ A, Char.ofNat 10 ∉ a.data) →
      ∀ b ∈ A.map (fun a =>
        ('(' :: (toString (c.get a)).data ++ [')', ' ', '-', ' ']) ++ a.data ++ [' ']),
        Char.ofNat 10 ∉ b := by
    intro A hA b hb
    obtain ⟨a, ha, rfl⟩ := List.mem_map.mp hb
    intro hmem
    rcases List.mem_append.mp hmem with h | h
    · rcases List.mem_append.mp h with h | h
      · rcases List.mem_cons.mp h with h | h
        · exact absurd h (by decide)
        · rcases List.mem_append.mp h with h | h
          · exact toString_int_no_newline _ h
          · exact absurd h (by decide)
      · exact hA a ha h
    · exact absurd h (by decide)
  apply flatten_lines_inj (Char.ofNat 10) _ _ (hbody A1 h1) (hbody A2 h2)
  simpa [List.map_map, Function.comp_def] using hflat

end PostService

namespace PostService

/-- For `num ≥ 0` and counts `counts`, the outcome of `UpdateTopNAuthors` and its
single write are determined by the first `num` authors of the sorted
enumeration. -/
theorem UpdateTopNAuthors_eq (s : Service) (order : List String → List String)
    (subreddit : String) (num : Int) (counts : Counts) (hnum : 0 ≤ num)
    (hfetch : s.fetchTopAuthors subreddit = .ok counts) :
    s.UpdateTopNAuthors order subreddit num =
      (match s.writer (report ("Top " ++ toString num ++ " Authors (" ++ subreddit ++ ")")
          (((sortAuthors counts (order (counts.map Prod.fst))).take num.toNat).map
            fun a => "(" ++ toString (counts.get a) ++ ") - " ++ a ++ " \n")) with
       | some err =>
         Outcome.returned (some (Err.Wrapped "write: " (Err.Wrapped "error writing msg: " err)))
       | none => Outcome.returned none,
       [report ("Top " ++ toString num ++ " Authors (" ++ subreddit ++ ")")
        (((sortAuthors counts (order (counts.map Prod.fst))).take num.toNat).map
          fun a => "(" ++ toString (counts.get a) ++ ") - " ++ a ++ " \n")]) := by
  have hcol := collectAuthorPosts_eq counts num hnum
    (sortAuthors counts (order (counts.map Prod.fst))) 0 [] (by omega)
  simp only [List.nil_append, Nat.sub_zero] at hcol
  unfold Service.UpdateTopNAuthors
  simp only [hfetch, hcol, List.length_map, List.length_take]
  have hk : ¬ (min num ((min (num.toNat + 2)
        (sortAuthors counts (order (counts.map Prod.fst))).length : Nat) : Int) < 0 ∨
      ((min (num.toNat + 2)
        (sortAuthors counts (order (counts.map Prod.fst))).length : Nat) : Int) <
        min num ((min (num.toNat + 2)
          (sortAuthors counts (order (counts.map Prod.fst))).length : Nat) : Int)) := by
    omega
  have htake : (min num ((min (num.toNat + 2)
        (sortAuthors counts (order (counts.map Prod.fst))).length : Nat) : Int)).toNat
      = min num.toNat (sortAuthors counts (order (counts.map Prod.fst))).length := by
    omega
  rw [if_neg hk, htake, write_eq_report]
  have hlines : (List.take (min num.toNat (sortAuthors counts (order (counts.map Prod.fst))).length)
        ((List.take (num.toNat + 2) (sortAuthors counts (order (counts.map Prod.fst)))).map
          fun a => ({ Author := a, Qty := counts.get a } : AuthorPosts))).map AuthorPosts.String
      = ((sortAuthors counts (order (counts.map Prod.fst))).take num.toNat).map
          fun a => "(" ++ toString (counts.get a) ++ ") - " ++ a ++ " \n" := by
    rw [← List.map_take, List.take_take, List.map_map]
    have hmin : min (min num.toNat (sortAuthors counts (order (counts.map Prod.fst))).length)
        (num.toNat + 2) = min num.toNat (sortAuthors counts (order (counts.map Prod.fst))).length := by
      omega
    rw [hmin, take_min_length]
    rfl
  rw [hlines]
  cases s.writer (report ("Top " ++ toString num ++ " Authors (" ++ subreddit ++ ")")
    (((sortAuthors counts (order (counts.map Prod.fst))).take num.toNat).map
      fun a => "(" ++ toString (counts.get a) ++ ") - " ++ a ++ " \n")) <;> rfl

/-- The number of authors ahead of `a`, counted on the keys of the map. -/
theorem ahead_eq_countP (listings : List Listing) (counts : Counts)
    (hnd : (counts.map Prod.fst).Nodup)
    (hkeys : ∀ a, a ∈ counts.map Prod.fst ↔ a ∈ distinctAuthors listings)
    (hqty : ∀ a, counts.get a = authorCount listings a) (a : String) :
    (counts.map Prod.fst).countP (fun z => decide (counts.get a < counts.get z)) =
      ahead listings a := by
  have hperm : (counts.map Prod.fst).Perm (distinctAuthors listings) :=
    (List.perm_ext_iff_of_nodup hnd (List.nodup_dedup _)).mpr hkeys
  unfold ahead
  rw [hperm.countP_eq]
  simp only [hqty]

end PostService

/-! ## The claim on the enumeration order -/

/-- C23 amended: with `ahead a` the number of distinct authors that have more
entries than `a`, (1) when every two distinct authors with equal counts have at
least `num` authors ahead of them, so that no tie reaches the first `num` places,
the outcome of `UpdateTopNAuthors` and the bytes it writes are the same for any two
enumeration orders of the author-count map; (2) when two distinct authors `a` and
`b` have equal counts and fewer than `num` authors ahead of them, and no author
name contains a line break, the enumeration that yields `a` first and the one that
yields `b` first write different bytes. -/
theorem UpdateTopNAuthors_order_independent (s : PostService.Service) (subreddit : String)
    (num : Int) (listings : List Listing)
    (hfetch : s.client.FetchAllListings ("/r/" ++ subreddit) = .ok listings) :
    ((∀ a ∈ PostService.distinctAuthors listings, ∀ b ∈ PostService.distinctAuthors listings,
        a ≠ b → PostService.authorCount listings a = PostService.authorCount listings b →
          num ≤ (PostService.ahead listings a : Int)) →
      ∀ order1 order2 : List String → List String,
        (∀ l, (order1 l).Perm l) → (∀ l, (order2 l).Perm l) →
          s.UpdateTopNAuthors order1 subreddit num = s.UpdateTopNAuthors order2 subreddit num) ∧
    (∀ a ∈ PostService.distinctAuthors listings, ∀ b ∈ PostService.distinctAuthors listings,
      a ≠ b → PostService.authorCount listings a = PostService.authorCount listings b →
        (PostService.ahead listings a : Int) < num →
        (∀ x ∈ PostService.distinctAuthors listings, Char.ofNat 10 ∉ x.data) →
          (∀ l, (PostService.enumerateFirst a l).Perm l) ∧
          (∀ l, (PostService.enumerateFirst b l).Perm l) ∧
          (s.UpdateTopNAuthors (PostService.enumerateFirst a) subreddit num).2 ≠
            (s.UpdateTopNAuthors (PostService.enumerateFirst b) subreddit num).2) := by
  obtain ⟨counts, hcounts, hnd, hkeys, hqty⟩ :=
    PostService.fetchTopAuthors_counts s subreddit listings hfetch
  have hahead := PostService.ahead_eq_countP listings counts hnd hkeys hqty
  refine ⟨?_, ?_⟩
  · intro hties order1 order2 horder1 horder2
    by_cases hnum : num < 0
    · rw [PostService.UpdateTopNAuthors_panics_of_negative s order1 subreddit num listings hnum
          hfetch,
        PostService.UpdateTopNAuthors_panics_of_negative s order2 subreddit num listings hnum
          hfetch]
    · have hnum0 : 0 ≤ num := by omega
      have htake : (PostService.sortAuthors counts (order1 (counts.map Prod.fst))).take num.toNat =
          (PostService.sortAuthors counts (order2 (counts.map Prod.fst))).take num.toNat := by
        refine PostService.take_sorted_eq counts (counts.map Prod.fst) _ _ num.toNat hnd
          ((PostService.sortAuthors_perm counts _).trans (horder1 _))
          ((PostService.sortAuthors_perm counts _).trans (horder2 _))
          (PostService.sortAuthors_sorted counts _) (PostService.sortAuthors_sorted counts _) ?_
        intro a ha b hb hab hcount
        rw [hqty a, hqty b] at hcount
        have := hties a ((hkeys a).mp ha) b ((hkeys b).mp hb) hab hcount
        rw [hahead a]
        omega
      rw [PostService.UpdateTopNAuthors_eq s order1 subreddit num counts hnum0 hcounts,
        PostService.UpdateTopNAuthors_eq s order2 subreddit num counts hnum0 hcounts, htake]
  · intro a ha b hb hab hcount hlt hnames
    refine ⟨PostService.enumerateFirst_perm a, PostService.enumerateFirst_perm b, ?_⟩
    have hnum0 : 0 ≤ num := by omega
    have hak : a ∈ counts.map Prod.fst := (hkeys a).mpr ha
    have hbk : b ∈ counts.map Prod.fst := (hkeys b).mpr hb
    have hcab : counts.get a = counts.get b := by rw [hqty a, hqty b, hcount]
    have hfa := PostService.first_of_tie counts (counts.map Prod.fst) a hak
    have hfb := PostService.first_of_tie counts (counts.map Prod.fst) b hbk
    rw [hahead a] at hfa
    rw [← hcab, hahead a] at hfb
    have hp : PostService.ahead listings a < num.toNat := by omega
    have hclean : ∀ (order : List String → List String), (∀ l, (order l).Perm l) →
        ∀ x ∈ (PostService.sortAuthors counts (order (counts.map Prod.fst))).take num.toNat,
          Char.ofNat 10 ∉ x.data := by
      intro order horder x hx
      have hxs := List.mem_of_mem_take hx
      have hxk := (horder _).mem_iff.mp ((PostService.sortAuthors_perm counts _).mem_iff.mp hxs)
      exact hnames x ((hkeys x).mp hxk)
    intro heq
    rw [PostService.UpdateTopNAuthors_written s _ subreddit num counts hnum0 hcounts,
      PostService.UpdateTopNAuthors_written s _ subreddit num counts hnum0 hcounts] at heq
    have hrep := List.cons.inj heq
    have hbodies := PostService.report_lines_inj counts _ _ _
      (hclean _ (PostService.enumerateFirst_perm a))
      (hclean _ (PostService.enumerateFirst_perm b)) hrep.1
    have hat := congrArg (fun l => l[PostService.ahead listings a]?) hbodies
    simp only [List.getElem?_map, List.getElem?_take_of_lt hp, hfa, hfb, Option.map_some',
      Option.some.injEq, hcab] at hat
    have h1 := List.append_cancel_right hat
    have h2 := List.append_cancel_left h1
    exact hab (String.ext h2)

/-- Witness for C23 amended: on a listing whose leader has two entries and whose
two other authors have one each, the enumerations `id` and `reverse` write the same
report for `num` 1 (the tie lies behind the cut), while for `num` 2 the enumeration
that yields John Doe first and the one that yields Jane Doe first write different
bytes. -/
theorem UpdateTopNAuthors_order_independent_witness :
    PostService.lowTieService.UpdateTopNAuthors id "golang" 1 =
      PostService.lowTieService.UpdateTopNAuthors List.reverse "golang" 1 ∧
    (PostService.lowTieService.UpdateTopNAuthors
        (PostService.enumerateFirst "John Doe") "golang" 2).2 ≠
      (PostService.lowTieService.UpdateTopNAuthors
        (PostService.enumerateFirst "Jane Doe") "golang" 2).2 :=
  ⟨(UpdateTopNAuthors_order_independent PostService.lowTieService "golang" 1
      [PostService.lowTieListing] rfl).1 (by decide) id List.reverse
      (fun l => List.Perm.refl l) (fun l => List.reverse_perm l),
   ((UpdateTopNAuthors_order_independent PostService.lowTieService "golang" 2
      [PostService.lowTieListing] rfl).2 "John Doe" (by decide) "Jane Doe" (by decide)
      (by decide) (by decide) (by decide) (by decide)).2.2⟩

end Reddit
